import Mathlib

/-!
# Fault-tolerant task scheduler: job store, runner and poll loop

A shallow embedding of the claim / execute / settle protocol of the scheduler:

* `internal/domain/job.go`        : `JobStatus`, `Job`
* `internal/repo/mysql/job_repo.go` : `CreateJob`, `GetJobByID`, `GetJobByIdempotencyKey`,
  `ClaimJobs`, `MarkSuccess`, `MarkFailure`, `RecordStepOnce`
* `internal/worker/runner.go`     : `Runner.Process`, `Runner.scheduleRetry`
* `internal/worker/backoff.go`    : `BackoffConfig.Next`, `jittered`
* `cmd/worker/main.go`            : one tick of the poll loop and its queue-full release

The relational store is a pair of tables held as lists in insertion order.  Every SQL
statement is a pure function on that state; the storage layer itself never fails
(connection loss and driver errors are outside the model), so the only errors are the
ones the Go code raises itself.

Times are integers: nanoseconds since the zero instant of Go's `time.Time`, so that
`Time.IsZero` is `t = 0`.  Durations are integers of nanoseconds.  The columns
`created_at` and `updated_at` are written by the schema, never by the code, and are
left out of the row.
-/

namespace TaskScheduler

/-! ## Data model (`internal/domain/job.go`) -/

abbrev Time := Int

abbrev Duration := Int

/-- One millisecond, in nanoseconds (`time.Millisecond`). -/
def Millisecond : Duration := 1000000

inductive JobStatus where
  | PENDING
  | RUNNING
  | SUCCESS
  | FAILED
deriving DecidableEq, Repr

/-- Row of the `jobs` table, as read back by `scanJob`. -/
structure Job where
  ID : String
  JobType : String
  Payload : String
  Status : JobStatus
  Attempts : Int
  MaxAttempts : Int
  NextRunAt : Option Time
  IdempotencyKey : Option String
  StartedAt : Option Time
  CompletedAt : Option Time
  ErrorMessage : Option String
  LockedBy : Option String
  LockedUntil : Option Time
deriving DecidableEq, Repr

/-- Row of the `job_executions` table. -/
structure StepMarker where
  job_id : String
  step_key : String
  result_hash : Option String
deriving DecidableEq, Repr

/-- The database: both tables, rows in insertion order. -/
structure Store where
  jobs : List Job
  job_executions : List StepMarker
deriving DecidableEq, Repr

/-- The store before any row was inserted. -/
def Store.empty : Store := { jobs := [], job_executions := [] }

/-- Outcome of a repository call: the Go `error` (its message) or the value. -/
inductive Result (α : Type) where
  | ok (val : α)
  | error (msg : String)
deriving DecidableEq, Repr

/-- The call returned a nil error. -/
def Result.isOk {α : Type} : Result α → Bool
  | .ok _ => true
  | .error _ => false

/-- Primary key of `jobs`: no two rows share an `id`. -/
def PrimaryKey (db : Store) : Prop := (db.jobs.map (fun j => j.ID)).Nodup

/-- Unique index of `jobs`: no two rows share a non-null `idempotency_key`. -/
def UniqueKey (db : Store) : Prop := (db.jobs.filterMap (fun j => j.IdempotencyKey)).Nodup

instance (db : Store) : Decidable (PrimaryKey db) := by unfold PrimaryKey; infer_instance

instance (db : Store) : Decidable (UniqueKey db) := by unfold UniqueKey; infer_instance

/-! ## Submitter operations (`job_repo.go`, API methods) -/

/-- Modelled from the spec: the schema of `jobs` is not part of the sources; spec 6.1
gives it a primary key on `id` and a unique index on `idempotency_key` in which nulls
do not collide.  The `INSERT` is refused (`none`) exactly when one of the two is
violated; otherwise the row is appended. -/
def insertJob (db : Store) (row : Job) : Option Store :=
  if row.ID ∈ db.jobs.map (fun j => j.ID) then none
  else
    match row.IdempotencyKey with
    | some k =>
      if k ∈ db.jobs.filterMap (fun j => j.IdempotencyKey) then none
      else some { db with jobs := db.jobs ++ [row] }
    | none => some { db with jobs := db.jobs ++ [row] }

/-- Lookup `SELECT ... FROM jobs WHERE id = ?`; `none` is the Go `(nil, nil)`. -/
def GetJobByID (db : Store) (id : String) : Option Job :=
  db.jobs.find? (fun j => decide (j.ID = id))

/-- Lookup `SELECT ... FROM jobs WHERE idempotency_key = ? LIMIT 1`. -/
def GetJobByIdempotencyKey (db : Store) (key : String) : Option Job :=
  db.jobs.find? (fun j => decide (j.IdempotencyKey = some key))

/-- Embedding of `JobRepo.CreateJob`; `now` is the store clock read by `NOW(6)`.  The value is the
`*domain.Job` returned (`none` for a nil pointer). -/
def CreateJob (db : Store) (now : Time) (id jobType payload : String) (maxAttempts : Int)
    (idempotencyKey : Option String) : Result (Option Job) × Store :=
  if id = "" then (.error "id is required", db)
  else if jobType = "" then (.error "jobType is required", db)
  else if payload = "" then (.error "payload is required", db)
  else
    let maxAttempts := if maxAttempts ≤ 0 then 3 else maxAttempts
    match insertJob db
        { ID := id, JobType := jobType, Payload := payload, Status := .PENDING,
          Attempts := 0, MaxAttempts := maxAttempts, NextRunAt := some now,
          IdempotencyKey := idempotencyKey, StartedAt := none, CompletedAt := none,
          ErrorMessage := none, LockedBy := none, LockedUntil := none } with
    | none =>
      match idempotencyKey with
      | some k =>
        match GetJobByIdempotencyKey db k with
        | some existing => (.ok (some existing), db)
        | none => (.error "insert job", db)
      | none => (.error "insert job", db)
    | some db' => (.ok (GetJobByID db' id), db')

/-! ## Worker operations (`job_repo.go`, worker methods) -/

/-- SQL `x IS NULL OR x <= now`. -/
def nullOrLe (x : Option Time) (now : Time) : Bool :=
  match x with
  | none => true
  | some t => decide (t ≤ now)

/-- SQL `x IS NOT NULL AND x <= now`. -/
def notNullAndLe (x : Option Time) (now : Time) : Bool :=
  match x with
  | none => false
  | some t => decide (t ≤ now)

/-- The `WHERE` clause of the claim query. -/
def eligible (now : Time) (j : Job) : Bool :=
  (decide (j.Status = .PENDING) && nullOrLe j.NextRunAt now && nullOrLe j.LockedUntil now)
    || (decide (j.Status = .RUNNING) && notNullAndLe j.LockedUntil now)

/-- SQL `ORDER BY next_run_at ASC`: nulls sort first. -/
def nextRunAtLe (a b : Job) : Bool :=
  match a.NextRunAt, b.NextRunAt with
  | none, _ => true
  | some _, none => false
  | some x, some y => decide (x ≤ y)

/-- The claim query: eligible rows, ordered by `next_run_at` (ties in insertion order), cut at
`LIMIT`.  Run sequentially, so `SKIP LOCKED` skips nothing. -/
def selectEligible (jobs : List Job) (now : Time) (limit : Int) : List Job :=
  ((jobs.filter (eligible now)).insertionSort (fun a b => nextRunAtLe a b = true)).take limit.toNat

/-- The `SET` clause of the claim update. -/
def leased (workerID : String) (leaseUntil now : Time) (j : Job) : Job :=
  { j with
    Status := .RUNNING
    LockedBy := some workerID
    LockedUntil := some leaseUntil
    StartedAt := some (j.StartedAt.getD now) }

/-- One `UPDATE jobs SET ... WHERE id = ?` of the claim loop. -/
def leaseUpdate (workerID : String) (leaseUntil now : Time) (jobs : List Job) (id : String) :
    List Job :=
  jobs.map (fun j => if j.ID = id then leased workerID leaseUntil now j else j)

/-- Embedding of `JobRepo.ClaimJobs`: select the ids, update each, read each back, commit. -/
def ClaimJobs (db : Store) (workerID : String) (limit : Int) (lease : Duration) (now : Time) :
    Result (List Job) × Store :=
  if workerID = "" then (.error "workerID required", db)
  else
    let limit := if limit ≤ 0 then 10 else limit
    let leaseUntil := now + lease
    let ids := (selectEligible db.jobs now limit).map (fun j => j.ID)
    if ids.length = 0 then (.ok [], db)
    else
      let jobs' := ids.foldl (leaseUpdate workerID leaseUntil now) db.jobs
      let claimed := ids.filterMap (fun id => jobs'.find? (fun j => decide (j.ID = id)))
      (.ok claimed, { db with jobs := jobs' })

/-- The jobs a `ClaimJobs` call returned (none on error). -/
def claimedJobs : Result (List Job) → List Job
  | .ok l => l
  | .error _ => []

/-- The `SET` clause of `MarkSuccess`. -/
def succeeded (completedAt : Time) (j : Job) : Job :=
  { j with
    Status := .SUCCESS
    CompletedAt := some completedAt
    ErrorMessage := none
    LockedBy := none
    LockedUntil := none }

/-- Rows matched by `WHERE id = ? AND status = 'RUNNING'`. -/
def runningWithID (jobID : String) (j : Job) : Bool :=
  decide (j.ID = jobID) && decide (j.Status = .RUNNING)

/-- Embedding of `JobRepo.MarkSuccess`; `clock` is the value `time.Now()` would return. -/
def MarkSuccess (db : Store) (clock : Time) (jobID : String) (completedAt : Time) :
    Result Unit × Store :=
  if jobID = "" then (.error "jobID is required", db)
  else
    let completedAt := if completedAt = 0 then clock else completedAt
    let aff := (db.jobs.filter (runningWithID jobID)).length
    let db' : Store :=
      { db with jobs := db.jobs.map (fun j => if runningWithID jobID j then succeeded completedAt j else j) }
    if aff = 0 then (.error "mark success rejected: job not RUNNING or not found", db')
    else (.ok (), db')

/-- The `SET` clause of `MarkFailure`. -/
def failedWith (status : JobStatus) (attempts : Int) (next comp : Option Time) (errMsg : String)
    (j : Job) : Job :=
  { j with
    Status := status
    Attempts := attempts
    NextRunAt := next
    CompletedAt := comp
    ErrorMessage := some errMsg
    LockedBy := none
    LockedUntil := none }

/-- Embedding of `JobRepo.MarkFailure`; `clock` is the value `time.Now()` would return. -/
def MarkFailure (db : Store) (clock : Time) (jobID : String) (attempts : Int)
    (nextRunAt : Option Time) (errMsg : String) (terminal : Bool) (completedAt : Option Time) :
    Result Unit × Store :=
  if jobID = "" then (.error "jobID is required", db)
  else
    let errMsg := if errMsg = "" then "unknown error" else errMsg
    let status := if terminal then JobStatus.FAILED else JobStatus.PENDING
    let comp : Option Time :=
      if terminal then
        match completedAt with
        | some t => some t
        | none => some clock
      else none
    let next : Option Time := if terminal then none else nextRunAt
    let aff := (db.jobs.filter (runningWithID jobID)).length
    let db' : Store :=
      { db with jobs := db.jobs.map (fun j =>
          if runningWithID jobID j then failedWith status attempts next comp errMsg j else j) }
    if aff = 0 then (.error "mark failure rejected: job not RUNNING or not found", db')
    else (.ok (), db')

/-- Modelled from the spec: the schema of `job_executions` is not part of the sources; spec 6.1
gives it the composite primary key `(job_id, step_key)`.  The `INSERT` is refused with a
duplicate-key error (`none`) exactly when the key is present. -/
def insertStep (db : Store) (m : StepMarker) : Option Store :=
  if (m.job_id, m.step_key) ∈ db.job_executions.map (fun x => (x.job_id, x.step_key)) then none
  else some { db with job_executions := db.job_executions ++ [m] }

/-- Embedding of `JobRepo.RecordStepOnce`. -/
def RecordStepOnce (db : Store) (jobID stepKey : String) (resultHash : Option String) :
    Result Bool × Store :=
  if jobID = "" then (.error "jobID is required", db)
  else if stepKey = "" then (.error "stepKey is required", db)
  else
    match insertStep db { job_id := jobID, step_key := stepKey, result_hash := resultHash } with
    | none => (.ok false, db)
    | some db' => (.ok true, db')

/-! ## Machine integers

Go's `int` is taken 64 bits wide, as on amd64 and arm64.  Rows and snapshots carry their
counters as integers; an `int` expression of the source that can leave the range of `int` is
wrapped explicitly. -/

/-- The constant `math.MinInt`, the least `int`: `-2^63`. -/
def MinInt : Int := -9223372036854775808

/-- The constant `math.MaxInt`, the greatest `int`: `2^63 - 1`. -/
def MaxInt : Int := 9223372036854775807

/-- The values of Go's `int`. -/
abbrev GoInt : Type := { n : Int // MinInt ≤ n ∧ n ≤ MaxInt }

/-- The value of an `int` expression whose mathematical value is `n`: the arithmetic of `int`
wraps around modulo `2^64`. -/
def wrapInt (n : Int) : Int := (n - MinInt) % 18446744073709551616 + MinInt

/-! ## Runner (`internal/worker/pool.go`, `internal/worker/runner.go`) -/

/-- The pool's `worker.Job`: what the poll loop copies out of a claimed row. -/
structure WorkerJob where
  ID : String
  Attempts : Int
  MaxAttempts : Int
deriving DecidableEq, Repr

/-- The `Runner`.  `Backoff` is `BackoffConfig.Next` with the jitter draw of the call fixed;
the logger and the failure rate (which only decides `failed` below) are left out. -/
structure Runner where
  Backoff : Int → Duration
  StepKeyOK : String

/-- Embedding of `NewRunner`. -/
def NewRunner (backoff : Int → Duration) : Runner :=
  { Backoff := backoff, StepKeyOK := "execute_success" }

/-- The snapshot the poll loop submits for a claimed row. -/
def Job.toWorkerJob (j : Job) : WorkerJob :=
  { ID := j.ID, Attempts := j.Attempts, MaxAttempts := j.MaxAttempts }

/-- Embedding of `Runner.scheduleRetry`; `now` is the value of `time.Now()`.  The sum
`job.Attempts + 1` is an `int` and wraps. -/
def Runner.scheduleRetry (r : Runner) (db : Store) (now : Time) (job : WorkerJob)
    (msg : String) : Store :=
  let nextAttempts := wrapInt (job.Attempts + 1)
  let terminal := decide (nextAttempts ≥ job.MaxAttempts)
  if terminal then
    (MarkFailure db now job.ID nextAttempts none msg true (some now)).2
  else
    let delay := r.Backoff nextAttempts
    let nextRun := now + delay
    (MarkFailure db now job.ID nextAttempts (some nextRun) msg false none).2

/-- Embedding of `Runner.Process`.  `failed` is the outcome of the simulated work
(`rand.Float64() < r.FailRate`), `now` the value of `time.Now()` at settlement.  Settlement
errors are only logged, so the result is the store.  The sum `job.Attempts + 1` is an `int`
and wraps. -/
def Runner.Process (r : Runner) (db : Store) (failed : Bool) (now : Time) (job : WorkerJob) :
    Store :=
  if !failed then
    match RecordStepOnce db job.ID r.StepKeyOK none with
    | (.error _, db1) => r.scheduleRetry db1 now job "record-step failed"
    | (.ok _, db1) => (MarkSuccess db1 now job.ID now).2
  else
    let nextAttempts := wrapInt (job.Attempts + 1)
    let terminal := decide (nextAttempts ≥ job.MaxAttempts)
    if terminal then
      (MarkFailure db now job.ID nextAttempts none "simulated failure" true (some now)).2
    else
      let delay := r.Backoff nextAttempts
      let nextRun := now + delay
      (MarkFailure db now job.ID nextAttempts (some nextRun) "simulated failure" false none).2

/-! ## Poll loop (`cmd/worker/main.go`) -/

/-- The backpressure branch of the poll loop: `pool.Submit` returned false for the claimed
row `j`, and the lease is released at time `now`. -/
def releaseQueueFull (db : Store) (now : Time) (j : Job) : Result Unit × Store :=
  let next := now + 250 * Millisecond
  MarkFailure db now j.ID j.Attempts (some next) "queue full - rescheduled" false none

/-! ## Sequences of operations -/

/-- A call of one of the store's mutating operations. -/
inductive StoreOp where
  | createJob (now : Time) (id jobType payload : String) (maxAttempts : Int)
      (idempotencyKey : Option String)
  | claimJobs (workerID : String) (limit : Int) (lease : Duration) (now : Time)
  | markSuccess (clock : Time) (jobID : String) (completedAt : Time)
  | markFailure (clock : Time) (jobID : String) (attempts : Int) (nextRunAt : Option Time)
      (errMsg : String) (terminal : Bool) (completedAt : Option Time)
  | recordStepOnce (jobID stepKey : String) (resultHash : Option String)
deriving DecidableEq, Repr

/-- The store after the call. -/
def StoreOp.apply (db : Store) : StoreOp → Store
  | .createJob now id jobType payload maxAttempts key =>
    (CreateJob db now id jobType payload maxAttempts key).2
  | .claimJobs workerID limit lease now => (ClaimJobs db workerID limit lease now).2
  | .markSuccess clock jobID completedAt => (MarkSuccess db clock jobID completedAt).2
  | .markFailure clock jobID attempts nextRunAt errMsg terminal completedAt =>
    (MarkFailure db clock jobID attempts nextRunAt errMsg terminal completedAt).2
  | .recordStepOnce jobID stepKey resultHash => (RecordStepOnce db jobID stepKey resultHash).2

/-- The store after a sequence of calls, first call first. -/
def StoreOp.run (db : Store) (ops : List StoreOp) : Store := ops.foldl StoreOp.apply db

/-- The call is a `MarkSuccess` on `jobID` that returned no error, that is, affected a row. -/
def StoreOp.settlesOk (db : Store) (jobID : String) : StoreOp → Bool
  | .markSuccess clock id completedAt =>
    decide (id = jobID) && (MarkSuccess db clock id completedAt).1.isOk
  | _ => false

/-- Number of `MarkSuccess` calls on `jobID` that affected a row along a sequence of calls. -/
def successCount (jobID : String) : Store → List StoreOp → Nat
  | _, [] => 0
  | db, op :: ops =>
    (if op.settlesOk db jobID then 1 else 0) + successCount jobID (op.apply db) ops

/-- State of the whole system: the store and the claimed rows not yet handed to a settlement
(queued in some pool, being executed, or awaiting release). -/
structure Sys where
  db : Store
  held : List Job

/-- The system before anything happened. -/
def Sys.init : Sys := { db := Store.empty, held := [] }

/-- One sequential step of the system.  The `maxAttempts` of `create` is the `int` argument of
`CreateJob`. -/
inductive SysOp where
  | create (now : Time) (id jobType payload : String) (maxAttempts : GoInt)
      (idempotencyKey : Option String)
  | claim (workerID : String) (limit : Int) (lease : Duration) (now : Time)
  | process (i : Nat) (r : Runner) (failed : Bool) (now : Time)
  | release (i : Nat) (now : Time)

/-- Effect of a step.  `process i` runs `Runner.Process` on the `i`-th held row, `release i`
runs the queue-full release on it; both consume it. -/
def Sys.step (s : Sys) : SysOp → Sys
  | .create now id jobType payload maxAttempts key =>
    { s with db := (CreateJob s.db now id jobType payload maxAttempts.val key).2 }
  | .claim workerID limit lease now =>
    match ClaimJobs s.db workerID limit lease now with
    | (.ok claimed, db') => { db := db', held := s.held ++ claimed }
    | (.error _, db') => { s with db := db' }
  | .process i r failed now =>
    match s.held[i]? with
    | some j => { db := r.Process s.db failed now j.toWorkerJob, held := s.held.eraseIdx i }
    | none => s
  | .release i now =>
    match s.held[i]? with
    | some j => { db := (releaseQueueFull s.db now j).2, held := s.held.eraseIdx i }
    | none => s

/-- The system after a sequence of steps. -/
def Sys.run (s : Sys) (ops : List SysOp) : Sys := ops.foldl Sys.step s

/-- The held row a step settles from, if it is a `process` or a `release`. -/
def SysOp.settles (s : Sys) : SysOp → Option Job
  | .process i _ _ _ => s.held[i]?
  | .release i _ => s.held[i]?
  | _ => none

/-- The step settles (by `Process` or by release) from a held row for job `j` that records
fewer attempts than `j` has now: a stale snapshot. -/
def staleSettlement (s : Sys) (op : SysOp) (j : Job) : Prop :=
  ∃ h, op.settles s = some h ∧ h.ID = j.ID ∧ h.Attempts < j.Attempts

/-! ## Row transitions and invariants -/

/-- What a single call of a store operation can do to an existing row: nothing, the claim
update on a `PENDING` or `RUNNING` row, or one of the two settlement updates on a `RUNNING`
row (a terminal failure always with a completion time). -/
def RowStep (j j' : Job) : Prop :=
  j' = j ∨
  ((j.Status = .PENDING ∨ j.Status = .RUNNING) ∧ ∃ w lu now, j' = leased w lu now j) ∨
  (j.Status = .RUNNING ∧ ∃ c, j' = succeeded c j) ∨
  (j.Status = .RUNNING ∧ ∃ n nx m, j' = failedWith .PENDING n nx none m j) ∨
  (j.Status = .RUNNING ∧ ∃ n nx c m, j' = failedWith .FAILED n nx (some c) m j)

/-- The row that `CreateJob` inserts: a new id, a new key, `PENDING`, no attempts, no lease. -/
def Fresh (db : Store) (r : Job) : Prop :=
  r.ID ∉ db.jobs.map (fun j => j.ID) ∧
  (∀ k, r.IdempotencyKey = some k → k ∉ db.jobs.filterMap (fun j => j.IdempotencyKey)) ∧
  r.ID ≠ "" ∧ r.Status = .PENDING ∧ r.Attempts = 0 ∧ 0 < r.MaxAttempts ∧
  r.LockedBy = none ∧ r.LockedUntil = none

/-- The invariants I1, I2 and I3 of a row. -/
def RowInvariant (j : Job) : Prop :=
  (j.Status = .RUNNING → j.LockedBy ≠ none ∧ j.LockedUntil ≠ none) ∧
  (j.Status = .SUCCESS ∨ j.Status = .FAILED →
    j.LockedBy = none ∧ j.LockedUntil = none ∧ j.CompletedAt ≠ none)

/-- What one step of the system can do to an existing row `j`: nothing, the claim update, the
success settlement, or a failure settlement from the held row `h` the step settles from, with
the attempts of `h` plus one, as an `int` (`Process`), or the attempts of `h` (release). -/
def SysRowStep (s : Sys) (op : SysOp) (j j' : Job) : Prop :=
  j' = j ∨
  ((j.Status = .PENDING ∨ j.Status = .RUNNING) ∧ ∃ w lu now, j' = leased w lu now j) ∨
  (j.Status = .RUNNING ∧ ∃ c, j' = succeeded c j) ∨
  (∃ h, op.settles s = some h ∧ h.ID = j.ID ∧ j.Status = .RUNNING ∧
    ((∃ nx cp m, j' = failedWith
        (if wrapInt (h.Attempts + 1) ≥ h.MaxAttempts then JobStatus.FAILED
          else JobStatus.PENDING)
        (wrapInt (h.Attempts + 1)) nx cp m j) ∨
      (∃ nx cp m, j' = failedWith .PENDING h.Attempts nx cp m j)))

/-- Invariant of the system: the primary key holds, no row exceeds its `max_attempts`, a row
that can still run is strictly below it, and every held row is strictly below the
`max_attempts` it shares with the stored row of its id; attempts are never negative and
`max_attempts` is an `int`, so that the increment of the runner does not wrap. -/
def SysInvariant (s : Sys) : Prop :=
  PrimaryKey s.db ∧
  (∀ j ∈ s.db.jobs, j.Attempts ≤ j.MaxAttempts ∧
    (j.Status = .PENDING ∨ j.Status = .RUNNING → j.Attempts < j.MaxAttempts) ∧
    0 ≤ j.Attempts ∧ j.MaxAttempts ≤ MaxInt) ∧
  (∀ h ∈ s.held, h.Attempts < h.MaxAttempts ∧ 0 ≤ h.Attempts ∧
    ∃ j ∈ s.db.jobs, j.ID = h.ID ∧ j.MaxAttempts = h.MaxAttempts)

/-! ## Rounds of claim and process -/

/-- One round of a worker: the poll loop of worker `workerID` claims at time `claimedAt` and
offers every claimed job to the pool, in the order of the claim.  `submit j` is the value of
`pool.Submit` for the claimed row `j`: when true the runner executes and settles the job,
`failed j` being the outcome of its work; when false the poll loop releases it.  `clock j` is
the value of `time.Now()` at that settlement or release and `runner` the runner of the
worker.  The pool of the source executes asynchronously; a round has every job it claimed
settled before the next claim, which is what a lease that outlasts the work gives. -/
structure Round where
  workerID : String
  runner : Runner
  limit : Int
  lease : Duration
  claimedAt : Time
  submit : Job → Bool
  failed : Job → Bool
  clock : Job → Time

/-- What a round does with one claimed row. -/
def Round.settle (rd : Round) (db : Store) (j : Job) : Store :=
  if rd.submit j then rd.runner.Process db (rd.failed j) (rd.clock j) j.toWorkerJob
  else (releaseQueueFull db (rd.clock j) j).2

/-- The store after the round. -/
def Round.run (db : Store) (rd : Round) : Store :=
  match ClaimJobs db rd.workerID rd.limit rd.lease rd.claimedAt with
  | (.ok claimed, db') => claimed.foldl rd.settle db'
  | (.error _, db') => db'

/-- The store after a sequence of rounds, first round first. -/
def runRounds (db : Store) (rounds : List Round) : Store :=
  rounds.foldl Round.run db

/-- The round is a claim-and-process round of the job `id`: it claims the job and the runner
executes it. -/
def Round.processes (db : Store) (id : String) (rd : Round) : Bool :=
  (claimedJobs (ClaimJobs db rd.workerID rd.limit rd.lease rd.claimedAt).1).any
    (fun j => decide (j.ID = id) && rd.submit j)

/-- The work of the job `id` fails whenever the round executes it. -/
def Round.failsOn (db : Store) (id : String) (rd : Round) : Bool :=
  (claimedJobs (ClaimJobs db rd.workerID rd.limit rd.lease rd.claimedAt).1).all
    (fun j => !(decide (j.ID = id) && rd.submit j) || rd.failed j)

/-- Number of claim-and-process rounds of the job `id` in a sequence of rounds. -/
def processCount (id : String) : Store → List Round → Nat
  | _, [] => 0
  | db, rd :: rest => (if rd.processes db id then 1 else 0) + processCount id (rd.run db) rest

/-- The work of the job `id` always fails: it does in every round of the sequence that
executes it. -/
def alwaysFails (id : String) : Store → List Round → Bool
  | _, [] => true
  | db, rd :: rest => rd.failsOn db id && alwaysFails id (rd.run db) rest

/-! ## Concrete stores used to instantiate the theorems -/

/-- Store used to instantiate the theorems: one pending row and one row leased to `A`. -/
def demoStore : Store :=
  { jobs :=
      [ { ID := "j1", JobType := "email", Payload := "p", Status := .PENDING, Attempts := 0,
          MaxAttempts := 3, NextRunAt := some 5, IdempotencyKey := some "K", StartedAt := none,
          CompletedAt := none, ErrorMessage := none, LockedBy := none, LockedUntil := none },
        { ID := "j2", JobType := "email", Payload := "q", Status := .RUNNING, Attempts := 1,
          MaxAttempts := 3, NextRunAt := some 2, IdempotencyKey := none, StartedAt := some 3,
          CompletedAt := none, ErrorMessage := some "simulated failure", LockedBy := some "A",
          LockedUntil := some 40 } ],
    job_executions := [] }

/-- A store holding one job, created at time 0 with `max_attempts = 3`. -/
def createdStore : Store := (CreateJob Store.empty 0 "j1" "email" "p" 3 none).2

/-- Worker `A` claimed the job at time 1 with a lease of 10: the lease runs until 11. -/
def claimedByA : Store := (ClaimJobs createdStore "A" 1 10 1).2

/-- The row of `claimedByA`: the job as `A` holds it. -/
def claimedRow : Job :=
  { ID := "j1", JobType := "email", Payload := "p", Status := .RUNNING, Attempts := 0,
    MaxAttempts := 3, NextRunAt := some 0, IdempotencyKey := none, StartedAt := some 1,
    CompletedAt := none, ErrorMessage := none, LockedBy := some "A", LockedUntil := some 11 }

/-- The lease of `A` ran out and worker `B` re-claimed the job at time 20 with a lease of 10:
the lease of `B` runs until 30. -/
def reclaimedByB : Store := (ClaimJobs claimedByA "B" 1 10 20).2

/-- The job of `claimedByA` after the `MarkSuccess` of `A` at time 5: a terminal row. -/
def settledStore : Store := (MarkSuccess claimedByA 5 "j1" 5).2

/-- Two jobs: `k`, due at 1, and `j`, due at 5. -/
def twoJobs : Store :=
  (CreateJob (CreateJob Store.empty 1 "k" "email" "p" 3 none).2 5 "j" "email" "p" 3 none).2

/-- Worker `A` claimed both jobs at time 10 with a lease of 5: both leases run until 15. -/
def twoClaimedByA : Store := (ClaimJobs twoJobs "A" 10 5 10).2

/-- A runner whose backoff delay is always one tick. -/
def demoRunner : Runner := NewRunner (fun _ => 1)

/-- A run in which the job is claimed by `A`, then, each time after the lease ran out, by `B`,
`C` and `D`; the work of `B` and of `C` failed, so the row has two attempts and is leased to
`D`, while the row that `A` holds (index 0) still records none. -/
def staleOps : List SysOp :=
  [ .create 0 "j1" "email" "p" ⟨5, by decide⟩ none,
    .claim "A" 1 10 1,
    .claim "B" 1 10 20,
    .process 1 (NewRunner (fun _ => 0)) true 21,
    .claim "C" 1 10 30,
    .process 1 (NewRunner (fun _ => 0)) true 31,
    .claim "D" 1 10 40 ]

/-- The calls that lead from the empty store to `claimedByA`. -/
def claimOps : List StoreOp :=
  [.createJob 0 "j1" "email" "p" 3 none, .claimJobs "A" 1 10 1]

/-- The job of `claimedByA`, put back at time 2 by a `MarkFailure` that records `MaxInt`
attempts and makes it due at time 3. -/
def maxedStore : Store :=
  (MarkFailure claimedByA 2 "j1" MaxInt (some 3) "retry" false none).2

/-- Worker `A` claimed the job of `maxedStore` at time 5 with a lease of 10. -/
def maxedByA : Store := (ClaimJobs maxedStore "A" 1 10 5).2

/-- The row of `maxedByA`: a claimed job with `MaxInt` attempts and `max_attempts = 3`. -/
def maxedRow : Job :=
  { ID := "j1", JobType := "email", Payload := "p", Status := .RUNNING, Attempts := MaxInt,
    MaxAttempts := 3, NextRunAt := some 3, IdempotencyKey := none, StartedAt := some 1,
    CompletedAt := none, ErrorMessage := some "retry", LockedBy := some "A",
    LockedUntil := some 15 }

/-- Three rounds.  `A` claims at time 1 and all work fails at time 2.  `B` claims at time 50
and, at time 51, the pool takes every job but `j9`, whose lease is released, and the work
succeeds.  `C`, whose backoff delay is 7 ticks, claims at time 300000000 and the work fails at
time 300000001. -/
def demoRounds : List Round :=
  [ { workerID := "A", runner := demoRunner, limit := 10, lease := 30, claimedAt := 1,
      submit := fun _ => true, failed := fun _ => true, clock := fun _ => 2 },
    { workerID := "B", runner := demoRunner, limit := 10, lease := 30, claimedAt := 50,
      submit := fun j => decide (j.ID ≠ "j9"), failed := fun _ => false,
      clock := fun _ => 51 },
    { workerID := "C", runner := NewRunner (fun _ => 7), limit := 10, lease := 30,
      claimedAt := 300000000, submit := fun _ => true, failed := fun _ => true,
      clock := fun _ => 300000001 } ]

/-! ## Step markers along a sequence of calls -/

/-- The composite keys `(job_id, step_key)` present in the step table. -/
def stepKeys (db : Store) : List (String × String) :=
  db.job_executions.map (fun x => (x.job_id, x.step_key))

/-- The call is a `RecordStepOnce` on the key `(jobID, stepKey)` that returned `true`. -/
def StoreOp.recordsStep (db : Store) (jobID stepKey : String) : StoreOp → Bool
  | .recordStepOnce id key resultHash =>
    decide (id = jobID) && decide (key = stepKey) &&
      decide ((RecordStepOnce db id key resultHash).1 = .ok true)
  | _ => false

/-- Number of `RecordStepOnce` calls on the key `(jobID, stepKey)` that returned `true` along
a sequence of calls. -/
def stepTrueCount (jobID stepKey : String) : Store → List StoreOp → Nat
  | _, [] => 0
  | db, op :: ops =>
    (if op.recordsStep db jobID stepKey then 1 else 0)
      + stepTrueCount jobID stepKey (op.apply db) ops

/-! ## One tick of the poll loop (`cmd/worker/main.go`) -/

/-- The body of the ticker case of the poll loop: claim up to 10 jobs at time `now`, then offer
each claimed job to the pool.  `submit j` is the value `pool.Submit` returns for `j` (false
when the queue is full or the pool is stopped); when it is false the lease is released at
time `clock j`.  A claim error only skips the tick. -/
def pollTick (db : Store) (workerID : String) (lease : Duration) (now : Time)
    (submit : Job → Bool) (clock : Job → Time) : Store :=
  match ClaimJobs db workerID 10 lease now with
  | (.error _, db') => db'
  | (.ok claimed, db') =>
    claimed.foldl (fun d j => if submit j then d else (releaseQueueFull d (clock j) j).2) db'

/-- The row the queue-full release at time `t` leaves behind for the claimed row `j`. -/
def released (t : Time) (j : Job) : Job :=
  { j with
    Status := .PENDING
    Attempts := j.Attempts
    NextRunAt := some (t + 250 * Millisecond)
    CompletedAt := none
    ErrorMessage := some "queue full - rescheduled"
    LockedBy := none
    LockedUntil := none }

/-! ## Backoff policy (`internal/worker/backoff.go`)

The `float64` values of the source are rationals here and their arithmetic is exact: the
rounding of `float64`, and its infinities and NaN, are outside the model.  What is kept is the
conversion of a `float64` to a `time.Duration`, which truncates toward zero and is defined by
Go only when the truncated value fits into 64 bits. -/

/-- The `BackoffConfig`: `Base` and `Max` in nanoseconds, `Jitter` the half-width of the
multiplicative jitter. -/
structure BackoffConfig where
  Base : Duration
  Max : Duration
  Jitter : ℚ

/-- Truncation toward zero. -/
def truncate (x : ℚ) : Int := if 0 ≤ x then ⌊x⌋ else ⌈x⌉

/-- The conversion `time.Duration(x)` of a `float64`: the truncated value when it is an
`int64`; otherwise the result is implementation-dependent, and `outOfRange x` stands for it
(the smallest `int64` on amd64). -/
def toDuration (outOfRange : ℚ → Int) (x : ℚ) : Duration :=
  if -(2 : Int) ^ 63 ≤ truncate x ∧ truncate x < (2 : Int) ^ 63 then truncate x
  else outOfRange x

/-- Embedding of `jittered`; `u` is the draw `rand.Float64()`, a value in `[0, 1)`. -/
def jittered (outOfRange : ℚ → Int) (d : Duration) (jitter : ℚ) (u : ℚ) : Duration :=
  if d ≤ 0 then 0
  else if jitter ≤ 0 then d
  else
    let f : ℚ := 1 + (u * 2 - 1) * jitter
    toDuration outOfRange ((d : ℚ) * f)

/-- Embedding of `BackoffConfig.Next`; `u` is the draw of the call.  The product
`float64(c.Base) * math.Pow(2, float64(attempt-1))` is taken exact: it is so in the source
when `c.Base` has magnitude at most `2^53` and `attempt` is at most 1024; a larger base is
rounded by `float64(c.Base)`, a larger power is infinite. -/
def BackoffConfig.Next (c : BackoffConfig) (outOfRange : ℚ → Int) (attempt : Int) (u : ℚ) :
    Duration :=
  if attempt ≤ 1 then jittered outOfRange c.Base c.Jitter u
  else
    let exp : ℚ := (c.Base : ℚ) * (2 : ℚ) ^ (attempt - 1).toNat
    let delay := toDuration outOfRange exp
    let delay := if c.Max > 0 ∧ delay > c.Max then c.Max else delay
    jittered outOfRange delay c.Jitter u

/-- The out-of-range conversion of amd64: always the smallest `int64`. -/
def minInt64 : ℚ → Int := fun _ => -(2 : Int) ^ 63

/-- The default backoff of the worker: base 500 ms, cap 30 s, jitter 20 %. -/
def demoBackoff : BackoffConfig :=
  { Base := 500 * Millisecond, Max := 30000 * Millisecond, Jitter := 1 / 5 }

/-! ## Lemmas about the claim query and its update loop -/

theorem leased_ID (w : String) (lu now : Time) (j : Job) : (leased w lu now j).ID = j.ID := rfl

theorem leased_idem (w : String) (lu now : Time) (j : Job) :
    leased w lu now (leased w lu now j) = leased w lu now j := by
  cases j; simp [leased]

theorem foldl_leaseUpdate (w : String) (lu now : Time) (ids : List String) (jobs : List Job) :
    ids.foldl (leaseUpdate w lu now) jobs
      = jobs.map (fun j => if j.ID ∈ ids then leased w lu now j else j) := by
  induction ids generalizing jobs with
  | nil => simp
  | cons id ids ih =>
    rw [List.foldl_cons, ih, leaseUpdate, List.map_map]
    apply List.map_congr_left
    intro j _
    by_cases h1 : j.ID = id
    · by_cases h2 : j.ID ∈ ids <;> simp [h1, h2, leased_ID, leased_idem]
    · by_cases h2 : j.ID ∈ ids <;> simp [h1, h2]

theorem selectEligible_sublist (jobs : List Job) (now : Time) (limit : Int) :
    ∀ j ∈ selectEligible jobs now limit, j ∈ jobs ∧ eligible now j = true := by
  intro j hj
  have h1 := List.mem_of_mem_take hj
  have h2 := (List.perm_insertionSort _ _).subset h1
  simpa using h2

theorem selectEligible_length (jobs : List Job) (now : Time) (limit : Int) :
    (selectEligible jobs now limit).length ≤ limit.toNat := by
  unfold selectEligible
  simp [List.length_take]

theorem selectEligible_nodup_ID (jobs : List Job) (now : Time) (limit : Int)
    (h : (jobs.map (fun j => j.ID)).Nodup) :
    ((selectEligible jobs now limit).map (fun j => j.ID)).Nodup := by
  unfold selectEligible
  have h1 : ((jobs.filter (eligible now)).map (fun j => j.ID)).Nodup :=
    (List.filter_sublist _).map _ |>.nodup h
  have h2 := ((List.perm_insertionSort (fun a b => nextRunAtLe a b = true)
    (jobs.filter (eligible now))).map (fun j => j.ID)).nodup_iff.mpr h1
  exact ((List.take_sublist _ _).map _).nodup h2

theorem find_map_of_nodup (f : Job → Job) (hf : ∀ j, (f j).ID = j.ID) (jobs : List Job)
    (h : (jobs.map (fun j => j.ID)).Nodup) (r : Job) (hr : r ∈ jobs) :
    (jobs.map f).find? (fun j => decide (j.ID = r.ID)) = some (f r) := by
  induction jobs with
  | nil => simp at hr
  | cons a l ih =>
    simp only [List.map_cons, List.nodup_cons] at h
    rw [List.map_cons, List.find?_cons]
    rcases List.mem_cons.mp hr with rfl | hr'
    · simp [hf]
    · have hne : a.ID ≠ r.ID := by
        intro e
        exact h.1 (e ▸ List.mem_map_of_mem (fun j => j.ID) hr')
      simp [hf, hne, ih h.2 hr']

theorem ClaimJobs_eq (db : Store) (workerID : String) (limit : Int) (lease : Duration)
    (now : Time) (hpk : PrimaryKey db) (hw : workerID ≠ "") :
    ClaimJobs db workerID limit lease now =
      (.ok ((selectEligible db.jobs now (if limit ≤ 0 then 10 else limit)).map
              (leased workerID (now + lease) now)),
       { db with jobs := db.jobs.map (fun j =>
           if j ∈ selectEligible db.jobs now (if limit ≤ 0 then 10 else limit)
           then leased workerID (now + lease) now j else j) }) := by
  generalize hsel : selectEligible db.jobs now (if limit ≤ 0 then 10 else limit) = sel
  have hsub : ∀ j ∈ sel, j ∈ db.jobs := fun j hj =>
    (selectEligible_sublist db.jobs now _ j (hsel ▸ hj)).1
  have hmem : ∀ j ∈ db.jobs, (j.ID ∈ sel.map (fun j => j.ID) ↔ j ∈ sel) := by
    intro j hj
    constructor
    · intro h
      obtain ⟨r, hr, hid⟩ := List.mem_map.mp h
      have : r = j := List.inj_on_of_nodup_map hpk (hsub r hr) hj hid
      exact this ▸ hr
    · intro h
      exact List.mem_map_of_mem (fun j => j.ID) h
  have hjobs : (sel.map (fun j => j.ID)).foldl (leaseUpdate workerID (now + lease) now) db.jobs
      = db.jobs.map (fun j => if j ∈ sel then leased workerID (now + lease) now j else j) := by
    rw [foldl_leaseUpdate]
    apply List.map_congr_left
    intro j hj
    simp only [hmem j hj]
  unfold ClaimJobs
  simp only [hw, if_false, hsel]
  by_cases hnil : sel = []
  · subst hnil
    cases db
    simp
  · have hlen : ¬ (sel.map (fun j => j.ID)).length = 0 := by
      simpa using hnil
    simp only [hlen, if_false, hjobs]
    congr 2
    rw [List.filterMap_map]
    have : ∀ r ∈ sel, (fun id => (db.jobs.map (fun j =>
        if j ∈ sel then leased workerID (now + lease) now j else j)).find?
          (fun j => decide (j.ID = id))) ((fun j => j.ID) r)
        = some (leased workerID (now + lease) now r) := by
      intro r hr
      have := find_map_of_nodup
        (fun j => if j ∈ sel then leased workerID (now + lease) now j else j)
        (by intro j; by_cases h : j ∈ sel <;> simp [h, leased_ID]) db.jobs hpk r (hsub r hr)
      simpa [hr] using this
    have hcongr := List.filterMap_congr this
    simp only [Function.comp_def]
    rw [hcongr]
    exact List.filterMap_eq_map _ ▸ rfl

theorem eligible_iff (now : Time) (j : Job) :
    eligible now j = true ↔
      (j.Status = .PENDING ∧ (∀ t, j.NextRunAt = some t → t ≤ now)
          ∧ (∀ t, j.LockedUntil = some t → t ≤ now))
        ∨ (j.Status = .RUNNING ∧ ∃ t, j.LockedUntil = some t ∧ t ≤ now) := by
  unfold eligible nullOrLe notNullAndLe
  cases h1 : j.NextRunAt <;> cases h2 : j.LockedUntil <;> simp [and_assoc]

/-! ## C1: the contract of `ClaimJobs` -/

/-- C1: for a store with its primary key, a non-empty worker id and `limit > 0`, `ClaimJobs`
returns without error; the rows it selected (`sel`) are at most `limit`, each was in the store
and satisfied the eligibility predicate before the call; the jobs returned are those rows with
`status = RUNNING`, `locked_by = workerID`, `locked_until = now + lease` and
`started_at = COALESCE(started_at, now)`, every other column (attempts included) as before; and
the store afterwards holds exactly these updated rows in place of the selected ones, every other
row and the step table unchanged. -/
theorem ClaimJobs_contract (db : Store) (workerID : String) (limit : Int) (lease : Duration)
    (now : Time) (hpk : PrimaryKey db) (hw : workerID ≠ "") (hl : 0 < limit) :
    ∃ sel : List Job,
      (sel.length : Int) ≤ limit ∧
      (∀ j ∈ sel, j ∈ db.jobs ∧
        ((j.Status = .PENDING ∧ (∀ t, j.NextRunAt = some t → t ≤ now)
            ∧ (∀ t, j.LockedUntil = some t → t ≤ now))
          ∨ (j.Status = .RUNNING ∧ ∃ t, j.LockedUntil = some t ∧ t ≤ now))) ∧
      ClaimJobs db workerID limit lease now =
        (.ok (sel.map (fun j =>
            { j with
              Status := .RUNNING
              LockedBy := some workerID
              LockedUntil := some (now + lease)
              StartedAt := some (j.StartedAt.getD now) })),
         { db with jobs := db.jobs.map (fun j =>
            if j ∈ sel then
              { j with
                Status := .RUNNING
                LockedBy := some workerID
                LockedUntil := some (now + lease)
                StartedAt := some (j.StartedAt.getD now) }
            else j) }) := by
  refine ⟨selectEligible db.jobs now limit, ?_, ?_, ?_⟩
  · have := selectEligible_length db.jobs now limit
    omega
  · intro j hj
    have := selectEligible_sublist db.jobs now limit j hj
    exact ⟨this.1, (eligible_iff now j).mp this.2⟩
  · have := ClaimJobs_eq db workerID limit lease now hpk hw
    rw [if_neg (not_le.mpr hl)] at this
    exact this

/-- Instance of C1: worker `B` claims from `demoStore` at time 7 with limit 5 and lease 10. -/
theorem ClaimJobs_contract_witness :
    PrimaryKey demoStore ∧
    ∃ sel : List Job,
      (sel.length : Int) ≤ 5 ∧
      (∀ j ∈ sel, j ∈ demoStore.jobs ∧
        ((j.Status = .PENDING ∧ (∀ t, j.NextRunAt = some t → t ≤ 7)
            ∧ (∀ t, j.LockedUntil = some t → t ≤ 7))
          ∨ (j.Status = .RUNNING ∧ ∃ t, j.LockedUntil = some t ∧ t ≤ 7))) ∧
      ClaimJobs demoStore "B" 5 10 7 =
        (.ok (sel.map (fun j =>
            { j with
              Status := .RUNNING
              LockedBy := some "B"
              LockedUntil := some (7 + 10)
              StartedAt := some (j.StartedAt.getD 7) })),
         { demoStore with jobs := demoStore.jobs.map (fun j =>
            if j ∈ sel then
              { j with
                Status := .RUNNING
                LockedBy := some "B"
                LockedUntil := some (7 + 10)
                StartedAt := some (j.StartedAt.getD 7) }
            else j) }) :=
  ⟨by decide, ClaimJobs_contract demoStore "B" 5 10 7 (by decide) (by decide) (by decide)⟩

/-! ## Lemmas about the conditional updates of settlement -/

theorem runningWithID_iff (jobID : String) (j : Job) :
    runningWithID jobID j = true ↔ j.ID = jobID ∧ j.Status = .RUNNING := by
  simp [runningWithID]

theorem filter_length_eq_zero_iff (jobID : String) (jobs : List Job) :
    (jobs.filter (runningWithID jobID)).length = 0 ↔
      ¬ ∃ j ∈ jobs, j.ID = jobID ∧ j.Status = .RUNNING := by
  rw [List.length_eq_zero, List.filter_eq_nil_iff]
  simp [runningWithID_iff]

theorem map_update_of_no_match (jobID : String) (f : Job → Job) (jobs : List Job)
    (h : ¬ ∃ j ∈ jobs, j.ID = jobID ∧ j.Status = .RUNNING) :
    jobs.map (fun j => if runningWithID jobID j then f j else j) = jobs := by
  conv_rhs => rw [← List.map_id jobs]
  apply List.map_congr_left
  intro j hj
  have : runningWithID jobID j = false := by
    rw [Bool.eq_false_iff]
    intro hr
    exact h ⟨j, hj, (runningWithID_iff jobID j).mp hr⟩
  simp [this]

theorem MarkSuccess_snd (db : Store) (clock : Time) (jobID : String) (ts : Time)
    (hid : jobID ≠ "") :
    (MarkSuccess db clock jobID ts).2 =
      { db with jobs := db.jobs.map (fun j =>
          if runningWithID jobID j then succeeded (if ts = 0 then clock else ts) j else j) } := by
  unfold MarkSuccess
  simp only [hid, if_false]
  split <;> rfl

theorem MarkFailure_snd (db : Store) (clock : Time) (jobID : String) (attempts : Int)
    (nextRunAt : Option Time) (errMsg : String) (terminal : Bool) (completedAt : Option Time)
    (hid : jobID ≠ "") :
    (MarkFailure db clock jobID attempts nextRunAt errMsg terminal completedAt).2 =
      { db with jobs := db.jobs.map (fun j =>
          if runningWithID jobID j then
            failedWith (if terminal then JobStatus.FAILED else JobStatus.PENDING) attempts
              (if terminal then none else nextRunAt)
              (if terminal then some (completedAt.getD clock) else none)
              (if errMsg = "" then "unknown error" else errMsg) j
          else j) } := by
  unfold MarkFailure
  simp only [hid, if_false]
  cases completedAt <;> (split <;> rfl)

theorem MarkSuccess_of_running (db : Store) (clock : Time) (jobID : String) (ts : Time)
    (hid : jobID ≠ "") (hex : ∃ j ∈ db.jobs, j.ID = jobID ∧ j.Status = .RUNNING) :
    MarkSuccess db clock jobID ts =
      (.ok (), { db with jobs := db.jobs.map (fun j =>
          if j.ID = jobID ∧ j.Status = .RUNNING then
            succeeded (if ts = 0 then clock else ts) j
          else j) }) := by
  have hne : ¬ (db.jobs.filter (runningWithID jobID)).length = 0 :=
    fun h0 => ((filter_length_eq_zero_iff jobID db.jobs).mp h0) hex
  refine Prod.ext ?_ ?_
  · unfold MarkSuccess
    simp only [hid, if_false, hne]
  · rw [MarkSuccess_snd db clock jobID ts hid]
    show _ = ({ db with jobs := _ } : Store)
    congr 1
    apply List.map_congr_left
    intro j _
    by_cases hr : j.ID = jobID ∧ j.Status = .RUNNING
    · simp [hr, (runningWithID_iff jobID j).mpr hr]
    · have : runningWithID jobID j = false := by
        rw [Bool.eq_false_iff]; exact fun h => hr ((runningWithID_iff jobID j).mp h)
      simp [hr, this]

theorem MarkSuccess_of_not_running (db : Store) (clock : Time) (jobID : String) (ts : Time)
    (hid : jobID ≠ "") (hn : ¬ ∃ j ∈ db.jobs, j.ID = jobID ∧ j.Status = .RUNNING) :
    MarkSuccess db clock jobID ts =
      (.error "mark success rejected: job not RUNNING or not found", db) := by
  refine Prod.ext ?_ ?_
  · unfold MarkSuccess
    simp only [hid, if_false, (filter_length_eq_zero_iff jobID db.jobs).mpr hn, if_true]
  · rw [MarkSuccess_snd db clock jobID ts hid, map_update_of_no_match jobID _ db.jobs hn]

theorem MarkFailure_of_running (db : Store) (clock : Time) (jobID : String) (n : Int)
    (next : Option Time) (msg : String) (terminal : Bool) (comp : Option Time)
    (hid : jobID ≠ "") (hex : ∃ j ∈ db.jobs, j.ID = jobID ∧ j.Status = .RUNNING) :
    MarkFailure db clock jobID n next msg terminal comp =
      (.ok (), { db with jobs := db.jobs.map (fun j =>
          if j.ID = jobID ∧ j.Status = .RUNNING then
            failedWith (if terminal then JobStatus.FAILED else JobStatus.PENDING) n
              (if terminal then none else next)
              (if terminal then some (comp.getD clock) else none)
              (if msg = "" then "unknown error" else msg) j
          else j) }) := by
  have hne : ¬ (db.jobs.filter (runningWithID jobID)).length = 0 :=
    fun h0 => ((filter_length_eq_zero_iff jobID db.jobs).mp h0) hex
  refine Prod.ext ?_ ?_
  · unfold MarkFailure
    simp only [hid, if_false, hne]
  · rw [MarkFailure_snd db clock jobID n next msg terminal comp hid]
    show _ = ({ db with jobs := _ } : Store)
    congr 1
    apply List.map_congr_left
    intro j _
    by_cases hr : j.ID = jobID ∧ j.Status = .RUNNING
    · simp [hr, (runningWithID_iff jobID j).mpr hr]
    · have : runningWithID jobID j = false := by
        rw [Bool.eq_false_iff]; exact fun h => hr ((runningWithID_iff jobID j).mp h)
      simp [hr, this]

theorem MarkFailure_of_not_running (db : Store) (clock : Time) (jobID : String) (n : Int)
    (next : Option Time) (msg : String) (terminal : Bool) (comp : Option Time)
    (hid : jobID ≠ "") (hn : ¬ ∃ j ∈ db.jobs, j.ID = jobID ∧ j.Status = .RUNNING) :
    MarkFailure db clock jobID n next msg terminal comp =
      (.error "mark failure rejected: job not RUNNING or not found", db) := by
  refine Prod.ext ?_ ?_
  · unfold MarkFailure
    simp only [hid, if_false, (filter_length_eq_zero_iff jobID db.jobs).mpr hn, if_true]
  · rw [MarkFailure_snd db clock jobID n next msg terminal comp hid,
      map_update_of_no_match jobID _ db.jobs hn]

/-! ## C2: the contract of `MarkSuccess` -/

/-- C2, as stated, fails: called with the zero timestamp on a `RUNNING` row, `MarkSuccess`
succeeds but writes the current time, not the timestamp it was given, into `completed_at`. -/
theorem MarkSuccess_zero_timestamp_counterexample :
    ¬ ∀ (db : Store) (clock : Time) (jobID : String) (ts : Time), jobID ≠ "" →
        (MarkSuccess db clock jobID ts).1 = .ok () →
        ∀ j ∈ (MarkSuccess db clock jobID ts).2.jobs, j.ID = jobID → j.CompletedAt = some ts := by
  intro h
  exact absurd (h demoStore 9 "j2" 0 (by decide) (by decide)) (by decide)

/-- C2, amended: for a non-empty job id, `MarkSuccess` returns no error exactly when a row with
that id and `status = RUNNING` exists; it then rewrites that row to `status = SUCCESS`,
`error_message`, `locked_by`, `locked_until` null and `completed_at` the given timestamp, or the
current time when the given timestamp is the zero time, and changes nothing else; otherwise it
returns the rejection error and the store is unchanged. -/
theorem MarkSuccess_contract (db : Store) (clock : Time) (jobID : String) (ts : Time)
    (hid : jobID ≠ "") :
    ((MarkSuccess db clock jobID ts).1 = .ok () ↔
        ∃ j ∈ db.jobs, j.ID = jobID ∧ j.Status = .RUNNING) ∧
    ((∃ j ∈ db.jobs, j.ID = jobID ∧ j.Status = .RUNNING) →
      (MarkSuccess db clock jobID ts).2 =
        { db with jobs := db.jobs.map (fun j =>
            if j.ID = jobID ∧ j.Status = .RUNNING then
              { j with
                Status := .SUCCESS
                CompletedAt := some (if ts = 0 then clock else ts)
                ErrorMessage := none
                LockedBy := none
                LockedUntil := none }
            else j) }) ∧
    ((¬ ∃ j ∈ db.jobs, j.ID = jobID ∧ j.Status = .RUNNING) →
      (MarkSuccess db clock jobID ts).1
          = .error "mark success rejected: job not RUNNING or not found" ∧
        (MarkSuccess db clock jobID ts).2 = db) := by
  refine ⟨?_, ?_, ?_⟩
  · constructor
    · intro hok
      by_contra hn
      rw [MarkSuccess_of_not_running db clock jobID ts hid hn] at hok
      cases hok
    · intro hex
      rw [MarkSuccess_of_running db clock jobID ts hid hex]
  · intro hex
    rw [MarkSuccess_of_running db clock jobID ts hid hex]
    rfl
  · intro hn
    rw [MarkSuccess_of_not_running db clock jobID ts hid hn]
    exact ⟨rfl, rfl⟩

/-- Instance of C2: `MarkSuccess` on the running job `j2` of `demoStore`. -/
theorem MarkSuccess_contract_witness :
    "j2" ≠ "" ∧
    (((MarkSuccess demoStore 9 "j2" 12).1 = .ok () ↔
        ∃ j ∈ demoStore.jobs, j.ID = "j2" ∧ j.Status = .RUNNING) ∧
    ((∃ j ∈ demoStore.jobs, j.ID = "j2" ∧ j.Status = .RUNNING) →
      (MarkSuccess demoStore 9 "j2" 12).2 =
        { demoStore with jobs := demoStore.jobs.map (fun j =>
            if j.ID = "j2" ∧ j.Status = .RUNNING then
              { j with
                Status := .SUCCESS
                CompletedAt := some (if (12 : Time) = 0 then 9 else 12)
                ErrorMessage := none
                LockedBy := none
                LockedUntil := none }
            else j) }) ∧
    ((¬ ∃ j ∈ demoStore.jobs, j.ID = "j2" ∧ j.Status = .RUNNING) →
      (MarkSuccess demoStore 9 "j2" 12).1
          = .error "mark success rejected: job not RUNNING or not found" ∧
        (MarkSuccess demoStore 9 "j2" 12).2 = demoStore)) :=
  ⟨by decide, MarkSuccess_contract demoStore 9 "j2" 12 (by decide)⟩

/-! ## C3: the contract of `MarkFailure` -/

/-- C3, as stated, fails: called with the empty message on a `RUNNING` row, `MarkFailure`
succeeds but writes `"unknown error"`, not the message it was given, into `error_message`. -/
theorem MarkFailure_empty_message_counterexample :
    ¬ ∀ (db : Store) (clock : Time) (jobID : String) (n : Int) (next : Option Time)
        (msg : String) (terminal : Bool) (comp : Option Time), jobID ≠ "" →
        (MarkFailure db clock jobID n next msg terminal comp).1 = .ok () →
        ∀ j ∈ (MarkFailure db clock jobID n next msg terminal comp).2.jobs,
          j.ID = jobID → j.ErrorMessage = some msg := by
  intro h
  exact absurd (h demoStore 9 "j2" 2 (some 50) "" false none (by decide) (by decide))
    (by decide)

/-- C3, amended: for a non-empty job id and a row with that id and `status = RUNNING`,
`MarkFailure` returns no error and writes `attempts = n`, `locked_by` and `locked_until` null,
`error_message = msg` (`"unknown error"` when `msg` is empty), and either `status = FAILED`,
`next_run_at` null, `completed_at` the given timestamp (the current time when none is given)
when `terminal`, or `status = PENDING`, `completed_at` null, `next_run_at` the given value when
not; nothing else changes.  When no row with that id is `RUNNING` it returns the rejection
error and the store is unchanged. -/
theorem MarkFailure_contract (db : Store) (clock : Time) (jobID : String) (n : Int)
    (next : Option Time) (msg : String) (terminal : Bool) (comp : Option Time)
    (hid : jobID ≠ "") :
    ((∃ j ∈ db.jobs, j.ID = jobID ∧ j.Status = .RUNNING) →
      MarkFailure db clock jobID n next msg terminal comp =
        (.ok (),
         { db with jobs := db.jobs.map (fun j =>
            if j.ID = jobID ∧ j.Status = .RUNNING then
              { j with
                Status := if terminal then .FAILED else .PENDING
                Attempts := n
                NextRunAt := if terminal then none else next
                CompletedAt := if terminal then some (comp.getD clock) else none
                ErrorMessage := some (if msg = "" then "unknown error" else msg)
                LockedBy := none
                LockedUntil := none }
            else j) })) ∧
    ((¬ ∃ j ∈ db.jobs, j.ID = jobID ∧ j.Status = .RUNNING) →
      MarkFailure db clock jobID n next msg terminal comp =
        (.error "mark failure rejected: job not RUNNING or not found", db)) := by
  constructor
  · intro hex
    rw [MarkFailure_of_running db clock jobID n next msg terminal comp hid hex]
    rfl
  · intro hn
    exact MarkFailure_of_not_running db clock jobID n next msg terminal comp hid hn

/-- Instance of C3: a retryable `MarkFailure` on the running job `j2` of `demoStore`. -/
theorem MarkFailure_contract_witness :
    "j2" ≠ "" ∧
    (((∃ j ∈ demoStore.jobs, j.ID = "j2" ∧ j.Status = .RUNNING) →
      MarkFailure demoStore 9 "j2" 2 (some 50) "boom" false none =
        (.ok (),
         { demoStore with jobs := demoStore.jobs.map (fun j =>
            if j.ID = "j2" ∧ j.Status = .RUNNING then
              { j with
                Status := if false then .FAILED else .PENDING
                Attempts := 2
                NextRunAt := if false then none else some 50
                CompletedAt := if false then some ((none : Option Time).getD 9) else none
                ErrorMessage := some (if "boom" = "" then "unknown error" else "boom")
                LockedBy := none
                LockedUntil := none }
            else j) })) ∧
    ((¬ ∃ j ∈ demoStore.jobs, j.ID = "j2" ∧ j.Status = .RUNNING) →
      MarkFailure demoStore 9 "j2" 2 (some 50) "boom" false none =
        (.error "mark failure rejected: job not RUNNING or not found", demoStore))) :=
  ⟨by decide, MarkFailure_contract demoStore 9 "j2" 2 (some 50) "boom" false none (by decide)⟩

/-! ## C4: settlement and lease ownership -/

/-- C4, as stated, fails: worker `A` claimed the job with a lease until 11.  At time 25, with
the lease expired, the `MarkSuccess` of `A` is accepted and rewrites the row; after `B`
re-claimed the job (lease until 30) the `MarkSuccess` and the `MarkFailure` of `A` are
accepted as well and rewrite the row that `B` holds. -/
theorem expired_lease_settlement_counterexample :
    claimedByA.jobs.map (fun j => (j.ID, j.Status, j.LockedBy, j.LockedUntil))
        = [("j1", .RUNNING, some "A", some 11)] ∧
      (MarkSuccess claimedByA 25 "j1" 25).1 = .ok () ∧
      (MarkSuccess claimedByA 25 "j1" 25).2 ≠ claimedByA ∧
    reclaimedByB.jobs.map (fun j => (j.ID, j.Status, j.LockedBy, j.LockedUntil))
        = [("j1", .RUNNING, some "B", some 30)] ∧
      (MarkSuccess reclaimedByB 25 "j1" 25).1 = .ok () ∧
      (MarkSuccess reclaimedByB 25 "j1" 25).2 ≠ reclaimedByB ∧
      (MarkFailure reclaimedByB 25 "j1" 1 (some 26) "simulated failure" false none).1 = .ok () ∧
      (MarkFailure reclaimedByB 25 "j1" 1 (some 26) "simulated failure" false none).2
        ≠ reclaimedByB := by
  decide

/-- C4, amended: settlement is guarded by the status alone.  For a non-empty job id,
`MarkSuccess` and `MarkFailure` return the rejection error (stale state) and leave the store
unchanged if and only if no row with that id is `RUNNING` any more; as long as the row is
`RUNNING`, whoever holds the lease and whether or not it has expired, both are accepted. -/
theorem settlement_stale_iff_not_running (db : Store) (clock : Time) (jobID : String)
    (ts : Time) (n : Int) (next : Option Time) (msg : String) (terminal : Bool)
    (comp : Option Time) (hid : jobID ≠ "") :
    (MarkSuccess db clock jobID ts
        = (.error "mark success rejected: job not RUNNING or not found", db) ↔
      ¬ ∃ j ∈ db.jobs, j.ID = jobID ∧ j.Status = .RUNNING) ∧
    (MarkFailure db clock jobID n next msg terminal comp
        = (.error "mark failure rejected: job not RUNNING or not found", db) ↔
      ¬ ∃ j ∈ db.jobs, j.ID = jobID ∧ j.Status = .RUNNING) ∧
    (∀ j ∈ db.jobs, j.ID = jobID → j.Status = .RUNNING →
      ∀ (w : Option String) (u : Option Time), j.LockedBy = w → j.LockedUntil = u →
        (MarkSuccess db clock jobID ts).1 = .ok () ∧
        (MarkFailure db clock jobID n next msg terminal comp).1 = .ok ()) := by
  refine ⟨⟨?_, MarkSuccess_of_not_running db clock jobID ts hid⟩,
    ⟨?_, MarkFailure_of_not_running db clock jobID n next msg terminal comp hid⟩, ?_⟩
  · intro h hex
    rw [MarkSuccess_of_running db clock jobID ts hid hex] at h
    cases h
  · intro h hex
    rw [MarkFailure_of_running db clock jobID n next msg terminal comp hid hex] at h
    cases h
  · intro j hj h1 h2 _ _ _ _
    have hex : ∃ j ∈ db.jobs, j.ID = jobID ∧ j.Status = .RUNNING := ⟨j, hj, h1, h2⟩
    rw [MarkSuccess_of_running db clock jobID ts hid hex,
      MarkFailure_of_running db clock jobID n next msg terminal comp hid hex]
    exact ⟨rfl, rfl⟩

/-- Instance of C4: worker `A` settles the job that `B` holds in `reclaimedByB`. -/
theorem settlement_stale_iff_not_running_witness :
    "j1" ≠ "" ∧
    ((MarkSuccess reclaimedByB 25 "j1" 25
        = (.error "mark success rejected: job not RUNNING or not found", reclaimedByB) ↔
      ¬ ∃ j ∈ reclaimedByB.jobs, j.ID = "j1" ∧ j.Status = .RUNNING) ∧
    (MarkFailure reclaimedByB 25 "j1" 1 (some 26) "simulated failure" false none
        = (.error "mark failure rejected: job not RUNNING or not found", reclaimedByB) ↔
      ¬ ∃ j ∈ reclaimedByB.jobs, j.ID = "j1" ∧ j.Status = .RUNNING) ∧
    (∀ j ∈ reclaimedByB.jobs, j.ID = "j1" → j.Status = .RUNNING →
      ∀ (w : Option String) (u : Option Time), j.LockedBy = w → j.LockedUntil = u →
        (MarkSuccess reclaimedByB 25 "j1" 25).1 = .ok () ∧
        (MarkFailure reclaimedByB 25 "j1" 1 (some 26) "simulated failure" false none).1
          = .ok ())) :=
  ⟨by decide,
    settlement_stale_iff_not_running reclaimedByB 25 "j1" 25 1 (some 26) "simulated failure"
      false none (by decide)⟩

/-! ## The shape of a store operation -/

theorem insertJob_some (db db' : Store) (row : Job) (h : insertJob db row = some db') :
    db' = { db with jobs := db.jobs ++ [row] } ∧
      row.ID ∉ db.jobs.map (fun j => j.ID) ∧
      (∀ k, row.IdempotencyKey = some k →
        k ∉ db.jobs.filterMap (fun j => j.IdempotencyKey)) := by
  unfold insertJob at h
  split at h
  · cases h
  · rename_i hid
    split at h
    · rename_i k hk
      split at h
      · cases h
      · rename_i hk'
        cases h
        refine ⟨rfl, hid, ?_⟩
        intro k' e
        rw [hk] at e
        cases e
        exact hk'
    · rename_i hk
      cases h
      refine ⟨rfl, hid, ?_⟩
      intro k' e
      rw [hk] at e
      cases e

theorem CreateJob_shape (db : Store) (now : Time) (id jobType payload : String)
    (maxAttempts : Int) (key : Option String) :
    (CreateJob db now id jobType payload maxAttempts key).2 = db ∨
    ∃ r, Fresh db r ∧ r.ID = id ∧ r.IdempotencyKey = key ∧
      (CreateJob db now id jobType payload maxAttempts key).2
        = { db with jobs := db.jobs ++ [r] } := by
  unfold CreateJob
  split
  · exact Or.inl rfl
  split
  · exact Or.inl rfl
  split
  · exact Or.inl rfl
  rename_i hid _ _
  simp only
  split
  · rename_i hins
    left
    split
    · split <;> rfl
    · rfl
  · rename_i db' hins
    right
    obtain ⟨h1, h2, h3⟩ := insertJob_some _ _ _ hins
    refine ⟨_, ⟨h2, h3, hid, rfl, rfl, ?_, rfl, rfl⟩, rfl, rfl, h1⟩
    show (0 : Int) < if maxAttempts ≤ 0 then 3 else maxAttempts
    split <;> omega

theorem CreateJob_shape_max (db : Store) (now : Time) (id jobType payload : String)
    (maxAttempts : Int) (key : Option String) :
    (CreateJob db now id jobType payload maxAttempts key).2 = db ∨
    ∃ r, Fresh db r ∧ r.MaxAttempts = (if maxAttempts ≤ 0 then 3 else maxAttempts) ∧
      (CreateJob db now id jobType payload maxAttempts key).2
        = { db with jobs := db.jobs ++ [r] } := by
  unfold CreateJob
  split
  · exact Or.inl rfl
  split
  · exact Or.inl rfl
  split
  · exact Or.inl rfl
  rename_i hid _ _
  simp only
  split
  · rename_i hins
    left
    split
    · split <;> rfl
    · rfl
  · rename_i db' hins
    right
    obtain ⟨h1, h2, h3⟩ := insertJob_some _ _ _ hins
    refine ⟨_, ⟨h2, h3, hid, rfl, rfl, ?_, rfl, rfl⟩, rfl, h1⟩
    show (0 : Int) < if maxAttempts ≤ 0 then 3 else maxAttempts
    split <;> omega

theorem wrapInt_of_range (n : Int) (h1 : MinInt ≤ n) (h2 : n ≤ MaxInt) : wrapInt n = n := by
  unfold wrapInt
  unfold MinInt at h1 ⊢
  unfold MaxInt at h2
  omega

theorem RecordStepOnce_jobs (db : Store) (jobID stepKey : String)
    (resultHash : Option String) :
    (RecordStepOnce db jobID stepKey resultHash).2.jobs = db.jobs := by
  unfold RecordStepOnce insertStep
  split
  · rfl
  split
  · rfl
  split
  · rfl
  · rename_i h
    split at h
    · cases h
    · cases h
      rfl

theorem apply_shape (db : Store) (hpk : PrimaryKey db) (op : StoreOp) :
    ∃ (f : Job → Job) (extra : List Job),
      (op.apply db).jobs = db.jobs.map f ++ extra ∧
      (∀ j ∈ db.jobs, RowStep j (f j)) ∧
      (extra = [] ∨ ∃ r, extra = [r] ∧ Fresh db r) := by
  cases op with
  | createJob now jid jobType payload maxAttempts key =>
    refine ⟨id, ?_⟩
    rcases CreateJob_shape db now jid jobType payload maxAttempts key with h | ⟨r, hr, _, _, h⟩
    · exact ⟨[], by simp [StoreOp.apply, h], fun j _ => Or.inl rfl, Or.inl rfl⟩
    · exact ⟨[r], by simp [StoreOp.apply, h], fun j _ => Or.inl rfl, Or.inr ⟨r, rfl, hr⟩⟩
  | claimJobs workerID limit lease now =>
    by_cases hw : workerID = ""
    · refine ⟨id, [], ?_, fun j _ => Or.inl rfl, Or.inl rfl⟩
      simp [StoreOp.apply, ClaimJobs, hw]
    · have heq := ClaimJobs_eq db workerID limit lease now hpk hw
      generalize (if limit ≤ 0 then (10 : Int) else limit) = lim at heq
      refine ⟨fun j => if j ∈ selectEligible db.jobs now lim
          then leased workerID (now + lease) now j else j, [], ?_, ?_, Or.inl rfl⟩
      · simp only [StoreOp.apply, heq, List.append_nil]
      · intro j _
        by_cases hsel : j ∈ selectEligible db.jobs now lim
        · simp only [hsel, if_true]
          have := (selectEligible_sublist db.jobs now _ j hsel).2
          right; left
          refine ⟨?_, workerID, now + lease, now, rfl⟩
          rcases (eligible_iff now j).mp this with h | h
          · exact Or.inl h.1
          · exact Or.inr h.1
        · simp only [hsel, if_false]
          exact Or.inl rfl
  | markSuccess clock jobID completedAt =>
    by_cases hid : jobID = ""
    · refine ⟨id, [], ?_, fun j _ => Or.inl rfl, Or.inl rfl⟩
      simp [StoreOp.apply, MarkSuccess, hid]
    · refine ⟨fun j => if runningWithID jobID j then
          succeeded (if completedAt = 0 then clock else completedAt) j else j,
          [], ?_, ?_, Or.inl rfl⟩
      · simp only [StoreOp.apply, MarkSuccess_snd db clock jobID completedAt hid,
          List.append_nil]
      · intro j _
        simp only
        split
        · rename_i hr
          exact Or.inr (Or.inr (Or.inl ⟨((runningWithID_iff jobID j).mp hr).2, _, rfl⟩))
        · exact Or.inl rfl
  | markFailure clock jobID attempts nextRunAt errMsg terminal completedAt =>
    by_cases hid : jobID = ""
    · refine ⟨id, [], ?_, fun j _ => Or.inl rfl, Or.inl rfl⟩
      simp [StoreOp.apply, MarkFailure, hid]
    · refine ⟨fun j => if runningWithID jobID j then
          failedWith (if terminal then JobStatus.FAILED else JobStatus.PENDING) attempts
            (if terminal then none else nextRunAt)
            (if terminal then some (completedAt.getD clock) else none)
            (if errMsg = "" then "unknown error" else errMsg) j
          else j, [], ?_, ?_, Or.inl rfl⟩
      · simp only [StoreOp.apply,
          MarkFailure_snd db clock jobID attempts nextRunAt errMsg terminal completedAt hid,
          List.append_nil]
      · intro j _
        simp only
        split
        · rename_i hr
          have hrun := ((runningWithID_iff jobID j).mp hr).2
          cases terminal
          · exact Or.inr (Or.inr (Or.inr (Or.inl ⟨hrun, _, _, _, rfl⟩)))
          · exact Or.inr (Or.inr (Or.inr (Or.inr ⟨hrun, _, _, _, _, rfl⟩)))
        · exact Or.inl rfl
  | recordStepOnce jobID stepKey resultHash =>
    refine ⟨id, [], ?_, fun j _ => Or.inl rfl, Or.inl rfl⟩
    simp only [StoreOp.apply, RecordStepOnce_jobs, List.map_id, List.append_nil]

theorem rowStep_ID_eq {j j' : Job} (h : RowStep j j') : j'.ID = j.ID := by
  rcases h with rfl | ⟨_, _, _, _, rfl⟩ | ⟨_, _, rfl⟩ | ⟨_, _, _, _, rfl⟩ | ⟨_, _, _, _, _, rfl⟩ <;> rfl

theorem rowStep_key_eq {j j' : Job} (h : RowStep j j') :
    j'.IdempotencyKey = j.IdempotencyKey := by
  rcases h with rfl | ⟨_, _, _, _, rfl⟩ | ⟨_, _, rfl⟩ | ⟨_, _, _, _, rfl⟩ | ⟨_, _, _, _, _, rfl⟩ <;> rfl

theorem rowStep_of_terminal {j j' : Job} (h : RowStep j j')
    (ht : j.Status = .SUCCESS ∨ j.Status = .FAILED) : j' = j := by
  rcases h with rfl | ⟨hs, _⟩ | ⟨hs, _⟩ | ⟨hs, _⟩ | ⟨hs, _⟩
  · rfl
  all_goals
    exfalso
    revert hs ht
    cases j.Status <;> simp

theorem rowStep_invariant {j j' : Job} (h : RowStep j j') (hj : RowInvariant j) :
    RowInvariant j' := by
  rcases h with rfl | ⟨_, _, _, _, rfl⟩ | ⟨_, _, rfl⟩ | ⟨_, _, _, _, rfl⟩ | ⟨_, _, _, _, _, rfl⟩
  · exact hj
  all_goals simp [RowInvariant, leased, succeeded, failedWith]

theorem fresh_invariant {db : Store} {r : Job} (h : Fresh db r) : RowInvariant r := by
  obtain ⟨_, _, _, hs, _⟩ := h
  simp [RowInvariant, hs]

theorem map_ID_of_rowStep (f : Job → Job) (jobs : List Job)
    (h : ∀ j ∈ jobs, RowStep j (f j)) :
    (jobs.map f).map (fun j => j.ID) = jobs.map (fun j => j.ID) := by
  rw [List.map_map]
  apply List.map_congr_left
  intro j hj
  exact rowStep_ID_eq (h j hj)

theorem apply_primaryKey (db : Store) (hpk : PrimaryKey db) (op : StoreOp) :
    PrimaryKey (op.apply db) := by
  obtain ⟨f, extra, hjobs, hstep, hextra⟩ := apply_shape db hpk op
  unfold PrimaryKey at *
  rw [hjobs, List.map_append, map_ID_of_rowStep f db.jobs hstep]
  rcases hextra with rfl | ⟨r, rfl, hr⟩
  · simpa using hpk
  · rw [List.nodup_append]
    refine ⟨hpk, by simp, ?_⟩
    intro a ha hb
    simp only [List.map_cons, List.map_nil, List.mem_singleton] at hb
    subst hb
    exact hr.1 ha

theorem run_primaryKey (db : Store) (hpk : PrimaryKey db) (ops : List StoreOp) :
    PrimaryKey (StoreOp.run db ops) := by
  induction ops generalizing db with
  | nil => exact hpk
  | cons op ops ih => exact ih _ (apply_primaryKey db hpk op)

/-- A terminal row stays where it is and as it is across one call. -/
theorem apply_terminal_fixed (db : Store) (hpk : PrimaryKey db) (op : StoreOp) (i : Nat)
    (j : Job) (hi : db.jobs[i]? = some j)
    (ht : j.Status = .SUCCESS ∨ j.Status = .FAILED) :
    (op.apply db).jobs[i]? = some j := by
  obtain ⟨f, extra, hjobs, hstep, _⟩ := apply_shape db hpk op
  have hmem : j ∈ db.jobs := List.getElem?_mem hi
  have hlt : i < db.jobs.length := by
    rcases Nat.lt_or_ge i db.jobs.length with h | h
    · exact h
    · rw [List.getElem?_eq_none h] at hi
      cases hi
  rw [hjobs, List.getElem?_append_left (by simpa using hlt), List.getElem?_map, hi]
  simp [rowStep_of_terminal (hstep j hmem) ht]

theorem apply_terminal_mem (db : Store) (hpk : PrimaryKey db) (op : StoreOp) (j : Job)
    (hj : j ∈ db.jobs) (ht : j.Status = .SUCCESS ∨ j.Status = .FAILED) :
    j ∈ (op.apply db).jobs := by
  obtain ⟨i, hi⟩ := List.getElem?_of_mem hj
  exact List.getElem?_mem (apply_terminal_fixed db hpk op i j hi ht)

theorem settlesOk_false_of_success (db : Store) (hpk : PrimaryKey db) (jobID : String)
    (op : StoreOp) (h : ∃ j ∈ db.jobs, j.ID = jobID ∧ j.Status = .SUCCESS) :
    op.settlesOk db jobID = false := by
  obtain ⟨j, hj, hid, hs⟩ := h
  cases op with
  | markSuccess clock jid ts =>
    simp only [StoreOp.settlesOk]
    by_cases he : jid = jobID
    · subst he
      by_cases hn : jid = ""
      · simp [MarkSuccess, hn, Result.isOk]
      · have hnr : ¬ ∃ x ∈ db.jobs, x.ID = jid ∧ x.Status = .RUNNING := by
          rintro ⟨x, hx, hxid, hxs⟩
          have : x = j := List.inj_on_of_nodup_map hpk hx hj (hxid.trans hid.symm)
          subst this
          rw [hs] at hxs
          cases hxs
        rw [MarkSuccess_of_not_running db clock jid ts hn hnr]
        simp [Result.isOk]
    · simp [he]
  | _ => rfl

theorem success_of_settlesOk (db : Store) (jobID : String) (op : StoreOp)
    (h : op.settlesOk db jobID = true) :
    ∃ j ∈ (op.apply db).jobs, j.ID = jobID ∧ j.Status = .SUCCESS := by
  cases op with
  | markSuccess clock jid ts =>
    simp only [StoreOp.settlesOk, Bool.and_eq_true, decide_eq_true_eq] at h
    obtain ⟨he, hok⟩ := h
    subst he
    have hn : jid ≠ "" := by
      intro hn
      simp [MarkSuccess, hn, Result.isOk] at hok
    have hex : ∃ x ∈ db.jobs, x.ID = jid ∧ x.Status = .RUNNING := by
      by_contra hnr
      rw [MarkSuccess_of_not_running db clock jid ts hn hnr] at hok
      simp [Result.isOk] at hok
    obtain ⟨x, hx, hxid, hxs⟩ := hex
    refine ⟨succeeded (if ts = 0 then clock else ts) x, ?_, hxid, rfl⟩
    simp only [StoreOp.apply, MarkSuccess_of_running db clock jid ts hn ⟨x, hx, hxid, hxs⟩]
    refine List.mem_map.mpr ⟨x, hx, ?_⟩
    simp [hxid, hxs]
  | createJob _ _ _ _ _ _ => simp [StoreOp.settlesOk] at h
  | claimJobs _ _ _ _ => simp [StoreOp.settlesOk] at h
  | markFailure _ _ _ _ _ _ _ => simp [StoreOp.settlesOk] at h
  | recordStepOnce _ _ _ => simp [StoreOp.settlesOk] at h

theorem successCount_of_success (db : Store) (hpk : PrimaryKey db) (jobID : String)
    (ops : List StoreOp) (h : ∃ j ∈ db.jobs, j.ID = jobID ∧ j.Status = .SUCCESS) :
    successCount jobID db ops = 0 := by
  induction ops generalizing db with
  | nil => rfl
  | cons op ops ih =>
    obtain ⟨j, hj, hid, hs⟩ := h
    have h' : ∃ j ∈ (op.apply db).jobs, j.ID = jobID ∧ j.Status = .SUCCESS :=
      ⟨j, apply_terminal_mem db hpk op j hj (Or.inl hs), hid, hs⟩
    simp [successCount, settlesOk_false_of_success db hpk jobID op ⟨j, hj, hid, hs⟩,
      ih _ (apply_primaryKey db hpk op) h']

theorem successCount_le_one (db : Store) (hpk : PrimaryKey db) (jobID : String)
    (ops : List StoreOp) : successCount jobID db ops ≤ 1 := by
  induction ops generalizing db with
  | nil => simp [successCount]
  | cons op ops ih =>
    by_cases hok : op.settlesOk db jobID = true
    · have := successCount_of_success _ (apply_primaryKey db hpk op) jobID ops
        (success_of_settlesOk db jobID op hok)
      simp [successCount, hok, this]
    · have := ih _ (apply_primaryKey db hpk op)
      simpa [successCount, hok] using this

theorem apply_rowInvariant (db : Store) (hpk : PrimaryKey db) (op : StoreOp)
    (h : ∀ j ∈ db.jobs, RowInvariant j) : ∀ j ∈ (op.apply db).jobs, RowInvariant j := by
  obtain ⟨f, extra, hjobs, hstep, hextra⟩ := apply_shape db hpk op
  intro j hj
  rw [hjobs, List.mem_append] at hj
  rcases hj with hj | hj
  · obtain ⟨x, hx, rfl⟩ := List.mem_map.mp hj
    exact rowStep_invariant (hstep x hx) (h x hx)
  · rcases hextra with rfl | ⟨r, rfl, hr⟩
    · simp at hj
    · simp only [List.mem_singleton] at hj
      subst hj
      exact fresh_invariant hr

theorem run_rowInvariant (db : Store) (hpk : PrimaryKey db) (ops : List StoreOp)
    (h : ∀ j ∈ db.jobs, RowInvariant j) : ∀ j ∈ (StoreOp.run db ops).jobs, RowInvariant j := by
  induction ops generalizing db with
  | nil => exact h
  | cons op ops ih =>
    exact ih _ (apply_primaryKey db hpk op) (apply_rowInvariant db hpk op h)

/-! ## C5: terminal states are absorbing -/

/-- C5: in a store with its primary key, a row whose status is `SUCCESS` or `FAILED` is, after
any call of `CreateJob`, `ClaimJobs`, `MarkSuccess`, `MarkFailure` or `RecordStepOnce` with any
arguments, still at its place and identical; and along any sequence of such calls at most one
`MarkSuccess` on a given job id affects a row. -/
theorem terminal_absorbing (db : Store) (hpk : PrimaryKey db) :
    (∀ (op : StoreOp) (i : Nat) (j : Job), db.jobs[i]? = some j →
        (j.Status = .SUCCESS ∨ j.Status = .FAILED) → (op.apply db).jobs[i]? = some j) ∧
    (∀ (jobID : String) (ops : List StoreOp), successCount jobID db ops ≤ 1) :=
  ⟨fun op i j hi ht => apply_terminal_fixed db hpk op i j hi ht,
   fun jobID ops => successCount_le_one db hpk jobID ops⟩

/-- Instance of C5 at `settledStore`, whose only row is `SUCCESS`. -/
theorem terminal_absorbing_witness :
    PrimaryKey settledStore ∧
    (∀ (op : StoreOp) (i : Nat) (j : Job), settledStore.jobs[i]? = some j →
        (j.Status = .SUCCESS ∨ j.Status = .FAILED) →
        (op.apply settledStore).jobs[i]? = some j) ∧
    (∀ (jobID : String) (ops : List StoreOp), successCount jobID settledStore ops ≤ 1) :=
  ⟨by decide, terminal_absorbing settledStore (by decide)⟩

/-! ## C6: the row invariants I1, I2, I3 -/

/-- C6: in every store reached from the empty store by any sequence of `CreateJob`,
`ClaimJobs`, `MarkSuccess`, `MarkFailure` (and `RecordStepOnce`) calls with any arguments,
every row with `status = RUNNING` has `locked_by` and `locked_until` set, and every row with
status `SUCCESS` or `FAILED` has both null and `completed_at` set. -/
theorem reachable_row_invariants (ops : List StoreOp) :
    ∀ j ∈ (StoreOp.run Store.empty ops).jobs,
      (j.Status = .RUNNING → j.LockedBy ≠ none ∧ j.LockedUntil ≠ none) ∧
      (j.Status = .SUCCESS ∨ j.Status = .FAILED →
        j.LockedBy = none ∧ j.LockedUntil = none ∧ j.CompletedAt ≠ none) :=
  run_rowInvariant Store.empty (by decide) ops (by simp [Store.empty])

/-- Instance of C6: the row of the store reached by `claimOps`. -/
theorem reachable_row_invariants_witness :
    claimedRow ∈ (StoreOp.run Store.empty claimOps).jobs ∧
      ((claimedRow.Status = .RUNNING →
          claimedRow.LockedBy ≠ none ∧ claimedRow.LockedUntil ≠ none) ∧
        (claimedRow.Status = .SUCCESS ∨ claimedRow.Status = .FAILED →
          claimedRow.LockedBy = none ∧ claimedRow.LockedUntil = none ∧
            claimedRow.CompletedAt ≠ none)) :=
  ⟨by decide, reachable_row_invariants claimOps claimedRow (by decide)⟩

/-! ## The runner and the release as row updates -/

theorem MarkSuccess_jobs (db : Store) (clock : Time) (jobID : String) (ts : Time) :
    (MarkSuccess db clock jobID ts).2.jobs = db.jobs ∨
    (MarkSuccess db clock jobID ts).2.jobs = db.jobs.map (fun j =>
      if runningWithID jobID j then succeeded (if ts = 0 then clock else ts) j else j) := by
  by_cases hid : jobID = ""
  · left
    simp [MarkSuccess, hid]
  · right
    rw [MarkSuccess_snd db clock jobID ts hid]

theorem MarkFailure_jobs (db : Store) (clock : Time) (jobID : String) (n : Int)
    (next : Option Time) (msg : String) (terminal : Bool) (comp : Option Time) :
    (MarkFailure db clock jobID n next msg terminal comp).2.jobs = db.jobs ∨
    (MarkFailure db clock jobID n next msg terminal comp).2.jobs = db.jobs.map (fun j =>
      if runningWithID jobID j then
        failedWith (if terminal then JobStatus.FAILED else JobStatus.PENDING) n
          (if terminal then none else next)
          (if terminal then some (comp.getD clock) else none)
          (if msg = "" then "unknown error" else msg) j
      else j) := by
  by_cases hid : jobID = ""
  · left
    simp [MarkFailure, hid]
  · right
    rw [MarkFailure_snd db clock jobID n next msg terminal comp hid]

/-- A failing settlement of the runner, whatever the message: attempts of the snapshot plus
one, terminal exactly when that reaches the snapshot's maximum. -/
theorem retry_jobs (db : Store) (now : Time) (wj : WorkerJob) (delay : Duration)
    (msg : String) :
    let terminal := decide (wrapInt (wj.Attempts + 1) ≥ wj.MaxAttempts)
    let res := if terminal then
        (MarkFailure db now wj.ID (wrapInt (wj.Attempts + 1)) none msg true (some now)).2
      else (MarkFailure db now wj.ID (wrapInt (wj.Attempts + 1)) (some (now + delay)) msg false none).2
    res.jobs = db.jobs ∨
    ∃ nx cp m, res.jobs = db.jobs.map (fun j =>
      if runningWithID wj.ID j then
        failedWith (if wrapInt (wj.Attempts + 1) ≥ wj.MaxAttempts then JobStatus.FAILED
          else JobStatus.PENDING) (wrapInt (wj.Attempts + 1)) nx cp m j
      else j) := by
  intro terminal res
  by_cases ht : wrapInt (wj.Attempts + 1) ≥ wj.MaxAttempts
  · have hres : res = (MarkFailure db now wj.ID (wrapInt (wj.Attempts + 1)) none msg true (some now)).2 := by
      simp [res, terminal, ht]
    rw [hres]
    rcases MarkFailure_jobs db now wj.ID (wrapInt (wj.Attempts + 1)) none msg true (some now) with h | h
    · exact Or.inl h
    · right
      refine ⟨none, some now, if msg = "" then "unknown error" else msg, ?_⟩
      rw [h]
      simp only [ht, if_true]
      rfl
  · have hres : res =
        (MarkFailure db now wj.ID (wrapInt (wj.Attempts + 1)) (some (now + delay)) msg false
          none).2 := by
      simp [res, terminal, ht]
    rw [hres]
    rcases MarkFailure_jobs db now wj.ID (wrapInt (wj.Attempts + 1)) (some (now + delay)) msg false none
      with h | h
    · exact Or.inl h
    · right
      refine ⟨some (now + delay), none, if msg = "" then "unknown error" else msg, ?_⟩
      rw [h]
      simp only [ht, if_false]
      rfl

theorem Process_jobs (r : Runner) (db : Store) (failed : Bool) (now : Time) (wj : WorkerJob) :
    (r.Process db failed now wj).jobs = db.jobs ∨
    (∃ c, (r.Process db failed now wj).jobs = db.jobs.map (fun j =>
      if runningWithID wj.ID j then succeeded c j else j)) ∨
    (∃ nx cp m, (r.Process db failed now wj).jobs = db.jobs.map (fun j =>
      if runningWithID wj.ID j then
        failedWith (if wrapInt (wj.Attempts + 1) ≥ wj.MaxAttempts then JobStatus.FAILED
          else JobStatus.PENDING) (wrapInt (wj.Attempts + 1)) nx cp m j
      else j)) := by
  cases failed
  · simp only [Runner.Process, Bool.not_false, if_true]
    split
    · rename_i e db1 heq
      have hj : db1.jobs = db.jobs := by
        have := RecordStepOnce_jobs db wj.ID r.StepKeyOK none
        rw [heq] at this
        exact this
      have := retry_jobs db1 now wj (r.Backoff (wrapInt (wj.Attempts + 1))) "record-step failed"
      simp only [Runner.scheduleRetry]
      rw [hj] at this
      rcases this with h | h
      · exact Or.inl h
      · exact Or.inr (Or.inr h)
    · rename_i b db1 heq
      have hj : db1.jobs = db.jobs := by
        have := RecordStepOnce_jobs db wj.ID r.StepKeyOK none
        rw [heq] at this
        exact this
      rcases MarkSuccess_jobs db1 now wj.ID now with h | h
      · exact Or.inl (h.trans hj)
      · exact Or.inr (Or.inl ⟨_, by rw [h, hj]⟩)
  · simp only [Runner.Process, Bool.not_true]
    have := retry_jobs db now wj (r.Backoff (wrapInt (wj.Attempts + 1))) "simulated failure"
    rcases this with h | h
    · exact Or.inl h
    · exact Or.inr (Or.inr h)

theorem releaseQueueFull_jobs (db : Store) (now : Time) (h : Job) :
    (releaseQueueFull db now h).2.jobs = db.jobs ∨
    ∃ nx cp m, (releaseQueueFull db now h).2.jobs = db.jobs.map (fun j =>
      if runningWithID h.ID j then failedWith .PENDING h.Attempts nx cp m j else j) := by
  unfold releaseQueueFull
  rcases MarkFailure_jobs db now h.ID h.Attempts (some (now + 250 * Millisecond))
    "queue full - rescheduled" false none with e | e
  · exact Or.inl e
  · exact Or.inr ⟨_, _, _, e⟩

/-! ## The shape of a system step -/

theorem settle_rowStep (s : Sys) (op : SysOp) (h : Job) (hs : op.settles s = some h)
    (G : Job → Job)
    (hG : ∀ j, (∃ c, G j = succeeded c j) ∨
      (∃ nx cp m, G j = failedWith
        (if wrapInt (h.Attempts + 1) ≥ h.MaxAttempts then JobStatus.FAILED else JobStatus.PENDING)
        (wrapInt (h.Attempts + 1)) nx cp m j) ∨
      (∃ nx cp m, G j = failedWith .PENDING h.Attempts nx cp m j))
    (j : Job) :
    SysRowStep s op j (if runningWithID h.ID j then G j else j) := by
  by_cases hr : runningWithID h.ID j = true
  · simp only [hr, if_true]
    obtain ⟨hid, hst⟩ := (runningWithID_iff h.ID j).mp hr
    rcases hG j with ⟨c, e⟩ | e | e
    · exact Or.inr (Or.inr (Or.inl ⟨hst, c, e⟩))
    · exact Or.inr (Or.inr (Or.inr ⟨h, hs, hid.symm, hst, Or.inl e⟩))
    · exact Or.inr (Or.inr (Or.inr ⟨h, hs, hid.symm, hst, Or.inr e⟩))
  · simp only [hr]
    exact Or.inl rfl

theorem step_shape (s : Sys) (hpk : PrimaryKey s.db) (op : SysOp) :
    ∃ (g : Job → Job) (extra : List Job),
      (s.step op).db.jobs = s.db.jobs.map g ++ extra ∧
      (∀ j ∈ s.db.jobs, SysRowStep s op j (g j)) ∧
      (extra = [] ∨ ∃ r, extra = [r] ∧ Fresh s.db r ∧ r.MaxAttempts ≤ MaxInt) ∧
      (∀ h' ∈ (s.step op).held, h' ∈ s.held ∨
        ∃ x ∈ s.db.jobs, (x.Status = .PENDING ∨ x.Status = .RUNNING) ∧
          ∃ w lu now, h' = leased w lu now x) := by
  cases op with
  | create now jid jobType payload maxAttempts key =>
    refine ⟨id, ?_⟩
    rcases CreateJob_shape_max s.db now jid jobType payload maxAttempts.val key with
      h | ⟨r, hr, hmax, h⟩
    · exact ⟨[], by simp [Sys.step, h], fun j _ => Or.inl rfl, Or.inl rfl,
        fun h' hh => Or.inl hh⟩
    · have hle : r.MaxAttempts ≤ MaxInt := by
        have h2 := maxAttempts.property.2
        rw [hmax]
        unfold MaxInt at h2 ⊢
        split <;> omega
      exact ⟨[r], by simp [Sys.step, h], fun j _ => Or.inl rfl, Or.inr ⟨r, rfl, hr, hle⟩,
        fun h' hh => Or.inl hh⟩
  | claim workerID limit lease now =>
    by_cases hw : workerID = ""
    · refine ⟨id, [], ?_, fun j _ => Or.inl rfl, Or.inl rfl, ?_⟩
      · simp [Sys.step, ClaimJobs, hw]
      · intro h' hh
        left
        simpa [Sys.step, ClaimJobs, hw] using hh
    · have heq := ClaimJobs_eq s.db workerID limit lease now hpk hw
      generalize (if limit ≤ 0 then (10 : Int) else limit) = lim at heq
      have hsel : ∀ j ∈ selectEligible s.db.jobs now lim,
          j ∈ s.db.jobs ∧ (j.Status = .PENDING ∨ j.Status = .RUNNING) := by
        intro j hj
        have := selectEligible_sublist s.db.jobs now lim j hj
        refine ⟨this.1, ?_⟩
        rcases (eligible_iff now j).mp this.2 with h | h
        · exact Or.inl h.1
        · exact Or.inr h.1
      refine ⟨fun j => if j ∈ selectEligible s.db.jobs now lim
          then leased workerID (now + lease) now j else j, [], ?_, ?_, Or.inl rfl, ?_⟩
      · simp only [Sys.step, heq, List.append_nil]
      · intro j _
        by_cases hj : j ∈ selectEligible s.db.jobs now lim
        · simp only [hj, if_true]
          exact Or.inr (Or.inl ⟨(hsel j hj).2, workerID, now + lease, now, rfl⟩)
        · simp only [hj, if_false]
          exact Or.inl rfl
      · intro h' hh
        simp only [Sys.step, heq, List.mem_append, List.mem_map] at hh
        rcases hh with hh | ⟨x, hx, rfl⟩
        · exact Or.inl hh
        · exact Or.inr ⟨x, (hsel x hx).1, (hsel x hx).2, workerID, now + lease, now, rfl⟩
  | process i r failed now =>
    cases hi : s.held[i]? with
    | none =>
      refine ⟨id, [], ?_, fun j _ => Or.inl rfl, Or.inl rfl, ?_⟩
      · simp [Sys.step, hi]
      · intro h' hh
        left
        simpa [Sys.step, hi] using hh
    | some h =>
      have hs : (SysOp.process i r failed now).settles s = some h := hi
      have hheld : ∀ h' ∈ (s.step (.process i r failed now)).held, h' ∈ s.held ∨
          ∃ x ∈ s.db.jobs, (x.Status = .PENDING ∨ x.Status = .RUNNING) ∧
            ∃ w lu now, h' = leased w lu now x := by
        intro h' hh
        left
        simp only [Sys.step, hi] at hh
        exact List.mem_of_mem_eraseIdx hh
      have hdb : (s.step (.process i r failed now)).db
          = r.Process s.db failed now h.toWorkerJob := by
        simp [Sys.step, hi]
      rcases Process_jobs r s.db failed now h.toWorkerJob with e | ⟨c, e⟩ | ⟨nx, cp, m, e⟩
      · exact ⟨id, [], by simp [hdb, e], fun j _ => Or.inl rfl, Or.inl rfl, hheld⟩
      · refine ⟨fun j => if runningWithID h.ID j then succeeded c j else j, [], ?_, ?_,
          Or.inl rfl, hheld⟩
        · rw [hdb, e, List.append_nil]
          rfl
        · intro j _
          exact settle_rowStep s _ h hs (succeeded c) (fun j => Or.inl ⟨c, rfl⟩) j
      · refine ⟨fun j => if runningWithID h.ID j then failedWith
            (if wrapInt (h.Attempts + 1) ≥ h.MaxAttempts then JobStatus.FAILED else JobStatus.PENDING)
            (wrapInt (h.Attempts + 1)) nx cp m j else j, [], ?_, ?_, Or.inl rfl, hheld⟩
        · rw [hdb, e, List.append_nil]
          rfl
        · intro j _
          exact settle_rowStep s _ h hs _ (fun j => Or.inr (Or.inl ⟨nx, cp, m, rfl⟩)) j
  | release i now =>
    cases hi : s.held[i]? with
    | none =>
      refine ⟨id, [], ?_, fun j _ => Or.inl rfl, Or.inl rfl, ?_⟩
      · simp [Sys.step, hi]
      · intro h' hh
        left
        simpa [Sys.step, hi] using hh
    | some h =>
      have hs : (SysOp.release i now).settles s = some h := hi
      have hheld : ∀ h' ∈ (s.step (.release i now)).held, h' ∈ s.held ∨
          ∃ x ∈ s.db.jobs, (x.Status = .PENDING ∨ x.Status = .RUNNING) ∧
            ∃ w lu now, h' = leased w lu now x := by
        intro h' hh
        left
        simp only [Sys.step, hi] at hh
        exact List.mem_of_mem_eraseIdx hh
      have hdb : (s.step (.release i now)).db = (releaseQueueFull s.db now h).2 := by
        simp [Sys.step, hi]
      rcases releaseQueueFull_jobs s.db now h with e | ⟨nx, cp, m, e⟩
      · exact ⟨id, [], by simp [hdb, e], fun j _ => Or.inl rfl, Or.inl rfl, hheld⟩
      · refine ⟨fun j => if runningWithID h.ID j then
            failedWith .PENDING h.Attempts nx cp m j else j, [], ?_, ?_, Or.inl rfl, hheld⟩
        · rw [hdb, e, List.append_nil]
        · intro j _
          exact settle_rowStep s _ h hs _ (fun j => Or.inr (Or.inr ⟨nx, cp, m, rfl⟩)) j

theorem sysRowStep_ID_eq {s : Sys} {op : SysOp} {j j' : Job} (h : SysRowStep s op j j') :
    j'.ID = j.ID := by
  rcases h with rfl | ⟨_, _, _, _, rfl⟩ | ⟨_, _, rfl⟩ |
    ⟨_, _, _, _, ⟨_, _, _, rfl⟩ | ⟨_, _, _, rfl⟩⟩ <;> rfl

theorem sysRowStep_max_eq {s : Sys} {op : SysOp} {j j' : Job} (h : SysRowStep s op j j') :
    j'.MaxAttempts = j.MaxAttempts := by
  rcases h with rfl | ⟨_, _, _, _, rfl⟩ | ⟨_, _, rfl⟩ |
    ⟨_, _, _, _, ⟨_, _, _, rfl⟩ | ⟨_, _, _, rfl⟩⟩ <;> rfl

theorem mem_held_of_settles {s : Sys} {op : SysOp} {h : Job} (hs : op.settles s = some h) :
    h ∈ s.held := by
  cases op with
  | process i _ _ _ => exact List.getElem?_mem hs
  | release i _ => exact List.getElem?_mem hs
  | create _ _ _ _ _ _ => cases hs
  | claim _ _ _ _ => cases hs

theorem eq_of_ID_eq {db : Store} (hpk : PrimaryKey db) {x y : Job} (hx : x ∈ db.jobs)
    (hy : y ∈ db.jobs) (h : x.ID = y.ID) : x = y :=
  List.inj_on_of_nodup_map hpk hx hy h

theorem step_primaryKey (s : Sys) (hpk : PrimaryKey s.db) (op : SysOp) :
    PrimaryKey (s.step op).db := by
  obtain ⟨g, extra, hjobs, hstep, hextra, _⟩ := step_shape s hpk op
  unfold PrimaryKey at *
  have hmap : (s.db.jobs.map g).map (fun j => j.ID) = s.db.jobs.map (fun j => j.ID) := by
    rw [List.map_map]
    apply List.map_congr_left
    intro j hj
    exact sysRowStep_ID_eq (hstep j hj)
  rw [hjobs, List.map_append, hmap]
  rcases hextra with rfl | ⟨r, rfl, hr, _⟩
  · simpa using hpk
  · rw [List.nodup_append]
    refine ⟨hpk, by simp, ?_⟩
    intro a ha hb
    simp only [List.map_cons, List.map_nil, List.mem_singleton] at hb
    subst hb
    exact hr.1 ha

theorem step_invariant (s : Sys) (hinv : SysInvariant s) (op : SysOp) :
    SysInvariant (s.step op) := by
  obtain ⟨hpk, hrows, hheld⟩ := hinv
  obtain ⟨g, extra, hjobs, hstep, hextra, hh⟩ := step_shape s hpk op
  refine ⟨step_primaryKey s hpk op, ?_, ?_⟩
  · intro j' hj'
    rw [hjobs, List.mem_append] at hj'
    rcases hj' with hj' | hj'
    · obtain ⟨j, hj, rfl⟩ := List.mem_map.mp hj'
      obtain ⟨hle, hlt, h0, hmax⟩ := hrows j hj
      rcases hstep j hj with e | ⟨hst, _, _, _, e⟩ | ⟨hst, _, e⟩ |
        ⟨h, hs, hid, hst, ⟨_, _, _, e⟩ | ⟨_, _, _, e⟩⟩
      · rw [e]; exact ⟨hle, hlt, h0, hmax⟩
      · rw [e]
        exact ⟨hle, fun _ => hlt hst, h0, hmax⟩
      · rw [e]
        refine ⟨hle, ?_, h0, hmax⟩
        intro h'
        simp [succeeded] at h'
      · obtain ⟨hhlt, hh0, x, hx, hxid, hxm⟩ := hheld h (mem_held_of_settles hs)
        have hxj : x = j := eq_of_ID_eq hpk hx hj (hxid.trans hid)
        subst hxj
        have hw : wrapInt (h.Attempts + 1) = h.Attempts + 1 := by
          apply wrapInt_of_range
          · unfold MinInt; omega
          · omega
        rw [e, hw]
        simp only [failedWith]
        by_cases ht : h.Attempts + 1 ≥ h.MaxAttempts
        · simp only [ht, if_true]
          refine ⟨by omega, ?_, by omega, hmax⟩
          intro h'
          simp at h'
        · simp only [ht, if_false]
          exact ⟨by omega, fun _ => by omega, by omega, hmax⟩
      · obtain ⟨hhlt, hh0, x, hx, hxid, hxm⟩ := hheld h (mem_held_of_settles hs)
        have hxj : x = j := eq_of_ID_eq hpk hx hj (hxid.trans hid)
        subst hxj
        rw [e]
        simp only [failedWith]
        exact ⟨by omega, fun _ => by omega, hh0, hmax⟩
    · rcases hextra with rfl | ⟨r, rfl, hr, hrmax⟩
      · simp at hj'
      · simp only [List.mem_singleton] at hj'
        subst hj'
        obtain ⟨_, _, _, _, ha, hm, _⟩ := hr
        exact ⟨by omega, fun _ => by omega, by omega, hrmax⟩
  · intro h' hh'
    have hkeep : ∀ x ∈ s.db.jobs, ∃ j ∈ (s.step op).db.jobs,
        j.ID = x.ID ∧ j.MaxAttempts = x.MaxAttempts := by
      intro x hx
      refine ⟨g x, ?_, sysRowStep_ID_eq (hstep x hx), sysRowStep_max_eq (hstep x hx)⟩
      rw [hjobs]
      exact List.mem_append_left _ (List.mem_map_of_mem g hx)
    rcases hh h' hh' with hin | ⟨x, hx, hst, _, _, _, e⟩
    · obtain ⟨hlt, h0, x, hx, hxid, hxm⟩ := hheld h' hin
      obtain ⟨j, hj, hjid, hjm⟩ := hkeep x hx
      exact ⟨hlt, h0, j, hj, hjid.trans hxid, hjm.trans hxm⟩
    · obtain ⟨j, hj, hjid, hjm⟩ := hkeep x hx
      rw [e]
      exact ⟨(hrows x hx).2.1 hst, (hrows x hx).2.2.1, j, hj, hjid, hjm⟩

theorem run_snoc (s : Sys) (ops : List SysOp) (op : SysOp) :
    s.run (ops ++ [op]) = (s.run ops).step op := by
  simp [Sys.run, List.foldl_append]

theorem run_invariant (ops : List SysOp) : SysInvariant (Sys.init.run ops) := by
  induction ops using List.reverseRecOn with
  | nil =>
    refine ⟨by decide, ?_, ?_⟩ <;> simp [Sys.run, Sys.init, Store.empty]
  | append_singleton ops op ih =>
    rw [run_snoc]
    exact step_invariant _ ih op

theorem step_attempts (s : Sys) (hinv : SysInvariant s) (op : SysOp) (j : Job)
    (hj : j ∈ s.db.jobs) (j' : Job) (hj' : j' ∈ (s.step op).db.jobs) (hid : j'.ID = j.ID) :
    j.Attempts ≤ j'.Attempts ∨ staleSettlement s op j := by
  obtain ⟨hpk, hrows, hheld⟩ := hinv
  obtain ⟨g, extra, hjobs, hstep, hextra, _⟩ := step_shape s hpk op
  rw [hjobs, List.mem_append] at hj'
  rcases hj' with hj' | hj'
  · obtain ⟨x, hx, rfl⟩ := List.mem_map.mp hj'
    have hxj : x = j :=
      eq_of_ID_eq hpk hx hj ((sysRowStep_ID_eq (hstep x hx)).symm.trans hid)
    subst hxj
    rcases hstep x hx with e | ⟨_, _, _, _, e⟩ | ⟨_, _, e⟩ |
      ⟨h, hs, hhid, _, ⟨_, _, _, e⟩ | ⟨_, _, _, e⟩⟩
    · left; rw [e]
    · left; rw [e]; exact le_refl _
    · left; rw [e]; exact le_refl _
    · by_cases hlt : h.Attempts < x.Attempts
      · exact Or.inr ⟨h, hs, hhid, hlt⟩
      · left
        obtain ⟨hhlt, hh0, y, hy, hyid, hym⟩ := hheld h (mem_held_of_settles hs)
        have hyx : y = x := eq_of_ID_eq hpk hy hx (hyid.trans hhid)
        subst hyx
        have hmax := (hrows y hy).2.2.2
        have hw : wrapInt (h.Attempts + 1) = h.Attempts + 1 := by
          apply wrapInt_of_range
          · unfold MinInt; omega
          · omega
        rw [e, hw]
        simp only [failedWith]
        omega
    · by_cases hlt : h.Attempts < x.Attempts
      · exact Or.inr ⟨h, hs, hhid, hlt⟩
      · left
        rw [e]
        simp only [failedWith]
        omega
  · rcases hextra with rfl | ⟨r, rfl, hr, _⟩
    · simp at hj'
    · simp only [List.mem_singleton] at hj'
      subst hj'
      exfalso
      exact hr.1 (hid ▸ List.mem_map_of_mem (fun j => j.ID) hj)

/-! ## C7: attempts over the executions of the system -/

/-- C7, as stated, fails: after the run `staleOps` the row has two attempts and is leased to
`D`; worker `A`, whose lease expired long ago and whose held row still records no attempt,
then fails its work, and `Process` writes `attempts = 1`: the attempts of the job decrease. -/
theorem stale_settlement_lowers_attempts_counterexample :
    ¬ ∀ (ops : List SysOp) (op : SysOp), ∀ j ∈ (Sys.init.run ops).db.jobs,
        ∀ j' ∈ ((Sys.init.run ops).step op).db.jobs, j'.ID = j.ID →
          j.Attempts ≤ j'.Attempts := by
  intro h
  exact absurd (h staleOps (.process 0 (NewRunner (fun _ => 0)) true 41)) (by decide)

/-- C7, amended: in every state the system reaches from the empty store by `CreateJob`,
`ClaimJobs`, `Runner.Process` on a held row and the queue-full release of a held row, in any
order and with any arguments, no job has more attempts than its `max_attempts`; and from one
state to the next the attempts of a job do not decrease, unless the step settles from a stale
held row, one for the same job that records fewer attempts than the job has by now. -/
theorem attempts_bounded_and_monotone_unless_stale (ops : List SysOp) :
    (∀ j ∈ (Sys.init.run ops).db.jobs, j.Attempts ≤ j.MaxAttempts) ∧
    (∀ (op : SysOp), ∀ j ∈ (Sys.init.run ops).db.jobs,
      ∀ j' ∈ ((Sys.init.run ops).step op).db.jobs, j'.ID = j.ID →
        j.Attempts ≤ j'.Attempts ∨ staleSettlement (Sys.init.run ops) op j) := by
  have hinv := run_invariant ops
  exact ⟨fun j hj => (hinv.2.1 j hj).1,
    fun op j hj j' hj' hid => step_attempts _ hinv op j hj j' hj' hid⟩

/-- Instance of C7 at the state reached by `staleOps`. -/
theorem attempts_bounded_and_monotone_unless_stale_witness :
    (∀ j ∈ (Sys.init.run staleOps).db.jobs, j.Attempts ≤ j.MaxAttempts) ∧
    (∀ (op : SysOp), ∀ j ∈ (Sys.init.run staleOps).db.jobs,
      ∀ j' ∈ ((Sys.init.run staleOps).step op).db.jobs, j'.ID = j.ID →
        j.Attempts ≤ j'.Attempts ∨ staleSettlement (Sys.init.run staleOps) op j) :=
  attempts_bounded_and_monotone_unless_stale staleOps

/-! ## Lemmas about a claim after a claim -/

theorem ClaimJobs_claimed (db : Store) (workerID : String) (limit : Int) (lease : Duration)
    (now : Time) (hpk : PrimaryKey db) (hw : workerID ≠ "") :
    claimedJobs (ClaimJobs db workerID limit lease now).1 =
        (selectEligible db.jobs now (if limit ≤ 0 then 10 else limit)).map
          (leased workerID (now + lease) now) ∧
      (ClaimJobs db workerID limit lease now).2.jobs = db.jobs.map (fun j =>
        if j ∈ selectEligible db.jobs now (if limit ≤ 0 then 10 else limit)
        then leased workerID (now + lease) now j else j) := by
  rw [ClaimJobs_eq db workerID limit lease now hpk hw]
  exact ⟨rfl, rfl⟩

theorem ClaimJobs_primaryKey (db : Store) (workerID : String) (limit : Int) (lease : Duration)
    (now : Time) (hpk : PrimaryKey db) :
    PrimaryKey (ClaimJobs db workerID limit lease now).2 :=
  apply_primaryKey db hpk (.claimJobs workerID limit lease now)

theorem eligible_leased (w : String) (lu now t : Time) (j : Job) :
    eligible t (leased w lu now j) = true ↔ lu ≤ t := by
  simp [eligible, leased, notNullAndLe]

theorem selectEligible_all (jobs : List Job) (now : Time) (lim : Int) (j : Job)
    (hj : j ∈ jobs) (he : eligible now j = true)
    (hlen : ((jobs.filter (eligible now)).length : Int) ≤ lim) :
    j ∈ selectEligible jobs now lim := by
  unfold selectEligible
  rw [List.take_of_length_le]
  · exact (List.perm_insertionSort _ _).mem_iff.mpr (List.mem_filter.mpr ⟨hj, he⟩)
  · rw [List.length_insertionSort]
    omega

/-! ## C9: lease exclusion and recovery -/

/-- C9, as stated, fails: `A` claimed the jobs `k` and `j`, both leases run until 15.  At
time 20, after expiry, the job `j` is eligible, yet the claim of `B` with `limit = 1` returns
only `k`, which is due earlier: `j` is not re-leased and stays locked by `A`. -/
theorem limited_claim_skips_expired_lease_counterexample :
    twoClaimedByA.jobs.map (fun j => (j.ID, j.Status, j.LockedBy, j.LockedUntil))
        = [("k", .RUNNING, some "A", some 15), ("j", .RUNNING, some "A", some 15)] ∧
      twoClaimedByA.jobs.map (fun j => eligible 20 j) = [true, true] ∧
      (claimedJobs (ClaimJobs twoClaimedByA "B" 1 5 20).1).map (fun j => j.ID) = ["k"] ∧
      (ClaimJobs twoClaimedByA "B" 1 5 20).2.jobs.map
          (fun j => (j.ID, j.Status, j.LockedBy, j.LockedUntil))
        = [("k", .RUNNING, some "B", some 25), ("j", .RUNNING, some "A", some 15)] := by
  decide

/-- C9, amended: let `J` be a row as the claim of worker `A` at time `now` with lease `L`
left it (`RUNNING`, `locked_until = now + L`; the last part of the statement says that
`ClaimJobs` leaves every job it returns in this state).  `J` satisfies the eligibility
predicate at time `t` if and only if `t >= now + L`; no claim at a time before `now + L`
returns `J`; and a claim of `B` at a time `t >= now + L` returns `J` whenever at most `limit`
rows are eligible at `t`, and whenever it returns `J` the row is re-leased to `B` until
`t + lease` and the `MarkSuccess` of `B` is accepted. -/
theorem lease_exclusion_and_recovery (db : Store) (A B : String) (L : Duration) (now : Time)
    (J : Job) (hpk : PrimaryKey db) (hB : B ≠ "") (hJ : J ∈ db.jobs) (hid : J.ID ≠ "")
    (hrun : J.Status = .RUNNING) (hlu : J.LockedUntil = some (now + L)) :
    (∀ t, eligible t J = true ↔ now + L ≤ t) ∧
    (∀ (t : Time) (limit : Int) (lease : Duration), t < now + L →
      ∀ x ∈ claimedJobs (ClaimJobs db B limit lease t).1, x.ID ≠ J.ID) ∧
    (∀ (t : Time) (limit : Int) (lease : Duration), now + L ≤ t →
      ((((db.jobs.filter (eligible t)).length : Int) ≤ (if limit ≤ 0 then 10 else limit) →
        ∃ x ∈ claimedJobs (ClaimJobs db B limit lease t).1, x.ID = J.ID) ∧
      ((∃ x ∈ claimedJobs (ClaimJobs db B limit lease t).1, x.ID = J.ID) →
        (∃ x ∈ (ClaimJobs db B limit lease t).2.jobs,
          x.ID = J.ID ∧ x.Status = .RUNNING ∧ x.LockedBy = some B ∧
            x.LockedUntil = some (t + lease)) ∧
        ∀ (clock ts : Time),
          (MarkSuccess (ClaimJobs db B limit lease t).2 clock J.ID ts).1 = .ok ()))) ∧
    (∀ (db0 : Store) (limit : Int), PrimaryKey db0 → A ≠ "" →
      ∀ J0 ∈ claimedJobs (ClaimJobs db0 A limit L now).1,
        J0 ∈ (ClaimJobs db0 A limit L now).2.jobs ∧ J0.Status = .RUNNING ∧
          J0.LockedBy = some A ∧ J0.LockedUntil = some (now + L)) := by
  have helig : ∀ t, eligible t J = true ↔ now + L ≤ t := by
    intro t
    simp [eligible, hrun, hlu, notNullAndLe]
  have hsame : ∀ (t : Time) (lim : Int) (y : Job), y ∈ selectEligible db.jobs t lim →
      y.ID = J.ID → y = J := by
    intro t lim y hy hyid
    exact eq_of_ID_eq hpk (selectEligible_sublist _ _ _ y hy).1 hJ hyid
  refine ⟨helig, ?_, ?_, ?_⟩
  · intro t limit lease hlt x hx hxid
    rw [(ClaimJobs_claimed db B limit lease t hpk hB).1] at hx
    obtain ⟨y, hy, rfl⟩ := List.mem_map.mp hx
    have hyJ := hsame t _ y hy hxid
    have := (selectEligible_sublist _ _ _ y hy).2
    rw [hyJ, helig] at this
    exact absurd this (not_le.mpr hlt)
  · intro t limit lease hle
    obtain ⟨hc2, hj2⟩ := ClaimJobs_claimed db B limit lease t hpk hB
    constructor
    · intro hlen
      rw [hc2]
      have := selectEligible_all db.jobs t _ _ hJ ((helig t).mpr hle) hlen
      exact ⟨_, List.mem_map_of_mem _ this, rfl⟩
    · rintro ⟨x, hx, hxid⟩
      rw [hc2] at hx
      obtain ⟨y, hy, rfl⟩ := List.mem_map.mp hx
      have hyJ := hsame t _ y hy hxid
      subst hyJ
      have hin : leased B (t + lease) t y ∈ (ClaimJobs db B limit lease t).2.jobs := by
        rw [hj2]
        refine List.mem_map.mpr ⟨_, hJ, ?_⟩
        simp [hy]
      refine ⟨⟨_, hin, rfl, rfl, rfl, rfl⟩, ?_⟩
      intro clock ts
      rw [MarkSuccess_of_running _ clock _ ts hid ⟨_, hin, rfl, rfl⟩]
  · intro db0 limit hpk0 hA J0 hJ0
    obtain ⟨hc, hj⟩ := ClaimJobs_claimed db0 A limit L now hpk0 hA
    rw [hc] at hJ0
    obtain ⟨j0, hj0, rfl⟩ := List.mem_map.mp hJ0
    refine ⟨?_, rfl, rfl, rfl⟩
    rw [hj]
    refine List.mem_map.mpr ⟨j0, (selectEligible_sublist _ _ _ j0 hj0).1, ?_⟩
    simp [hj0]

/-- Instance of C9 at the store `claimedByA`: the job claimed by `A` at time 1 with lease 10. -/
theorem lease_exclusion_and_recovery_witness :
    (PrimaryKey claimedByA ∧ "B" ≠ "" ∧ claimedRow ∈ claimedByA.jobs ∧ claimedRow.ID ≠ "" ∧
      claimedRow.Status = .RUNNING ∧ claimedRow.LockedUntil = some (1 + 10)) ∧
    ((∀ t, eligible t claimedRow = true ↔ 1 + 10 ≤ t) ∧
    (∀ (t : Time) (limit : Int) (lease : Duration), t < 1 + 10 →
      ∀ x ∈ claimedJobs (ClaimJobs claimedByA "B" limit lease t).1, x.ID ≠ claimedRow.ID) ∧
    (∀ (t : Time) (limit : Int) (lease : Duration), 1 + 10 ≤ t →
      ((((claimedByA.jobs.filter (eligible t)).length : Int)
          ≤ (if limit ≤ 0 then 10 else limit) →
        ∃ x ∈ claimedJobs (ClaimJobs claimedByA "B" limit lease t).1, x.ID = claimedRow.ID) ∧
      ((∃ x ∈ claimedJobs (ClaimJobs claimedByA "B" limit lease t).1, x.ID = claimedRow.ID) →
        (∃ x ∈ (ClaimJobs claimedByA "B" limit lease t).2.jobs,
          x.ID = claimedRow.ID ∧ x.Status = .RUNNING ∧ x.LockedBy = some "B" ∧
            x.LockedUntil = some (t + lease)) ∧
        ∀ (clock ts : Time),
          (MarkSuccess (ClaimJobs claimedByA "B" limit lease t).2 clock claimedRow.ID ts).1
            = .ok ()))) ∧
    (∀ (db0 : Store) (limit : Int), PrimaryKey db0 → "A" ≠ "" →
      ∀ J0 ∈ claimedJobs (ClaimJobs db0 "A" limit 10 1).1,
        J0 ∈ (ClaimJobs db0 "A" limit 10 1).2.jobs ∧ J0.Status = .RUNNING ∧
          J0.LockedBy = some "A" ∧ J0.LockedUntil = some (1 + 10))) :=
  ⟨⟨by decide, by decide, by decide, by decide, by decide, by decide⟩,
    lease_exclusion_and_recovery claimedByA "A" "B" 10 1 claimedRow (by decide) (by decide)
      (by decide) (by decide) (by decide) (by decide)⟩

/-! ## Lemmas about the idempotency key -/

theorem map_key_of_rowStep (f : Job → Job) (jobs : List Job)
    (h : ∀ j ∈ jobs, RowStep j (f j)) :
    (jobs.map f).filterMap (fun j => j.IdempotencyKey)
      = jobs.filterMap (fun j => j.IdempotencyKey) := by
  rw [List.filterMap_map]
  apply List.filterMap_congr
  intro j hj
  exact rowStep_key_eq (h j hj)

theorem apply_uniqueKey (db : Store) (hpk : PrimaryKey db) (huk : UniqueKey db)
    (op : StoreOp) : UniqueKey (op.apply db) := by
  obtain ⟨f, extra, hjobs, hstep, hextra⟩ := apply_shape db hpk op
  unfold UniqueKey at *
  rw [hjobs, List.filterMap_append, map_key_of_rowStep f db.jobs hstep]
  rcases hextra with rfl | ⟨r, rfl, hr⟩
  · simpa using huk
  · cases hk : r.IdempotencyKey with
    | none => simpa [List.filterMap_cons, hk] using huk
    | some k =>
      simp only [List.filterMap_cons, hk, List.filterMap_nil]
      rw [List.nodup_append]
      refine ⟨huk, by simp, ?_⟩
      intro a ha hb
      simp only [List.mem_singleton] at hb
      subst hb
      exact hr.2.1 a hk ha

theorem run_keys (db : Store) (hpk : PrimaryKey db) (huk : UniqueKey db)
    (ops : List StoreOp) (j : Job) (hj : j ∈ db.jobs) :
    UniqueKey (StoreOp.run db ops) ∧
    ∃ j' ∈ (StoreOp.run db ops).jobs,
      j'.ID = j.ID ∧ j'.IdempotencyKey = j.IdempotencyKey := by
  induction ops generalizing db j with
  | nil => exact ⟨huk, j, hj, rfl, rfl⟩
  | cons op ops ih =>
    obtain ⟨f, extra, hjobs, hstep, _⟩ := apply_shape db hpk op
    have hfj : f j ∈ (op.apply db).jobs := by
      rw [hjobs]
      exact List.mem_append_left _ (List.mem_map_of_mem f hj)
    obtain ⟨h1, j', hj', e1, e2⟩ :=
      ih (op.apply db) (apply_primaryKey db hpk op) (apply_uniqueKey db hpk huk op) (f j) hfj
    exact ⟨h1, j', hj', e1.trans (rowStep_ID_eq (hstep j hj)),
      e2.trans (rowStep_key_eq (hstep j hj))⟩

theorem filter_key_singleton (jobs : List Job) (K : String)
    (huk : (jobs.filterMap (fun j => j.IdempotencyKey)).Nodup) (j : Job) (hj : j ∈ jobs)
    (hk : j.IdempotencyKey = some K) :
    jobs.filter (fun x => decide (x.IdempotencyKey = some K)) = [j] := by
  induction jobs with
  | nil => simp at hj
  | cons a l ih =>
    have hnone : ∀ x ∈ l, x.IdempotencyKey = some K →
        K ∈ l.filterMap (fun j => j.IdempotencyKey) := by
      intro x hx hxk
      exact List.mem_filterMap.mpr ⟨x, hx, hxk⟩
    rcases List.mem_cons.mp hj with rfl | hj'
    · simp only [List.filterMap_cons, hk, List.nodup_cons] at huk
      rw [List.filter_cons]
      simp only [hk, decide_True, if_true, List.cons.injEq, true_and]
      rw [List.filter_eq_nil_iff]
      intro x hx hxk
      exact huk.1 (hnone x hx (by simpa using hxk))
    · cases hak : a.IdempotencyKey with
      | none =>
        simp only [List.filterMap_cons, hak] at huk
        rw [List.filter_cons]
        simp [hak, ih huk hj']
      | some k =>
        simp only [List.filterMap_cons, hak, List.nodup_cons] at huk
        have hne : k ≠ K := by
          rintro rfl
          exact huk.1 (hnone j hj' hk)
        rw [List.filter_cons]
        simp [hak, hne, ih huk.2 hj']

theorem find_key (jobs : List Job) (K : String)
    (huk : (jobs.filterMap (fun j => j.IdempotencyKey)).Nodup) (j : Job) (hj : j ∈ jobs)
    (hk : j.IdempotencyKey = some K) :
    jobs.find? (fun x => decide (x.IdempotencyKey = some K)) = some j := by
  have h := filter_key_singleton jobs K huk j hj hk
  cases hf : jobs.find? (fun x => decide (x.IdempotencyKey = some K)) with
  | none =>
    rw [List.find?_eq_none] at hf
    exact absurd (by simpa using hk) (hf j hj)
  | some x =>
    have hx : x ∈ jobs.filter (fun x => decide (x.IdempotencyKey = some K)) :=
      List.mem_filter.mpr ⟨List.mem_of_find?_eq_some hf, by simpa using List.find?_some hf⟩
    rw [h, List.mem_singleton] at hx
    rw [hx]

theorem CreateJob_existing (db : Store) (huk : UniqueKey db) (now : Time)
    (id jobType payload : String) (m : Int) (K : String) (j : Job) (hj : j ∈ db.jobs)
    (hk : j.IdempotencyKey = some K) (hid : id ≠ "") (hty : jobType ≠ "")
    (hp : payload ≠ "") :
    CreateJob db now id jobType payload m (some K) = (.ok (some j), db) := by
  have hmem : K ∈ db.jobs.filterMap (fun j => j.IdempotencyKey) :=
    List.mem_filterMap.mpr ⟨j, hj, hk⟩
  have hins : ∀ row : Job, row.IdempotencyKey = some K → insertJob db row = none := by
    intro row hrow
    unfold insertJob
    split
    · rfl
    · simp [hrow, hmem]
  unfold CreateJob
  simp only [hid, hty, hp, if_false]
  rw [hins _ rfl]
  simp only [GetJobByIdempotencyKey, find_key db.jobs K huk j hj hk]

theorem CreateJob_first (db : Store) (now : Time) (id jobType payload : String) (m : Int)
    (K : String) (hok : (CreateJob db now id jobType payload m (some K)).1.isOk = true) :
    ∃ j, (CreateJob db now id jobType payload m (some K)).1 = .ok (some j) ∧
      j ∈ (CreateJob db now id jobType payload m (some K)).2.jobs ∧
      j.IdempotencyKey = some K ∧
      (K ∉ db.jobs.filterMap (fun j => j.IdempotencyKey) → j.ID = id) ∧
      (K ∈ db.jobs.filterMap (fun j => j.IdempotencyKey) →
        j ∈ db.jobs ∧ (CreateJob db now id jobType payload m (some K)).2 = db) := by
  unfold CreateJob at hok ⊢
  by_cases hid : id = ""
  · simp [hid, Result.isOk] at hok
  by_cases hty : jobType = ""
  · simp [hid, hty, Result.isOk] at hok
  by_cases hp : payload = ""
  · simp [hid, hty, hp, Result.isOk] at hok
  simp only [hid, hty, hp, if_false] at hok ⊢
  split at hok
  · rename_i hins
    cases hg : GetJobByIdempotencyKey db K with
    | none =>
      rw [hg] at hok
      simp [Result.isOk] at hok
    | some existing =>
      have hmem : existing ∈ db.jobs := List.mem_of_find?_eq_some hg
      have hkey : existing.IdempotencyKey = some K := by
        simpa using List.find?_some hg
      have hK : K ∈ db.jobs.filterMap (fun j => j.IdempotencyKey) :=
        List.mem_filterMap.mpr ⟨existing, hmem, hkey⟩
      exact ⟨existing, rfl, hmem, hkey, fun h => absurd hK h, fun _ => ⟨hmem, rfl⟩⟩
  · rename_i db' hins
    obtain ⟨h1, h2, h3⟩ := insertJob_some _ _ _ hins
    subst h1
    refine ⟨
      { ID := id, JobType := jobType, Payload := payload, Status := .PENDING,
        Attempts := 0, MaxAttempts := (if m ≤ 0 then 3 else m), NextRunAt := some now,
        IdempotencyKey := some K, StartedAt := none, CompletedAt := none,
        ErrorMessage := none, LockedBy := none, LockedUntil := none },
      ?_, ?_, rfl, fun _ => rfl, fun h => absurd h (h3 K rfl)⟩
    · simp only [GetJobByID, List.find?_append]
      have : db.jobs.find? (fun j => decide (j.ID = id)) = none := by
        rw [List.find?_eq_none]
        intro x hx hxid
        exact h2 (List.mem_map.mpr ⟨x, hx, by simpa using hxid⟩)
      rw [this]
      simp
    · simp

/-! ## C10: submission idempotency -/

/-- C10, as stated, fails: the store already holds job `j1` under key `K`.  The call
`CreateJob("x1", ..., K)` succeeds (it returns `j1`), and the later call
`CreateJob("x2", ..., K)` returns the existing job, which carries the id `j1`, not `x1`. -/
theorem CreateJob_replay_returns_older_id_counterexample :
    PrimaryKey demoStore ∧ UniqueKey demoStore ∧
      (CreateJob demoStore 9 "x1" "email" "p" 3 (some "K")).1.isOk = true ∧
      (CreateJob (CreateJob demoStore 9 "x1" "email" "p" 3 (some "K")).2
          10 "x2" "email" "q" 3 (some "K")).1 = .ok demoStore.jobs.head? ∧
      demoStore.jobs.head?.map (fun j => j.ID) = some "j1" ∧ "j1" ≠ "x1" := by
  decide

/-- C10, amended: in a store with its primary key and unique index, if
`CreateJob(id1, ..., K)` succeeded, returning the job `j1` (which carries `id1` when no row
held `K` before, and is the row that held `K` otherwise), then after any further store
operations a `CreateJob(id2, ..., K)` with valid arguments returns without error the
existing row `j2` that holds `K`, which has the id of `j1` (and is `j1` itself when nothing
happened in between), and leaves the store as it is: no row is inserted or modified, and
exactly one row holds `K`. -/
theorem CreateJob_idempotent (db : Store) (hpk : PrimaryKey db) (huk : UniqueKey db)
    (now1 : Time) (id1 type1 payload1 : String) (m1 : Int) (K : String)
    (ops : List StoreOp) (now2 : Time) (id2 type2 payload2 : String) (m2 : Int)
    (hok : (CreateJob db now1 id1 type1 payload1 m1 (some K)).1.isOk = true)
    (hid : id2 ≠ "") (hty : type2 ≠ "") (hp : payload2 ≠ "") :
    ∃ j1 j2,
      (CreateJob db now1 id1 type1 payload1 m1 (some K)).1 = .ok (some j1) ∧
      (K ∉ db.jobs.filterMap (fun j => j.IdempotencyKey) → j1.ID = id1) ∧
      (K ∈ db.jobs.filterMap (fun j => j.IdempotencyKey) → j1 ∈ db.jobs) ∧
      CreateJob (StoreOp.run (CreateJob db now1 id1 type1 payload1 m1 (some K)).2 ops)
          now2 id2 type2 payload2 m2 (some K)
        = (.ok (some j2),
            StoreOp.run (CreateJob db now1 id1 type1 payload1 m1 (some K)).2 ops) ∧
      j2.ID = j1.ID ∧ (ops = [] → j2 = j1) ∧
      (StoreOp.run (CreateJob db now1 id1 type1 payload1 m1 (some K)).2 ops).jobs.filter
          (fun j => decide (j.IdempotencyKey = some K)) = [j2] := by
  obtain ⟨j1, h1, hmem1, hk1, hfresh, hold⟩ :=
    CreateJob_first db now1 id1 type1 payload1 m1 K hok
  have hpk1 : PrimaryKey (CreateJob db now1 id1 type1 payload1 m1 (some K)).2 :=
    apply_primaryKey db hpk (.createJob now1 id1 type1 payload1 m1 (some K))
  have huk1 : UniqueKey (CreateJob db now1 id1 type1 payload1 m1 (some K)).2 :=
    apply_uniqueKey db hpk huk (.createJob now1 id1 type1 payload1 m1 (some K))
  generalize (CreateJob db now1 id1 type1 payload1 m1 (some K)).2 = db1 at *
  obtain ⟨huk2, j2, hmem2, hid2, hk2⟩ := run_keys db1 hpk1 huk1 ops j1 hmem1
  have hk2' : j2.IdempotencyKey = some K := hk2.trans hk1
  have hfilter := filter_key_singleton _ K huk2 j2 hmem2 hk2'
  refine ⟨j1, j2, h1, hfresh, fun h => (hold h).1,
    CreateJob_existing _ huk2 now2 id2 type2 payload2 m2 K j2 hmem2 hk2' hid hty hp,
    hid2, ?_, hfilter⟩
  intro hops
  subst hops
  have := filter_key_singleton _ K huk1 j1 hmem1 hk1
  have hrun : StoreOp.run db1 [] = db1 := rfl
  rw [hrun] at hfilter
  rw [this] at hfilter
  exact (List.cons.inj hfilter).1.symm

/-- Instance of C10: two submissions under key `K`, with a claim in between. -/
theorem CreateJob_idempotent_witness :
    (PrimaryKey createdStore ∧ UniqueKey createdStore ∧
      (CreateJob createdStore 2 "j2" "email" "p" 3 (some "K")).1.isOk = true ∧
      "j3" ≠ "" ∧ "sms" ≠ "" ∧ "q" ≠ "") ∧
    ∃ j1 j2,
      (CreateJob createdStore 2 "j2" "email" "p" 3 (some "K")).1 = .ok (some j1) ∧
      ("K" ∉ createdStore.jobs.filterMap (fun j => j.IdempotencyKey) → j1.ID = "j2") ∧
      ("K" ∈ createdStore.jobs.filterMap (fun j => j.IdempotencyKey) →
        j1 ∈ createdStore.jobs) ∧
      CreateJob (StoreOp.run (CreateJob createdStore 2 "j2" "email" "p" 3 (some "K")).2
            [.claimJobs "A" 10 30 3])
          4 "j3" "sms" "q" 5 (some "K")
        = (.ok (some j2),
            StoreOp.run (CreateJob createdStore 2 "j2" "email" "p" 3 (some "K")).2
              [.claimJobs "A" 10 30 3]) ∧
      j2.ID = j1.ID ∧ (([.claimJobs "A" 10 30 3] : List StoreOp) = [] → j2 = j1) ∧
      (StoreOp.run (CreateJob createdStore 2 "j2" "email" "p" 3 (some "K")).2
          [.claimJobs "A" 10 30 3]).jobs.filter
          (fun j => decide (j.IdempotencyKey = some "K")) = [j2] :=
  ⟨⟨by decide, by decide, by decide, by decide, by decide, by decide⟩,
    CreateJob_idempotent createdStore (by decide) (by decide) 2 "j2" "email" "p" 3 "K"
      [.claimJobs "A" 10 30 3] 4 "j3" "sms" "q" 5 (by decide) (by decide) (by decide)
      (by decide)⟩

/-! ## Lemmas about the step table -/

theorem RecordStepOnce_fresh (db : Store) (jobID stepKey : String) (resultHash : Option String)
    (h1 : jobID ≠ "") (h2 : stepKey ≠ "") (hk : (jobID, stepKey) ∉ stepKeys db) :
    RecordStepOnce db jobID stepKey resultHash =
      (.ok true, { db with job_executions := db.job_executions ++
        [{ job_id := jobID, step_key := stepKey, result_hash := resultHash }] }) := by
  unfold stepKeys at hk
  simp [RecordStepOnce, insertStep, h1, h2, hk]

theorem RecordStepOnce_dup (db : Store) (jobID stepKey : String) (resultHash : Option String)
    (h1 : jobID ≠ "") (h2 : stepKey ≠ "") (hk : (jobID, stepKey) ∈ stepKeys db) :
    RecordStepOnce db jobID stepKey resultHash = (.ok false, db) := by
  unfold stepKeys at hk
  simp [RecordStepOnce, insertStep, h1, h2, hk]

theorem RecordStepOnce_steps (db : Store) (jobID stepKey : String)
    (resultHash : Option String) :
    ∃ added, (RecordStepOnce db jobID stepKey resultHash).2.job_executions
      = db.job_executions ++ added := by
  by_cases h1 : jobID = ""
  · exact ⟨[], by simp [RecordStepOnce, h1]⟩
  by_cases h2 : stepKey = ""
  · exact ⟨[], by simp [RecordStepOnce, h1, h2]⟩
  by_cases hk : (jobID, stepKey) ∈ stepKeys db
  · exact ⟨[], by rw [RecordStepOnce_dup db jobID stepKey resultHash h1 h2 hk]; simp⟩
  · exact ⟨_, by rw [RecordStepOnce_fresh db jobID stepKey resultHash h1 h2 hk]⟩

theorem CreateJob_steps (db : Store) (now : Time) (id jobType payload : String)
    (maxAttempts : Int) (key : Option String) :
    (CreateJob db now id jobType payload maxAttempts key).2.job_executions
      = db.job_executions := by
  rcases CreateJob_shape db now id jobType payload maxAttempts key with h | ⟨r, _, _, _, h⟩ <;>
    rw [h]

theorem ClaimJobs_steps (db : Store) (workerID : String) (limit : Int) (lease : Duration)
    (now : Time) :
    (ClaimJobs db workerID limit lease now).2.job_executions = db.job_executions := by
  unfold ClaimJobs
  split
  · rfl
  · simp only
    split <;> (split <;> rfl)

theorem MarkSuccess_steps (db : Store) (clock : Time) (jobID : String) (ts : Time) :
    (MarkSuccess db clock jobID ts).2.job_executions = db.job_executions := by
  unfold MarkSuccess
  split
  · rfl
  · simp only
    split <;> rfl

theorem MarkFailure_steps (db : Store) (clock : Time) (jobID : String) (n : Int)
    (next : Option Time) (msg : String) (terminal : Bool) (comp : Option Time) :
    (MarkFailure db clock jobID n next msg terminal comp).2.job_executions
      = db.job_executions := by
  unfold MarkFailure
  split
  · rfl
  · simp only
    split <;> rfl

theorem apply_stepKeys (db : Store) (op : StoreOp) (k : String × String)
    (hk : k ∈ stepKeys db) : k ∈ stepKeys (op.apply db) := by
  unfold stepKeys at *
  cases op with
  | createJob now id jobType payload maxAttempts key =>
    simpa [StoreOp.apply, CreateJob_steps] using hk
  | claimJobs workerID limit lease now =>
    simpa [StoreOp.apply, ClaimJobs_steps] using hk
  | markSuccess clock jobID ts =>
    simpa [StoreOp.apply, MarkSuccess_steps] using hk
  | markFailure clock jobID n next msg terminal comp =>
    simpa [StoreOp.apply, MarkFailure_steps] using hk
  | recordStepOnce jobID stepKey resultHash =>
    obtain ⟨added, h⟩ := RecordStepOnce_steps db jobID stepKey resultHash
    simp only [StoreOp.apply, h, List.map_append, List.mem_append]
    exact Or.inl hk

theorem recordsStep_false_of_mem (db : Store) (jobID stepKey : String) (op : StoreOp)
    (hk : (jobID, stepKey) ∈ stepKeys db) : op.recordsStep db jobID stepKey = false := by
  cases op with
  | recordStepOnce id key resultHash =>
    simp only [StoreOp.recordsStep]
    by_cases e1 : id = jobID
    · by_cases e2 : key = stepKey
      · subst e1 e2
        by_cases h1 : id = ""
        · simp [RecordStepOnce, h1]
        by_cases h2 : key = ""
        · simp [RecordStepOnce, h1, h2]
        rw [RecordStepOnce_dup db id key resultHash h1 h2 hk]
        simp
      · simp [e2]
    · simp [e1]
  | _ => rfl

theorem mem_of_recordsStep (db : Store) (jobID stepKey : String) (op : StoreOp)
    (h : op.recordsStep db jobID stepKey = true) :
    (jobID, stepKey) ∈ stepKeys (op.apply db) := by
  cases op with
  | recordStepOnce id key resultHash =>
    simp only [StoreOp.recordsStep, Bool.and_eq_true, decide_eq_true_eq] at h
    obtain ⟨⟨e1, e2⟩, hok⟩ := h
    subst e1 e2
    have h1 : id ≠ "" := by
      intro h1
      simp [RecordStepOnce, h1] at hok
    have h2 : key ≠ "" := by
      intro h2
      simp [RecordStepOnce, h1, h2] at hok
    by_cases hk : (id, key) ∈ stepKeys db
    · rw [RecordStepOnce_dup db id key resultHash h1 h2 hk] at hok
      simp at hok
    · simp [StoreOp.apply, RecordStepOnce_fresh db id key resultHash h1 h2 hk, stepKeys]
  | createJob _ _ _ _ _ _ => simp [StoreOp.recordsStep] at h
  | claimJobs _ _ _ _ => simp [StoreOp.recordsStep] at h
  | markSuccess _ _ _ => simp [StoreOp.recordsStep] at h
  | markFailure _ _ _ _ _ _ _ => simp [StoreOp.recordsStep] at h

theorem stepTrueCount_of_mem (db : Store) (jobID stepKey : String) (ops : List StoreOp)
    (hk : (jobID, stepKey) ∈ stepKeys db) : stepTrueCount jobID stepKey db ops = 0 := by
  induction ops generalizing db with
  | nil => rfl
  | cons op ops ih =>
    simp [stepTrueCount, recordsStep_false_of_mem db jobID stepKey op hk,
      ih _ (apply_stepKeys db op _ hk)]

theorem stepTrueCount_le_one (db : Store) (jobID stepKey : String) (ops : List StoreOp) :
    stepTrueCount jobID stepKey db ops ≤ 1 := by
  induction ops generalizing db with
  | nil => simp [stepTrueCount]
  | cons op ops ih =>
    by_cases hok : op.recordsStep db jobID stepKey = true
    · have := stepTrueCount_of_mem _ jobID stepKey ops (mem_of_recordsStep db jobID stepKey op hok)
      simp [stepTrueCount, hok, this]
    · have := ih (op.apply db)
      simpa [stepTrueCount, hok] using this

/-! ## C11: `RecordStepOnce` -/

/-- C11: for non-empty `jobID` and `stepKey`, `RecordStepOnce` returns `true` if and only if no
marker with the key `(jobID, stepKey)` existed before the call (and `false` if and only if one
did); the step table afterwards is the old table, unchanged, followed by the new marker when
the call returned `true`, and the job table is untouched.  Hence a second call with the same
fresh key returns `false` after the first returned `true`, and along any sequence of store
calls `true` is returned at most once for the key. -/
theorem RecordStepOnce_contract (db : Store) (jobID stepKey : String)
    (resultHash resultHash' : Option String) (ops : List StoreOp)
    (h1 : jobID ≠ "") (h2 : stepKey ≠ "") :
    ((RecordStepOnce db jobID stepKey resultHash).1 = .ok true ↔
        (jobID, stepKey) ∉ stepKeys db) ∧
    ((RecordStepOnce db jobID stepKey resultHash).1 = .ok false ↔
        (jobID, stepKey) ∈ stepKeys db) ∧
    (RecordStepOnce db jobID stepKey resultHash).2.job_executions =
      db.job_executions ++
        (if (jobID, stepKey) ∈ stepKeys db then []
          else [{ job_id := jobID, step_key := stepKey, result_hash := resultHash }]) ∧
    (RecordStepOnce db jobID stepKey resultHash).2.jobs = db.jobs ∧
    ((jobID, stepKey) ∉ stepKeys db →
      (RecordStepOnce db jobID stepKey resultHash).1 = .ok true ∧
      (RecordStepOnce (RecordStepOnce db jobID stepKey resultHash).2
          jobID stepKey resultHash').1 = .ok false) ∧
    stepTrueCount jobID stepKey db ops ≤ 1 := by
  by_cases hk : (jobID, stepKey) ∈ stepKeys db
  · have hd := RecordStepOnce_dup db jobID stepKey resultHash h1 h2 hk
    refine ⟨?_, ?_, ?_, RecordStepOnce_jobs db jobID stepKey resultHash, ?_,
      stepTrueCount_le_one db jobID stepKey ops⟩
    · rw [hd]
      simp [hk]
    · rw [hd]
      simp [hk]
    · rw [hd]
      simp [hk]
    · intro hn
      exact absurd hk hn
  · have hf := RecordStepOnce_fresh db jobID stepKey resultHash h1 h2 hk
    refine ⟨?_, ?_, ?_, RecordStepOnce_jobs db jobID stepKey resultHash, ?_,
      stepTrueCount_le_one db jobID stepKey ops⟩
    · rw [hf]
      simp [hk]
    · rw [hf]
      simp [hk]
    · rw [hf]
      simp [hk]
    · intro _
      refine ⟨by rw [hf], ?_⟩
      rw [hf, RecordStepOnce_dup _ jobID stepKey resultHash' h1 h2 (by simp [stepKeys])]

/-- Instance of C11: the success marker of job `j1` on the store `claimedByA`. -/
theorem RecordStepOnce_contract_witness :
    ("j1" ≠ "" ∧ "execute_success" ≠ "") ∧
    (((RecordStepOnce claimedByA "j1" "execute_success" none).1 = .ok true ↔
        ("j1", "execute_success") ∉ stepKeys claimedByA) ∧
    ((RecordStepOnce claimedByA "j1" "execute_success" none).1 = .ok false ↔
        ("j1", "execute_success") ∈ stepKeys claimedByA) ∧
    (RecordStepOnce claimedByA "j1" "execute_success" none).2.job_executions =
      claimedByA.job_executions ++
        (if ("j1", "execute_success") ∈ stepKeys claimedByA then []
          else [{ job_id := "j1", step_key := "execute_success", result_hash := none }]) ∧
    (RecordStepOnce claimedByA "j1" "execute_success" none).2.jobs = claimedByA.jobs ∧
    (("j1", "execute_success") ∉ stepKeys claimedByA →
      (RecordStepOnce claimedByA "j1" "execute_success" none).1 = .ok true ∧
      (RecordStepOnce (RecordStepOnce claimedByA "j1" "execute_success" none).2
          "j1" "execute_success" (some "h")).1 = .ok false) ∧
    stepTrueCount "j1" "execute_success" claimedByA
        [.recordStepOnce "j1" "execute_success" none, .markSuccess 5 "j1" 5,
          .recordStepOnce "j1" "execute_success" none] ≤ 1) :=
  ⟨⟨by decide, by decide⟩,
    RecordStepOnce_contract claimedByA "j1" "execute_success" none (some "h")
      [.recordStepOnce "j1" "execute_success" none, .markSuccess 5 "j1" 5,
        .recordStepOnce "j1" "execute_success" none] (by decide) (by decide)⟩

/-! ## Lemmas about the queue-full release -/

theorem releaseQueueFull_running (db : Store) (t : Time) (J : Job) (hpk : PrimaryKey db)
    (hJ : J ∈ db.jobs) (hrun : J.Status = .RUNNING) (hid : J.ID ≠ "") :
    releaseQueueFull db t J =
      (.ok (), { db with jobs := db.jobs.map (fun x => if x = J then released t J else x) }) := by
  unfold releaseQueueFull
  rw [MarkFailure_of_running db t J.ID J.Attempts _ _ false none hid ⟨J, hJ, rfl, hrun⟩]
  congr 2
  apply List.map_congr_left
  intro x hx
  by_cases hxJ : x = J
  · subst hxJ
    simp [hrun, released, failedWith]
  · have : ¬ (x.ID = J.ID ∧ x.Status = .RUNNING) := fun h => hxJ (eq_of_ID_eq hpk hx hJ h.1)
    simp [hxJ, this]

theorem released_ID (t : Time) (j : Job) : (released t j).ID = j.ID := rfl

theorem release_fold (submit : Job → Bool) (clock : Job → Time) (l : List Job) :
    ∀ (d : Store), PrimaryKey d → (l.map (fun j => j.ID)).Nodup →
      (∀ r ∈ l, r ∈ d.jobs ∧ r.Status = .RUNNING ∧ r.ID ≠ "") →
      l.foldl (fun d j => if submit j then d else (releaseQueueFull d (clock j) j).2) d =
        { d with jobs := d.jobs.map (fun x =>
            if x ∈ l ∧ submit x = false then released (clock x) x else x) } := by
  induction l with
  | nil =>
    intro d _ _ _
    cases d
    simp
  | cons a l ih =>
    intro d hpk hnd hl
    simp only [List.map_cons, List.nodup_cons] at hnd
    obtain ⟨ha, har, haid⟩ := hl a (List.mem_cons_self _ _)
    have hne : ∀ r ∈ l, r ≠ a := by
      rintro r hr rfl
      exact hnd.1 (List.mem_map_of_mem (fun j => j.ID) hr)
    rw [List.foldl_cons]
    by_cases hs : submit a = true
    · simp only [hs, if_true]
      rw [ih d hpk hnd.2 (fun r hr => hl r (List.mem_cons_of_mem _ hr))]
      congr 1
      apply List.map_congr_left
      intro x _
      by_cases hxa : x = a
      · subst hxa
        simp [hs]
      · simp [hxa]
    · have hs' : submit a = false := by simpa using hs
      rw [releaseQueueFull_running d (clock a) a hpk ha har haid]
      simp only [hs', Bool.false_eq_true, if_false]
      have hpk1 : PrimaryKey
          { d with jobs := d.jobs.map (fun x => if x = a then released (clock a) a else x) } := by
        unfold PrimaryKey at *
        have : (d.jobs.map (fun x => if x = a then released (clock a) a else x)).map
            (fun j => j.ID) = d.jobs.map (fun j => j.ID) := by
          rw [List.map_map]
          apply List.map_congr_left
          intro x _
          by_cases hxa : x = a <;> simp [hxa, released_ID]
        simpa [this] using hpk
      rw [ih _ hpk1 hnd.2 (by
        intro r hr
        obtain ⟨h1, h2, h3⟩ := hl r (List.mem_cons_of_mem _ hr)
        refine ⟨?_, h2, h3⟩
        exact List.mem_map.mpr ⟨r, h1, by simp [hne r hr]⟩)]
      simp only [List.map_map]
      congr 1
      apply List.map_congr_left
      intro x _
      by_cases hxa : x = a
      · subst hxa
        have hnot : released (clock x) x ∉ l := by
          intro hin
          exact hnd.1 (by
            have := List.mem_map_of_mem (fun j => j.ID) hin
            simpa [released_ID] using this)
        simp [hnot, hs']
      · simp [hxa]

theorem pollTick_eq (db : Store) (workerID : String) (lease : Duration) (now : Time)
    (submit : Job → Bool) (clock : Job → Time) (hpk : PrimaryKey db)
    (hids : ∀ r ∈ db.jobs, r.ID ≠ "") (hw : workerID ≠ "") :
    pollTick db workerID lease now submit clock =
      { (ClaimJobs db workerID 10 lease now).2 with
        jobs := (ClaimJobs db workerID 10 lease now).2.jobs.map (fun x =>
          if x ∈ claimedJobs (ClaimJobs db workerID 10 lease now).1 ∧ submit x = false
          then released (clock x) x else x) } := by
  obtain ⟨hc, hj⟩ := ClaimJobs_claimed db workerID 10 lease now hpk hw
  have hpk1 := ClaimJobs_primaryKey db workerID 10 lease now hpk
  have heq := ClaimJobs_eq db workerID 10 lease now hpk hw
  simp only [show ¬ ((10 : Int) ≤ 0) by decide, if_false] at hc hj heq
  unfold pollTick
  rw [hc]
  have h2 : (ClaimJobs db workerID 10 lease now).2 =
      { db with jobs := db.jobs.map (fun j =>
          if j ∈ selectEligible db.jobs now 10 then leased workerID (now + lease) now j
          else j) } := by rw [heq]
  rw [h2] at hpk1 ⊢
  rw [heq]
  simp only
  apply release_fold submit clock _ _ hpk1
  · rw [List.map_map]
    exact selectEligible_nodup_ID db.jobs now 10 hpk
  · intro r hr
    obtain ⟨j0, hj0, rfl⟩ := List.mem_map.mp hr
    have hj0' := (selectEligible_sublist db.jobs now 10 j0 hj0).1
    refine ⟨List.mem_map.mpr ⟨j0, hj0', by simp [hj0]⟩, rfl, ?_⟩
    exact hids j0 hj0'

/-! ## The failure path of the runner -/

theorem Process_failed (r : Runner) (db : Store) (now : Time) (wj : WorkerJob)
    (hid : wj.ID ≠ "") (hex : ∃ x ∈ db.jobs, x.ID = wj.ID ∧ x.Status = .RUNNING) :
    r.Process db true now wj =
      { db with jobs := db.jobs.map (fun x =>
          if x.ID = wj.ID ∧ x.Status = .RUNNING then
            failedWith
              (if wrapInt (wj.Attempts + 1) ≥ wj.MaxAttempts then JobStatus.FAILED
                else JobStatus.PENDING)
              (wrapInt (wj.Attempts + 1))
              (if wrapInt (wj.Attempts + 1) ≥ wj.MaxAttempts then none
                else some (now + r.Backoff (wrapInt (wj.Attempts + 1))))
              (if wrapInt (wj.Attempts + 1) ≥ wj.MaxAttempts then some now else none)
              "simulated failure" x
          else x) } := by
  simp only [Runner.Process, Bool.not_true]
  by_cases ht : wrapInt (wj.Attempts + 1) ≥ wj.MaxAttempts
  · simp only [ht, decide_True, if_true]
    rw [MarkFailure_of_running db now wj.ID _ none "simulated failure" true (some now) hid hex]
    simp
  · simp only [ht, decide_False, if_false]
    rw [MarkFailure_of_running db now wj.ID _ _ "simulated failure" false none hid hex]
    simp

/-! ## Settlements as updates in place -/

theorem map_if_running (jobID : String) (f : Job → Job) (hf : ∀ x, (f x).ID = x.ID) :
    (∀ x, (if runningWithID jobID x then f x else x).ID = x.ID) ∧
    (∀ x, x.ID ≠ jobID → (if runningWithID jobID x then f x else x) = x) := by
  constructor
  · intro x
    by_cases h : runningWithID jobID x = true
    · simp only [h, if_true]
      exact hf x
    · simp only [h]
      rfl
  · intro x hx
    have : runningWithID jobID x = false := by simp [runningWithID, hx]
    simp [this]

/-- Whatever the outcome, `Process` rewrites rows in place: ids stay, and a row of another id
stays as it is. -/
theorem Process_rows (r : Runner) (db : Store) (failed : Bool) (now : Time) (wj : WorkerJob) :
    ∃ g : Job → Job, (r.Process db failed now wj).jobs = db.jobs.map g ∧
      (∀ x, (g x).ID = x.ID) ∧ (∀ x, x.ID ≠ wj.ID → g x = x) := by
  rcases Process_jobs r db failed now wj with e | ⟨c, e⟩ | ⟨nx, cp, m, e⟩
  · exact ⟨id, by simpa using e, fun _ => rfl, fun _ _ => rfl⟩
  · exact ⟨_, e, map_if_running wj.ID _ (fun _ => rfl)⟩
  · exact ⟨_, e, map_if_running wj.ID _ (fun _ => rfl)⟩

theorem release_rows (db : Store) (now : Time) (h : Job) :
    ∃ g : Job → Job, (releaseQueueFull db now h).2.jobs = db.jobs.map g ∧
      (∀ x, (g x).ID = x.ID) ∧ (∀ x, x.ID ≠ h.ID → g x = x) := by
  rcases releaseQueueFull_jobs db now h with e | ⟨nx, cp, m, e⟩
  · exact ⟨id, by simpa using e, fun _ => rfl, fun _ _ => rfl⟩
  · exact ⟨_, e, map_if_running h.ID _ (fun _ => rfl)⟩

theorem settle_rows (rd : Round) (db : Store) (j : Job) :
    ∃ g : Job → Job, (rd.settle db j).jobs = db.jobs.map g ∧
      (∀ x, (g x).ID = x.ID) ∧ (∀ x, x.ID ≠ j.ID → g x = x) := by
  unfold Round.settle
  split
  · exact Process_rows rd.runner db (rd.failed j) (rd.clock j) j.toWorkerJob
  · exact release_rows db (rd.clock j) j

theorem settle_primaryKey (rd : Round) (db : Store) (j : Job)
    (hpk : PrimaryKey db) : PrimaryKey (rd.settle db j) := by
  obtain ⟨g, hg, hid, _⟩ := settle_rows rd db j
  unfold PrimaryKey at *
  rw [hg, List.map_map]
  have : (fun j => j.ID) ∘ g = fun j => j.ID := by
    funext x
    exact hid x
  rw [this]
  exact hpk

theorem settle_keeps (rd : Round) (db : Store) (j : Job) (y : Job)
    (hy : y ∈ db.jobs) (hne : y.ID ≠ j.ID) : y ∈ (rd.settle db j).jobs := by
  obtain ⟨g, hg, _, hother⟩ := settle_rows rd db j
  rw [hg]
  exact List.mem_map.mpr ⟨y, hy, hother y hne⟩

/-- Settling a list of claimed rows keeps the primary key and every row whose id is not in the
list. -/
theorem settle_fold_keeps (rd : Round) (l : List Job) :
    ∀ (d : Store), PrimaryKey d →
      PrimaryKey (l.foldl rd.settle d) ∧
      ∀ y ∈ d.jobs, (∀ a ∈ l, a.ID ≠ y.ID) → y ∈ (l.foldl rd.settle d).jobs := by
  induction l with
  | nil =>
    intro d hpk
    exact ⟨hpk, fun y hy _ => hy⟩
  | cons a l ih =>
    intro d hpk
    rw [List.foldl_cons]
    obtain ⟨h1, h2⟩ := ih _ (settle_primaryKey rd d a hpk)
    refine ⟨h1, ?_⟩
    intro y hy hne
    apply h2 y
    · exact settle_keeps rd d a y hy (fun e => hne a (List.mem_cons_self _ _) e.symm)
    · intro b hb
      exact hne b (List.mem_cons_of_mem _ hb)

/-- The row that the settlement of the claimed row `J` writes is there after the whole list is
settled. -/
theorem settle_fold_at (rd : Round) (l : List Job) :
    ∀ (d : Store), PrimaryKey d → (l.map (fun j => j.ID)).Nodup → (∀ a ∈ l, a ∈ d.jobs) →
      ∀ J ∈ l, ∀ Y : Job, Y.ID = J.ID →
        (∀ d' : Store, PrimaryKey d' → J ∈ d'.jobs → Y ∈ (rd.settle d' J).jobs) →
        Y ∈ (l.foldl rd.settle d).jobs := by
  induction l with
  | nil =>
    intro d _ _ _ J hJ
    simp at hJ
  | cons a l ih =>
    intro d hpk hnd hl J hJ Y hY hset
    simp only [List.map_cons, List.nodup_cons] at hnd
    rw [List.foldl_cons]
    have hpk1 := settle_primaryKey rd d a hpk
    rcases List.mem_cons.mp hJ with rfl | hJl
    · apply (settle_fold_keeps rd l _ hpk1).2
      · exact hset d hpk (hl J (List.mem_cons_self _ _))
      · intro b hb e
        apply hnd.1
        rw [← hY, ← e]
        exact List.mem_map_of_mem (fun j => j.ID) hb
    · apply ih _ hpk1 hnd.2 _ J hJl Y hY hset
      intro b hb
      refine settle_keeps rd d a b (hl b (List.mem_cons_of_mem _ hb)) ?_
      intro e
      exact hnd.1 (e ▸ List.mem_map_of_mem (fun j => j.ID) hb)

theorem settle_fails (rd : Round) (d : Store) (J : Job) (hJ : J ∈ d.jobs)
    (hrun : J.Status = .RUNNING) (hid : J.ID ≠ "") (hs : rd.submit J = true)
    (hf : rd.failed J = true) :
    failedWith
        (if wrapInt (J.Attempts + 1) ≥ J.MaxAttempts then JobStatus.FAILED
          else JobStatus.PENDING)
        (wrapInt (J.Attempts + 1))
        (if wrapInt (J.Attempts + 1) ≥ J.MaxAttempts then none
          else some (rd.clock J + rd.runner.Backoff (wrapInt (J.Attempts + 1))))
        (if wrapInt (J.Attempts + 1) ≥ J.MaxAttempts then some (rd.clock J) else none)
        "simulated failure" J
      ∈ (rd.settle d J).jobs := by
  unfold Round.settle
  rw [if_pos hs, hf, Process_failed rd.runner d (rd.clock J) J.toWorkerJob hid ⟨J, hJ, rfl, hrun⟩]
  refine List.mem_map.mpr ⟨J, hJ, ?_⟩
  simp [Job.toWorkerJob, hrun]

theorem settle_releases (rd : Round) (d : Store) (J : Job) (hpk : PrimaryKey d)
    (hJ : J ∈ d.jobs) (hrun : J.Status = .RUNNING) (hid : J.ID ≠ "")
    (hs : rd.submit J = false) :
    released (rd.clock J) J ∈ (rd.settle d J).jobs := by
  unfold Round.settle
  rw [hs, releaseQueueFull_running d (rd.clock J) J hpk hJ hrun hid]
  simp only [Bool.false_eq_true, if_false]
  exact List.mem_map.mpr ⟨J, hJ, by simp⟩

/-! ## One round -/

theorem leased_Attempts (w : String) (lu now : Time) (j : Job) :
    (leased w lu now j).Attempts = j.Attempts := rfl

theorem leased_MaxAttempts (w : String) (lu now : Time) (j : Job) :
    (leased w lu now j).MaxAttempts = j.MaxAttempts := rfl

theorem round_primaryKey (rd : Round) (db : Store) (hpk : PrimaryKey db) :
    PrimaryKey (rd.run db) := by
  have hpk1 := ClaimJobs_primaryKey db rd.workerID rd.limit rd.lease rd.claimedAt hpk
  unfold Round.run
  split
  · rename_i claimed db' heq
    rw [heq] at hpk1
    exact (settle_fold_keeps rd claimed db' hpk1).1
  · rename_i e db' heq
    rw [heq] at hpk1
    exact hpk1

/-- A round that does not claim the job leaves its row as it is. -/
theorem round_unclaimed (rd : Round) (db : Store) (x : Job)
    (hpk : PrimaryKey db) (hx : x ∈ db.jobs)
    (hnc : ∀ j ∈ claimedJobs (ClaimJobs db rd.workerID rd.limit rd.lease rd.claimedAt).1,
      j.ID ≠ x.ID) :
    x ∈ (rd.run db).jobs := by
  by_cases hw : rd.workerID = ""
  · simp [Round.run, ClaimJobs, hw, hx]
  · have heq := ClaimJobs_eq db rd.workerID rd.limit rd.lease rd.claimedAt hpk hw
    have hpk1 := ClaimJobs_primaryKey db rd.workerID rd.limit rd.lease rd.claimedAt hpk
    generalize (if rd.limit ≤ 0 then (10 : Int) else rd.limit) = lim at heq
    rw [heq] at hnc hpk1
    simp only [claimedJobs] at hnc
    have hrun : rd.run db =
        ((selectEligible db.jobs rd.claimedAt lim).map
            (leased rd.workerID (rd.claimedAt + rd.lease) rd.claimedAt)).foldl rd.settle
          { db with jobs := db.jobs.map (fun j =>
              if j ∈ selectEligible db.jobs rd.claimedAt lim
              then leased rd.workerID (rd.claimedAt + rd.lease) rd.claimedAt j else j) } := by
      unfold Round.run
      rw [heq]
    rw [hrun]
    have hxs : x ∉ selectEligible db.jobs rd.claimedAt lim := by
      intro h
      exact hnc _ (List.mem_map_of_mem _ h) (leased_ID _ _ _ _)
    apply (settle_fold_keeps rd _ _ hpk1).2 x
    · exact List.mem_map.mpr ⟨x, hx, by simp [hxs]⟩
    · intro a ha
      exact hnc a ha

/-- A round that claims the job found its row eligible and leased it; the leased row is the
only claimed row of that id, and what its settlement writes is there after the round. -/
theorem round_claimed (rd : Round) (db : Store) (x : Job)
    (hpk : PrimaryKey db) (hx : x ∈ db.jobs)
    (hc : ∃ j ∈ claimedJobs (ClaimJobs db rd.workerID rd.limit rd.lease rd.claimedAt).1,
      j.ID = x.ID) :
    eligible rd.claimedAt x = true ∧
    leased rd.workerID (rd.claimedAt + rd.lease) rd.claimedAt x
      ∈ claimedJobs (ClaimJobs db rd.workerID rd.limit rd.lease rd.claimedAt).1 ∧
    (∀ j ∈ claimedJobs (ClaimJobs db rd.workerID rd.limit rd.lease rd.claimedAt).1,
      j.ID = x.ID → j = leased rd.workerID (rd.claimedAt + rd.lease) rd.claimedAt x) ∧
    ∀ Y : Job, Y.ID = x.ID →
      (∀ d' : Store, PrimaryKey d' →
        leased rd.workerID (rd.claimedAt + rd.lease) rd.claimedAt x ∈ d'.jobs →
        Y ∈ (rd.settle d' (leased rd.workerID (rd.claimedAt + rd.lease) rd.claimedAt x)).jobs) →
      Y ∈ (rd.run db).jobs := by
  have hw : rd.workerID ≠ "" := by
    intro e
    obtain ⟨j, hj, _⟩ := hc
    simp [ClaimJobs, e, claimedJobs] at hj
  have heq := ClaimJobs_eq db rd.workerID rd.limit rd.lease rd.claimedAt hpk hw
  have hpk1 := ClaimJobs_primaryKey db rd.workerID rd.limit rd.lease rd.claimedAt hpk
  generalize (if rd.limit ≤ 0 then (10 : Int) else rd.limit) = lim at heq
  have hrun : rd.run db =
      ((selectEligible db.jobs rd.claimedAt lim).map
          (leased rd.workerID (rd.claimedAt + rd.lease) rd.claimedAt)).foldl rd.settle
        { db with jobs := db.jobs.map (fun j =>
            if j ∈ selectEligible db.jobs rd.claimedAt lim
            then leased rd.workerID (rd.claimedAt + rd.lease) rd.claimedAt j else j) } := by
    unfold Round.run
    rw [heq]
  rw [heq] at hc hpk1 ⊢
  simp only [claimedJobs, List.mem_map] at hc ⊢
  have hsel : ∀ x0 ∈ selectEligible db.jobs rd.claimedAt lim, x0.ID = x.ID → x0 = x := by
    intro x0 hx0 e
    exact eq_of_ID_eq hpk (selectEligible_sublist db.jobs rd.claimedAt lim x0 hx0).1 hx e
  obtain ⟨J, ⟨x0, hx0, rfl⟩, hJid⟩ := hc
  have hxx : x0 = x := hsel x0 hx0 hJid
  subst hxx
  refine ⟨(selectEligible_sublist db.jobs rd.claimedAt lim x0 hx0).2, ⟨x0, hx0, rfl⟩, ?_, ?_⟩
  · rintro j ⟨x1, hx1, rfl⟩ e
    rw [hsel x1 hx1 e]
  · intro Y hY hset
    rw [hrun]
    apply settle_fold_at rd _ _ hpk1
      (by
        rw [List.map_map]
        exact selectEligible_nodup_ID db.jobs rd.claimedAt lim hpk)
      (by
        intro a ha
        obtain ⟨a0, ha0, rfl⟩ := List.mem_map.mp ha
        have ha0' := (selectEligible_sublist db.jobs rd.claimedAt lim a0 ha0).1
        exact List.mem_map.mpr ⟨a0, ha0', by simp [ha0]⟩)
      (leased rd.workerID (rd.claimedAt + rd.lease) rd.claimedAt x0)
      (List.mem_map_of_mem _ hx0) Y hY hset


/-! ## Sequences of rounds -/

theorem runRounds_cons (db : Store) (rd : Round) (rest : List Round) :
    runRounds db (rd :: rest) = runRounds (rd.run db) rest := rfl

theorem alwaysFails_cons (id : String) (db : Store) (rd : Round)
    (rest : List Round) :
    alwaysFails id db (rd :: rest) = true ↔
      rd.failsOn db id = true ∧ alwaysFails id (rd.run db) rest = true := by
  simp [alwaysFails]

theorem processCount_cons (id : String) (db : Store) (rd : Round)
    (rest : List Round) :
    processCount id db (rd :: rest) =
      (if rd.processes db id then 1 else 0) + processCount id (rd.run db) rest := rfl

theorem processes_of_unclaimed (rd : Round) (db : Store) (id : String)
    (hnc : ∀ j ∈ claimedJobs (ClaimJobs db rd.workerID rd.limit rd.lease rd.claimedAt).1,
      j.ID ≠ id) :
    rd.processes db id = false := by
  unfold Round.processes
  rw [List.any_eq_false]
  intro j hj
  simp [hnc j hj]

/-- A row that is not `PENDING` or `RUNNING` is claimed by no round: it stays, and no round
is a claim-and-process round of its job. -/
theorem runRounds_settled (rounds : List Round) :
    ∀ (db : Store) (x : Job), PrimaryKey db → x ∈ db.jobs →
      (∀ t, eligible t x = false) →
      processCount x.ID db rounds = 0 ∧ PrimaryKey (runRounds db rounds) ∧
        x ∈ (runRounds db rounds).jobs := by
  induction rounds with
  | nil =>
    intro db x hpk hx _
    exact ⟨rfl, hpk, hx⟩
  | cons rd rest ih =>
    intro db x hpk hx hne
    have hnc : ∀ j ∈ claimedJobs (ClaimJobs db rd.workerID rd.limit rd.lease rd.claimedAt).1,
        j.ID ≠ x.ID := by
      intro j hj e
      have := (round_claimed rd db x hpk hx ⟨j, hj, e⟩).1
      rw [hne] at this
      cases this
    obtain ⟨h1, h2, h3⟩ := ih _ x (round_primaryKey rd db hpk)
      (round_unclaimed rd db x hpk hx hnc) hne
    rw [processCount_cons, processes_of_unclaimed rd db x.ID hnc, runRounds_cons]
    exact ⟨by simpa using h1, h2, h3⟩

/-- A pending job with `max_attempts = m` whose work always fails: its attempts grow by the
number of claim-and-process rounds, which cannot take them beyond `m`; below `m` the job is
`PENDING`, at `m` it is `FAILED`. -/
theorem runRounds_count (id : String) (m : Int) (hid : id ≠ "")
    (hmax : m ≤ MaxInt) (rounds : List Round) :
    ∀ (db : Store) (x : Job), PrimaryKey db → x ∈ db.jobs → x.ID = id →
      x.MaxAttempts = m → x.Status = .PENDING → x.CompletedAt = none → 0 ≤ x.Attempts →
      x.Attempts < m → alwaysFails id db rounds = true →
      x.Attempts + processCount id db rounds ≤ m ∧ PrimaryKey (runRounds db rounds) ∧
      ∃ x' ∈ (runRounds db rounds).jobs, x'.ID = id ∧ x'.MaxAttempts = m ∧
        x'.Attempts = x.Attempts + processCount id db rounds ∧
        (x.Attempts + processCount id db rounds < m →
          x'.Status = .PENDING ∧ x'.CompletedAt = none) ∧
        (x.Attempts + processCount id db rounds = m →
          x'.Status = .FAILED ∧ x'.NextRunAt = none ∧ x'.CompletedAt ≠ none ∧
          x'.ErrorMessage = some "simulated failure" ∧ x'.LockedBy = none ∧
          x'.LockedUntil = none) := by
  induction rounds with
  | nil =>
    intro db x hpk hx hxid hxm hst hc h0 hlt _
    refine ⟨by simp [processCount]; omega, hpk, x, hx, hxid, hxm, by simp [processCount],
      fun _ => ⟨hst, hc⟩, ?_⟩
    intro h
    simp [processCount] at h
    omega
  | cons rd rest ih =>
    intro db x hpk hx hxid hxm hst hcn h0 hlt hf
    obtain ⟨hf1, hf2⟩ := (alwaysFails_cons id db rd rest).mp hf
    have hpk1 := round_primaryKey rd db hpk
    rw [runRounds_cons, processCount_cons]
    by_cases hc : ∃ j ∈ claimedJobs
        (ClaimJobs db rd.workerID rd.limit rd.lease rd.claimedAt).1, j.ID = x.ID
    · obtain ⟨_, hJ, huniq, hrow⟩ := round_claimed rd db x hpk hx hc
      have hJid : (leased rd.workerID (rd.claimedAt + rd.lease) rd.claimedAt x).ID ≠ "" := by
        rw [leased_ID, hxid]
        exact hid
      by_cases hs : rd.submit (leased rd.workerID (rd.claimedAt + rd.lease) rd.claimedAt x)
          = true
      · have hproc : rd.processes db id = true := by
          unfold Round.processes
          rw [List.any_eq_true]
          exact ⟨_, hJ, by simp [leased_ID, hxid, hs]⟩
        have hfl : rd.failed (leased rd.workerID (rd.claimedAt + rd.lease) rd.claimedAt x)
            = true := by
          unfold Round.failsOn at hf1
          rw [List.all_eq_true] at hf1
          have := hf1 _ hJ
          simpa [leased_ID, hxid, hs] using this
        have hw : wrapInt (x.Attempts + 1) = x.Attempts + 1 := by
          apply wrapInt_of_range
          · unfold MinInt; omega
          · omega
        have hY : failedWith
            (if wrapInt (x.Attempts + 1) ≥ x.MaxAttempts then JobStatus.FAILED
              else JobStatus.PENDING)
            (wrapInt (x.Attempts + 1))
            (if wrapInt (x.Attempts + 1) ≥ x.MaxAttempts then none
              else some (rd.clock (leased rd.workerID (rd.claimedAt + rd.lease) rd.claimedAt x)
                + rd.runner.Backoff (wrapInt (x.Attempts + 1))))
            (if wrapInt (x.Attempts + 1) ≥ x.MaxAttempts
              then some (rd.clock (leased rd.workerID (rd.claimedAt + rd.lease) rd.claimedAt x))
              else none)
            "simulated failure" (leased rd.workerID (rd.claimedAt + rd.lease) rd.claimedAt x)
            ∈ (rd.run db).jobs :=
          hrow _ rfl (fun d' _ hJd => settle_fails rd d' _ hJd rfl hJid hs hfl)
        rw [hw] at hY
        simp only [hproc, if_true]
        by_cases ht : x.Attempts + 1 ≥ x.MaxAttempts
        · simp only [ht, if_true] at hY
          obtain ⟨g1, g2, g3⟩ := runRounds_settled rest _ _ hpk1 hY
            (by intro t; simp [eligible, failedWith])
          have g1' : processCount id (rd.run db) rest = 0 := by
            rw [← g1]
            simp [failedWith, leased_ID, hxid]
          rw [g1']
          refine ⟨by simp; omega, g2, _, g3, ?_, ?_, ?_, ?_, ?_⟩
          · simpa [failedWith, leased_ID] using hxid
          · simpa [failedWith, leased_MaxAttempts] using hxm
          · simp [failedWith]
          · intro h
            simp at h
            omega
          · intro _
            simp [failedWith]
        · simp only [ht, if_false] at hY
          obtain ⟨h1, h2, x', hx', e1, e2, e3, e4, e5⟩ := ih _ _ hpk1 hY
            (by simpa [failedWith, leased_ID] using hxid)
            (by simpa [failedWith, leased_MaxAttempts] using hxm)
            (by simp [failedWith]) (by simp [failedWith])
            (by simp only [failedWith]; omega)
            (by simp only [failedWith]; omega) hf2
          simp only [failedWith] at h1 e3 e4 e5
          refine ⟨by push_cast; omega, h2, x', hx', e1, e2, by rw [e3]; push_cast; ring, ?_, ?_⟩
          · intro h
            exact e4 (by push_cast at h; omega)
          · intro h
            exact e5 (by push_cast at h; omega)
      · have hs' : rd.submit (leased rd.workerID (rd.claimedAt + rd.lease) rd.claimedAt x)
            = false := by simpa using hs
        have hproc : rd.processes db id = false := by
          unfold Round.processes
          rw [List.any_eq_false]
          intro j hj
          by_cases e : j.ID = id
          · rw [huniq j hj (e.trans hxid.symm)]
            simp [hs']
          · simp [e]
        have hY := hrow (released
            (rd.clock (leased rd.workerID (rd.claimedAt + rd.lease) rd.claimedAt x))
            (leased rd.workerID (rd.claimedAt + rd.lease) rd.claimedAt x)) rfl
          (fun d' hpk' hJd => settle_releases rd d' _ hpk' hJd rfl hJid hs')
        obtain ⟨h1, h2, x', hx', e1, e2, e3, e4, e5⟩ := ih _ _ hpk1 hY
          (by simpa [released, leased_ID] using hxid)
          (by simpa [released, leased_MaxAttempts] using hxm)
          (by simp [released]) (by simp [released])
          (by simpa [released, leased_Attempts] using h0)
          (by simpa [released, leased_Attempts] using hlt) hf2
        simp only [released, leased_Attempts] at h1 e3 e4 e5
        simp only [hproc, Bool.false_eq_true, if_false, zero_add]
        exact ⟨h1, h2, x', hx', e1, e2, e3, e4, e5⟩
    · have hnc : ∀ j ∈ claimedJobs
          (ClaimJobs db rd.workerID rd.limit rd.lease rd.claimedAt).1, j.ID ≠ x.ID :=
        fun j hj e => hc ⟨j, hj, e⟩
      have hproc : rd.processes db id = false :=
        processes_of_unclaimed rd db id (fun j hj => hxid ▸ hnc j hj)
      obtain ⟨h1, h2, x', hx', e1, e2, e3, e4, e5⟩ := ih _ x hpk1
        (round_unclaimed rd db x hpk hx hnc) hxid hxm hst hcn h0 hlt hf2
      simp only [hproc, Bool.false_eq_true, if_false, zero_add]
      exact ⟨h1, h2, x', hx', e1, e2, e3, e4, e5⟩

theorem CreateJob_inserts (db : Store) (t0 : Time) (id jobType payload : String) (m : Int)
    (key : Option String) (hid : id ≠ "") (hty : jobType ≠ "") (hp : payload ≠ "")
    (hm : 1 ≤ m) (hnew : id ∉ db.jobs.map (fun j => j.ID))
    (hkey : ∀ k, key = some k → k ∉ db.jobs.filterMap (fun j => j.IdempotencyKey)) :
    (CreateJob db t0 id jobType payload m key).2 =
      { db with jobs := db.jobs ++
        [{ ID := id, JobType := jobType, Payload := payload, Status := .PENDING,
           Attempts := 0, MaxAttempts := m, NextRunAt := some t0,
           IdempotencyKey := key, StartedAt := none, CompletedAt := none,
           ErrorMessage := none, LockedBy := none, LockedUntil := none }] } := by
  have hm' : ¬ m ≤ 0 := by omega
  cases key with
  | none => simp [CreateJob, insertJob, hid, hty, hp, hm', hnew]
  | some k =>
    have hk := hkey k rfl
    simp [CreateJob, insertJob, hid, hty, hp, hm', hnew, hk]


/-! ## C8: the failure path of `Runner.Process` -/

/-- C8, as stated, fails: the job of `maxedByA` is claimed with `a = MaxInt` attempts and
`max_attempts = 3`, so `a + 1 >= 3`; yet when its work fails, `Process` does not settle it
terminally with `a + 1` attempts: the `int` sum wraps to `MinInt`, which is below 3, and the
job returns to `PENDING` with `MinInt` attempts. -/
theorem Process_attempts_wrap_counterexample :
    claimedJobs (ClaimJobs maxedStore "A" 1 10 5).1 = [maxedRow] ∧
      maxedByA.jobs = [maxedRow] ∧ maxedRow.Attempts + 1 ≥ maxedRow.MaxAttempts ∧
      (demoRunner.Process maxedByA true 6 maxedRow.toWorkerJob).jobs.map
          (fun j => (j.ID, j.Status, j.Attempts, j.NextRunAt, j.CompletedAt))
        = [("j1", .PENDING, MinInt, some 7, none)] ∧
      MinInt ≠ maxedRow.Attempts + 1 := by
  decide

/-- C8, amended: when the work fails for a claimed (`RUNNING`) job whose attempts `a` are an
`int` below `MaxInt`, `Runner.Process` settles it with `attempts = a + 1`; if `a + 1 >= m`,
its `max_attempts`, the row becomes `FAILED` with `next_run_at` null, `completed_at` the
settlement time and `error_message` `"simulated failure"`, otherwise it returns to `PENDING`
with `completed_at` null and `next_run_at` the settlement time plus `Backoff.Next(a + 1)`; the
lease is cleared and nothing else changes.  Consequently, take a job created in any store
with `max_attempts = m`, `1 <= m <= MaxInt`, and any sequence of rounds of any workers,
each with its own runner (whatever else they claim, execute or release), in which the work
of the job fails whenever it is executed.  Its attempts are the number `k` of claim-and-process rounds of the job so
far; `k` never exceeds `m`; the job is `PENDING` while `k < m`, and `FAILED` with `m`
attempts once `k = m`. -/
theorem Process_failure_settlement (r : Runner) (db : Store) (now : Time) (j : Job)
    (db0 : Store) (t0 : Time) (id jobType payload : String) (m : Int) (key : Option String)
    (rounds : List Round)
    (hj : j ∈ db.jobs) (hrun : j.Status = .RUNNING) (hjid : j.ID ≠ "")
    (hlo : MinInt ≤ j.Attempts) (hhi : j.Attempts < MaxInt)
    (hpk : PrimaryKey db0) (hnew : id ∉ db0.jobs.map (fun x => x.ID))
    (hkey : ∀ k, key = some k → k ∉ db0.jobs.filterMap (fun x => x.IdempotencyKey))
    (hid : id ≠ "") (hty : jobType ≠ "") (hp : payload ≠ "")
    (hm : 1 ≤ m) (hmax : m ≤ MaxInt)
    (hfail : alwaysFails id (CreateJob db0 t0 id jobType payload m key).2 rounds = true) :
    r.Process db true now j.toWorkerJob =
      { db with jobs := db.jobs.map (fun x =>
          if x.ID = j.ID ∧ x.Status = .RUNNING then
            if j.Attempts + 1 ≥ j.MaxAttempts then
              { x with
                Status := .FAILED
                Attempts := j.Attempts + 1
                NextRunAt := none
                CompletedAt := some now
                ErrorMessage := some "simulated failure"
                LockedBy := none
                LockedUntil := none }
            else
              { x with
                Status := .PENDING
                Attempts := j.Attempts + 1
                NextRunAt := some (now + r.Backoff (j.Attempts + 1))
                CompletedAt := none
                ErrorMessage := some "simulated failure"
                LockedBy := none
                LockedUntil := none }
          else x) } ∧
    (processCount id (CreateJob db0 t0 id jobType payload m key).2 rounds : Int) ≤ m ∧
    ∃ j', j' ∈ (runRounds (CreateJob db0 t0 id jobType payload m key).2 rounds).jobs ∧
      (∀ x ∈ (runRounds (CreateJob db0 t0 id jobType payload m key).2 rounds).jobs,
        x.ID = id → x = j') ∧
      j'.ID = id ∧ j'.MaxAttempts = m ∧
      j'.Attempts = processCount id (CreateJob db0 t0 id jobType payload m key).2 rounds ∧
      ((processCount id (CreateJob db0 t0 id jobType payload m key).2 rounds : Int) < m →
        j'.Status = .PENDING ∧ j'.CompletedAt = none) ∧
      ((processCount id (CreateJob db0 t0 id jobType payload m key).2 rounds : Int) = m →
        j'.Status = .FAILED ∧ j'.NextRunAt = none ∧ j'.CompletedAt ≠ none ∧
        j'.ErrorMessage = some "simulated failure") := by
  have hw : wrapInt (j.Attempts + 1) = j.Attempts + 1 := by
    apply wrapInt_of_range
    · unfold MinInt at hlo ⊢; omega
    · omega
  have hcreate := CreateJob_inserts db0 t0 id jobType payload m key hid hty hp hm hnew hkey
  have hpk1 : PrimaryKey (CreateJob db0 t0 id jobType payload m key).2 :=
    apply_primaryKey db0 hpk (.createJob t0 id jobType payload m key)
  obtain ⟨h1, h2, j', hj', e1, e2, e3, e4, e5⟩ :=
    runRounds_count id m hid hmax rounds (CreateJob db0 t0 id jobType payload m key).2
      { ID := id, JobType := jobType, Payload := payload, Status := .PENDING,
        Attempts := 0, MaxAttempts := m, NextRunAt := some t0,
        IdempotencyKey := key, StartedAt := none, CompletedAt := none,
        ErrorMessage := none, LockedBy := none, LockedUntil := none }
      hpk1 (by rw [hcreate]; simp) rfl rfl rfl rfl (le_refl _) (by show (0 : Int) < m; omega)
      hfail
  simp only [zero_add] at h1 e3 e4 e5
  refine ⟨?_, h1, j', hj', ?_, e1, e2, e3, e4, ?_⟩
  · rw [Process_failed r db now j.toWorkerJob hjid ⟨j, hj, rfl, hrun⟩]
    congr 1
    apply List.map_congr_left
    intro x _
    have hw' : wrapInt (j.toWorkerJob.Attempts + 1) = j.Attempts + 1 := hw
    rw [hw']
    by_cases hx : x.ID = j.ID ∧ x.Status = .RUNNING
    · by_cases ht : j.Attempts + 1 ≥ j.MaxAttempts <;>
        simp [hx, ht, Job.toWorkerJob, failedWith]
    · simp [hx, Job.toWorkerJob]
  · intro x hx hxid
    exact eq_of_ID_eq h2 hx hj' (hxid.trans e1.symm)
  · intro h
    obtain ⟨g1, g2, g3, g4, _⟩ := e5 h
    exact ⟨g1, g2, g3, g4⟩

/-- Instance of C8: the work of `A` fails on the job of `claimedByA`; and the job `j9`,
created with `max_attempts = 2` in a store that holds two other jobs, is executed and fails
in the first and the third of three rounds, and released in the second. -/
theorem Process_failure_settlement_witness :
    (claimedRow ∈ claimedByA.jobs ∧ claimedRow.Status = .RUNNING ∧ claimedRow.ID ≠ "" ∧
      MinInt ≤ claimedRow.Attempts ∧ claimedRow.Attempts < MaxInt ∧
      PrimaryKey demoStore ∧ "j9" ∉ demoStore.jobs.map (fun x => x.ID) ∧
      (∀ k, (none : Option String) = some k →
        k ∉ demoStore.jobs.filterMap (fun x => x.IdempotencyKey)) ∧
      "j9" ≠ "" ∧ "email" ≠ "" ∧ "p" ≠ "" ∧ (1 : Int) ≤ 2 ∧ (2 : Int) ≤ MaxInt ∧
      alwaysFails "j9" (CreateJob demoStore 0 "j9" "email" "p" 2 none).2
        demoRounds = true ∧
      processCount "j9" (CreateJob demoStore 0 "j9" "email" "p" 2 none).2
        demoRounds = 2) ∧
    (demoRunner.Process claimedByA true 5 claimedRow.toWorkerJob =
      { claimedByA with jobs := claimedByA.jobs.map (fun x =>
          if x.ID = claimedRow.ID ∧ x.Status = .RUNNING then
            if claimedRow.Attempts + 1 ≥ claimedRow.MaxAttempts then
              { x with
                Status := .FAILED
                Attempts := claimedRow.Attempts + 1
                NextRunAt := none
                CompletedAt := some 5
                ErrorMessage := some "simulated failure"
                LockedBy := none
                LockedUntil := none }
            else
              { x with
                Status := .PENDING
                Attempts := claimedRow.Attempts + 1
                NextRunAt := some (5 + demoRunner.Backoff (claimedRow.Attempts + 1))
                CompletedAt := none
                ErrorMessage := some "simulated failure"
                LockedBy := none
                LockedUntil := none }
          else x) } ∧
    (processCount "j9" (CreateJob demoStore 0 "j9" "email" "p" 2 none).2
      demoRounds : Int) ≤ 2 ∧
    ∃ j', j' ∈ (runRounds (CreateJob demoStore 0 "j9" "email" "p" 2 none).2
          demoRounds).jobs ∧
      (∀ x ∈ (runRounds (CreateJob demoStore 0 "j9" "email" "p" 2 none).2
          demoRounds).jobs, x.ID = "j9" → x = j') ∧
      j'.ID = "j9" ∧ j'.MaxAttempts = 2 ∧
      j'.Attempts = processCount "j9"
        (CreateJob demoStore 0 "j9" "email" "p" 2 none).2 demoRounds ∧
      ((processCount "j9" (CreateJob demoStore 0 "j9" "email" "p" 2 none).2
          demoRounds : Int) < 2 → j'.Status = .PENDING ∧ j'.CompletedAt = none) ∧
      ((processCount "j9" (CreateJob demoStore 0 "j9" "email" "p" 2 none).2
          demoRounds : Int) = 2 →
        j'.Status = .FAILED ∧ j'.NextRunAt = none ∧ j'.CompletedAt ≠ none ∧
        j'.ErrorMessage = some "simulated failure")) :=
  ⟨⟨by decide, by decide, by decide, by decide, by decide, by decide, by decide,
      (fun k h => by cases h), by decide, by decide, by decide, by decide, by decide,
      by decide, by decide⟩,
    Process_failure_settlement demoRunner claimedByA 5 claimedRow demoStore 0 "j9" "email" "p"
      2 none demoRounds (by decide) (by decide) (by decide) (by decide) (by decide) (by decide)
      (by decide) (fun k h => by cases h) (by decide) (by decide) (by decide) (by decide)
      (by decide) (by decide)⟩

/-! ## C12: backpressure release -/

/-- C12: let `j` be a job the poll loop claimed in this tick (store with its primary key and
non-empty ids, non-empty worker id) for which `pool.Submit` returned false.  The release at
time `clock j`, run on the store the claim left, is accepted and rewrites exactly that row;
after the tick the row is `released (clock j) j`: status `PENDING`, `locked_by` and
`locked_until` null, `next_run_at = clock j + 250 ms`, attempts equal to the attempts the
row had before it was claimed; and that row is eligible for `ClaimJobs` at every time from
`clock j + 250 ms` on. -/
theorem queue_full_release (db : Store) (workerID : String) (lease : Duration) (now : Time)
    (submit : Job → Bool) (clock : Job → Time) (j : Job) (hpk : PrimaryKey db)
    (hids : ∀ r ∈ db.jobs, r.ID ≠ "") (hw : workerID ≠ "")
    (hj : j ∈ claimedJobs (ClaimJobs db workerID 10 lease now).1) (hs : submit j = false) :
    releaseQueueFull (ClaimJobs db workerID 10 lease now).2 (clock j) j =
      (.ok (), { (ClaimJobs db workerID 10 lease now).2 with
        jobs := (ClaimJobs db workerID 10 lease now).2.jobs.map
          (fun x => if x = j then released (clock j) j else x) }) ∧
    released (clock j) j ∈ (pollTick db workerID lease now submit clock).jobs ∧
    (∀ x ∈ (pollTick db workerID lease now submit clock).jobs,
      x.ID = j.ID → x = released (clock j) j) ∧
    (released (clock j) j).Status = .PENDING ∧
    (released (clock j) j).LockedBy = none ∧
    (released (clock j) j).LockedUntil = none ∧
    (released (clock j) j).NextRunAt = some (clock j + 250 * Millisecond) ∧
    (∃ j0 ∈ db.jobs, j0.ID = j.ID ∧ (released (clock j) j).Attempts = j0.Attempts) ∧
    (∀ t, clock j + 250 * Millisecond ≤ t → eligible t (released (clock j) j) = true) := by
  obtain ⟨hc, hjobs⟩ := ClaimJobs_claimed db workerID 10 lease now hpk hw
  simp only [show ¬ ((10 : Int) ≤ 0) by decide, if_false] at hc hjobs
  have hpk1 := ClaimJobs_primaryKey db workerID 10 lease now hpk
  have htick := pollTick_eq db workerID lease now submit clock hpk hids hw
  have hj' := hj
  rw [hc] at hj'
  obtain ⟨j0, hj0, rfl⟩ := List.mem_map.mp hj'
  have hj0mem := (selectEligible_sublist db.jobs now _ j0 hj0).1
  have hmem : leased workerID (now + lease) now j0 ∈ (ClaimJobs db workerID 10 lease now).2.jobs := by
    rw [hjobs]
    exact List.mem_map.mpr ⟨j0, hj0mem, by simp [hj0]⟩
  have hin : released (clock (leased workerID (now + lease) now j0))
      (leased workerID (now + lease) now j0)
        ∈ (pollTick db workerID lease now submit clock).jobs := by
    rw [htick]
    exact List.mem_map.mpr ⟨_, hmem, by simp [hj, hs]⟩
  have hpk2 : PrimaryKey (pollTick db workerID lease now submit clock) := by
    rw [htick]
    unfold PrimaryKey at hpk1 ⊢
    have : ((ClaimJobs db workerID 10 lease now).2.jobs.map (fun x =>
        if x ∈ claimedJobs (ClaimJobs db workerID 10 lease now).1 ∧ submit x = false
        then released (clock x) x else x)).map (fun j => j.ID)
        = (ClaimJobs db workerID 10 lease now).2.jobs.map (fun j => j.ID) := by
      rw [List.map_map]
      apply List.map_congr_left
      intro x _
      by_cases hx : x ∈ claimedJobs (ClaimJobs db workerID 10 lease now).1 ∧ submit x = false
      · simp [hx, released_ID]
      · simp [hx]
    simpa [this] using hpk1
  refine ⟨releaseQueueFull_running _ _ _ hpk1 hmem rfl (hids j0 hj0mem), hin, ?_, rfl, rfl,
    rfl, rfl, ⟨j0, hj0mem, rfl, rfl⟩, ?_⟩
  · intro x hx hxid
    exact eq_of_ID_eq hpk2 hx hin hxid
  · intro t ht
    simp [eligible, released, nullOrLe, ht]

/-- Instance of C12: worker `A` claims the job of `createdStore` and the pool refuses it. -/
theorem queue_full_release_witness :
    (PrimaryKey createdStore ∧ (∀ r ∈ createdStore.jobs, r.ID ≠ "") ∧ "A" ≠ "" ∧
      claimedRow ∈ claimedJobs (ClaimJobs createdStore "A" 10 10 1).1 ∧
      (fun _ => false) claimedRow = false) ∧
    (releaseQueueFull (ClaimJobs createdStore "A" 10 10 1).2 2 claimedRow =
      (.ok (), { (ClaimJobs createdStore "A" 10 10 1).2 with
        jobs := (ClaimJobs createdStore "A" 10 10 1).2.jobs.map
          (fun x => if x = claimedRow then released 2 claimedRow
            else x) }) ∧
    released 2 claimedRow
      ∈ (pollTick createdStore "A" 10 1 (fun _ => false) (fun _ => 2)).jobs ∧
    (∀ x ∈ (pollTick createdStore "A" 10 1 (fun _ => false) (fun _ => 2)).jobs,
      x.ID = claimedRow.ID → x = released 2 claimedRow) ∧
    (released 2 claimedRow).Status = .PENDING ∧
    (released 2 claimedRow).LockedBy = none ∧
    (released 2 claimedRow).LockedUntil = none ∧
    (released 2 claimedRow).NextRunAt
      = some (2 + 250 * Millisecond) ∧
    (∃ j0 ∈ createdStore.jobs, j0.ID = claimedRow.ID ∧
      (released 2 claimedRow).Attempts = j0.Attempts) ∧
    (∀ t, 2 + 250 * Millisecond ≤ t →
      eligible t (released 2 claimedRow) = true)) :=
  ⟨⟨by decide, by decide, by decide, by decide, rfl⟩,
    queue_full_release createdStore "A" 10 1 (fun _ => false) (fun _ => 2) claimedRow
      (by decide) (by decide) (by decide) (by decide) rfl⟩

/-! ## Lemmas about truncation and the jitter -/

theorem truncate_intCast (z : Int) : truncate (z : ℚ) = z := by
  unfold truncate
  split <;> simp

theorem truncate_le_max (x : ℚ) : (truncate x : ℚ) ≤ max x 0 := by
  unfold truncate
  split
  · rename_i h
    exact le_trans (Int.floor_le x) (le_max_left _ _)
  · rename_i h
    have h1 : x < 0 := not_le.mp h
    have h2 : ⌈x⌉ ≤ 0 := Int.ceil_le.mpr (by exact_mod_cast h1.le)
    exact le_trans (by exact_mod_cast h2) (le_max_right _ _)

theorem min_le_truncate (x : ℚ) : min x 0 ≤ (truncate x : ℚ) := by
  unfold truncate
  split
  · rename_i h
    have h2 : (0 : Int) ≤ ⌊x⌋ := Int.floor_nonneg.mpr h
    exact le_trans (min_le_right _ _) (by exact_mod_cast h2)
  · exact le_trans (min_le_left _ _) (Int.le_ceil x)

theorem sub_one_lt_truncate (x : ℚ) : x - 1 < (truncate x : ℚ) := by
  unfold truncate
  split
  · exact Int.sub_one_lt_floor x
  · exact lt_of_lt_of_le (by linarith) (Int.le_ceil x)

theorem toDuration_of_range (oor : ℚ → Int) (x : ℚ) (h1 : -(2 : ℚ) ^ 63 ≤ x)
    (h2 : x < (2 : ℚ) ^ 63) : toDuration oor x = truncate x := by
  unfold toDuration
  have hlo : -(2 : Int) ^ 63 ≤ truncate x := by
    have := min_le_truncate x
    have h3 : -(2 : ℚ) ^ 63 ≤ min x 0 := le_min h1 (by norm_num)
    have : ((-(2 : Int) ^ 63 : Int) : ℚ) ≤ (truncate x : ℚ) := by
      push_cast
      linarith
    exact_mod_cast this
  have hhi : truncate x < (2 : Int) ^ 63 := by
    have := truncate_le_max x
    have h3 : max x 0 < (2 : ℚ) ^ 63 := max_lt h2 (by norm_num)
    have : (truncate x : ℚ) < (((2 : Int) ^ 63 : Int) : ℚ) := by
      push_cast
      linarith
    exact_mod_cast this
  rw [if_pos ⟨hlo, hhi⟩]

theorem jittered_of_jitter_nonpos (oor : ℚ → Int) (d : Duration) (jitter u : ℚ)
    (hj : jitter ≤ 0) : jittered oor d jitter u = max d 0 := by
  unfold jittered
  by_cases hd : d ≤ 0
  · simp [hd]
  · simp [hd, hj, le_of_lt (not_le.mp hd)]

theorem jittered_bounds (oor : ℚ → Int) (d : Duration) (jitter u : ℚ) (hd : 0 ≤ d)
    (hj : 0 ≤ jitter) (hu0 : 0 ≤ u) (hu1 : u < 1)
    (hr : (d : ℚ) * (1 + jitter) < (2 : ℚ) ^ 63) :
    (d : ℚ) * (1 - jitter) - 1 < (jittered oor d jitter u : ℚ) ∧
      (jittered oor d jitter u : ℚ) ≤ (d : ℚ) * (1 + jitter) := by
  have hdq : (0 : ℚ) ≤ (d : ℚ) := by exact_mod_cast hd
  have hdj : (0 : ℚ) ≤ (d : ℚ) * jitter := mul_nonneg hdq hj
  unfold jittered
  by_cases hd0 : d ≤ 0
  · have : d = 0 := le_antisymm hd0 hd
    subst this
    simp
  · simp only [hd0, if_false]
    by_cases hj0 : jitter ≤ 0
    · have : jitter = 0 := le_antisymm hj0 hj
      subst this
      simp
    · simp only [hj0, if_false]
      have hf1 : (d : ℚ) * (1 - jitter) ≤ (d : ℚ) * (1 + (u * 2 - 1) * jitter) := by
        apply mul_le_mul_of_nonneg_left _ hdq
        nlinarith
      have hf2 : (d : ℚ) * (1 + (u * 2 - 1) * jitter) ≤ (d : ℚ) * (1 + jitter) := by
        apply mul_le_mul_of_nonneg_left _ hdq
        nlinarith
      have hlo : -(2 : ℚ) ^ 63 ≤ (d : ℚ) * (1 + (u * 2 - 1) * jitter) := by
        have : -((d : ℚ) * (1 + jitter)) ≤ (d : ℚ) * (1 - jitter) := by nlinarith
        linarith
      rw [toDuration_of_range oor _ hlo (lt_of_le_of_lt hf2 hr)]
      constructor
      · have := sub_one_lt_truncate ((d : ℚ) * (1 + (u * 2 - 1) * jitter))
        linarith
      · have := truncate_le_max ((d : ℚ) * (1 + (u * 2 - 1) * jitter))
        have h0 : (0 : ℚ) ≤ (d : ℚ) * (1 + jitter) := by nlinarith
        exact le_trans this (max_le hf2 h0)

theorem Next_of_le_one (c : BackoffConfig) (oor : ℚ → Int) (attempt : Int) (u : ℚ)
    (h : attempt ≤ 1) : c.Next oor attempt u = jittered oor c.Base c.Jitter u := by
  simp [BackoffConfig.Next, h]

theorem Next_of_ge_two (c : BackoffConfig) (oor : ℚ → Int) (attempt : Int) (u : ℚ)
    (h : 2 ≤ attempt) :
    c.Next oor attempt u =
      jittered oor
        (if c.Max > 0 ∧
            toDuration oor ((c.Base : ℚ) * (2 : ℚ) ^ (attempt - 1).toNat) > c.Max then c.Max
          else toDuration oor ((c.Base : ℚ) * (2 : ℚ) ^ (attempt - 1).toNat))
        c.Jitter u := by
  have : ¬ attempt ≤ 1 := by omega
  simp [BackoffConfig.Next, this]

theorem jittered_le (oor : ℚ → Int) (d M : Duration) (jitter u : ℚ) (hdM : d ≤ M)
    (hM : 0 < M) (hj : 0 ≤ jitter) (hu0 : 0 ≤ u) (hu1 : u < 1)
    (hr : (M : ℚ) * (1 + jitter) < (2 : ℚ) ^ 63) :
    (jittered oor d jitter u : ℚ) ≤ (M : ℚ) * (1 + jitter) := by
  have hMq : (0 : ℚ) < (M : ℚ) := by exact_mod_cast hM
  have h1j : (0 : ℚ) ≤ 1 + jitter := by linarith
  have hdMq : (d : ℚ) ≤ (M : ℚ) := by exact_mod_cast hdM
  by_cases hd : d ≤ 0
  · have : jittered oor d jitter u = 0 := by simp [jittered, hd]
    rw [this]
    push_cast
    exact mul_nonneg hMq.le h1j
  · have hd' : 0 ≤ d := le_of_lt (not_le.mp hd)
    have hle : (d : ℚ) * (1 + jitter) ≤ (M : ℚ) * (1 + jitter) :=
      mul_le_mul_of_nonneg_right hdMq h1j
    exact le_trans (jittered_bounds oor d jitter u hd' hj hu0 hu1 (lt_of_le_of_lt hle hr)).2 hle

/-! ## C13: bounds of the backoff delay -/

/-- C13, as stated, fails in three ways.  With `base = 100`, `max = 10` and no jitter,
`Next(1) = 100`, above `max·(1+j) = 10`: the first attempt is not capped.  With `base = 5`,
`max = 0` and no jitter, `Next(2) = 10`, above `max·(1+j) = 0`: a `Max` that is not positive
disables the cap.  With `base = 3`, `j = 1/2` and the draw `0`, `Next(1) = 1`, below
`base·(1-j) = 3/2`: the conversion to a duration truncates. -/
theorem Next_bounds_counterexample :
    ((BackoffConfig.mk 100 10 0).Next minInt64 1 0 = 100 ∧
        ¬ ((100 : ℚ) ≤ 10 * (1 + 0))) ∧
      ((BackoffConfig.mk 5 0 0).Next minInt64 2 0 = 10 ∧
        ¬ ((10 : ℚ) ≤ 0 * (1 + 0))) ∧
      ((BackoffConfig.mk 3 10 (1 / 2)).Next minInt64 1 0 = 1 ∧
        ¬ ((3 : ℚ) * (1 - 1 / 2) ≤ 1)) := by
  refine ⟨⟨?_, by norm_num⟩, ⟨?_, by norm_num⟩, ⟨?_, by norm_num⟩⟩
  · simp [BackoffConfig.Next, jittered]
  · have h : truncate (10 : ℚ) = 10 := by
      have := truncate_intCast 10
      simpa using this
    simp only [BackoffConfig.Next, jittered, toDuration]
    norm_num
    rw [h]
    norm_num
  · have h : truncate ((3 : ℚ) / 2) = 1 := by
      unfold truncate
      rw [if_pos (by norm_num)]
      exact Int.floor_eq_iff.mpr ⟨by norm_num, by norm_num⟩
    simp only [BackoffConfig.Next, jittered, toDuration]
    norm_num
    rw [h]
    norm_num

/-- C13, amended: take the jitter arithmetic exact (the rounding of `float64` aside), a jitter
`j >= 0` and a draw in `[0, 1)`.  For `base >= 0` with `base·(1+j)` below `2^63`,
`base·(1-j) - 1 < Next(1) <= base·(1+j)`: the truncation to whole nanoseconds can take the
delay below `base·(1-j)`, by less than one.  For `max > 0` with `max·(1+j)` below `2^63`,
`Next(k) <= max·(1+j)` for every attempt `k >= 2`, and for every attempt when moreover
`base <= max`; the first attempt is not capped, and `max <= 0` means no cap. -/
theorem Next_bounds (c : BackoffConfig) (outOfRange : ℚ → Int) (u : ℚ)
    (hj : 0 ≤ c.Jitter) (hu0 : 0 ≤ u) (hu1 : u < 1) :
    (0 ≤ c.Base → (c.Base : ℚ) * (1 + c.Jitter) < (2 : ℚ) ^ 63 →
      (c.Base : ℚ) * (1 - c.Jitter) - 1 < (c.Next outOfRange 1 u : ℚ) ∧
      (c.Next outOfRange 1 u : ℚ) ≤ (c.Base : ℚ) * (1 + c.Jitter)) ∧
    (0 < c.Max → (c.Max : ℚ) * (1 + c.Jitter) < (2 : ℚ) ^ 63 →
      (∀ k : Int, 2 ≤ k → (c.Next outOfRange k u : ℚ) ≤ (c.Max : ℚ) * (1 + c.Jitter)) ∧
      (c.Base ≤ c.Max →
        ∀ k : Int, (c.Next outOfRange k u : ℚ) ≤ (c.Max : ℚ) * (1 + c.Jitter))) := by
  have hge : ∀ k : Int, 0 < c.Max → (c.Max : ℚ) * (1 + c.Jitter) < (2 : ℚ) ^ 63 → 2 ≤ k →
      (c.Next outOfRange k u : ℚ) ≤ (c.Max : ℚ) * (1 + c.Jitter) := by
    intro k hM hr hk
    rw [Next_of_ge_two c outOfRange k u hk]
    apply jittered_le outOfRange _ c.Max c.Jitter u _ hM hj hu0 hu1 hr
    split
    · exact le_refl _
    · rename_i h
      by_contra hgt
      exact h ⟨hM, not_le.mp hgt⟩
  refine ⟨?_, ?_⟩
  · intro hb hr
    rw [Next_of_le_one c outOfRange 1 u (le_refl _)]
    exact jittered_bounds outOfRange c.Base c.Jitter u hb hj hu0 hu1 hr
  · intro hM hr
    refine ⟨fun k hk => hge k hM hr hk, ?_⟩
    intro hbm k
    by_cases hk : 2 ≤ k
    · exact hge k hM hr hk
    · rw [Next_of_le_one c outOfRange k u (by omega)]
      exact jittered_le outOfRange c.Base c.Max c.Jitter u hbm hM hj hu0 hu1 hr

/-- Instance of C13: base 500 ms, cap 30 s, jitter 20 %, draw 3/4. -/
theorem Next_bounds_witness :
    ((0 : ℚ) ≤ demoBackoff.Jitter ∧ (0 : ℚ) ≤ 3 / 4 ∧ (3 / 4 : ℚ) < 1 ∧
      0 ≤ demoBackoff.Base ∧ 0 < demoBackoff.Max ∧ demoBackoff.Base ≤ demoBackoff.Max ∧
      (demoBackoff.Base : ℚ) * (1 + demoBackoff.Jitter) < (2 : ℚ) ^ 63 ∧
      (demoBackoff.Max : ℚ) * (1 + demoBackoff.Jitter) < (2 : ℚ) ^ 63) ∧
    ((demoBackoff.Base : ℚ) * (1 - demoBackoff.Jitter) - 1
        < (demoBackoff.Next minInt64 1 (3 / 4) : ℚ) ∧
      (demoBackoff.Next minInt64 1 (3 / 4) : ℚ)
        ≤ (demoBackoff.Base : ℚ) * (1 + demoBackoff.Jitter)) ∧
    (∀ k : Int, (demoBackoff.Next minInt64 k (3 / 4) : ℚ)
      ≤ (demoBackoff.Max : ℚ) * (1 + demoBackoff.Jitter)) :=
  ⟨⟨by norm_num [demoBackoff], by norm_num, by norm_num, by decide, by decide, by decide,
      by norm_num [demoBackoff, Millisecond], by norm_num [demoBackoff, Millisecond]⟩,
    (Next_bounds demoBackoff minInt64 (3 / 4) (by norm_num [demoBackoff]) (by norm_num)
      (by norm_num)).1 (by decide) (by norm_num [demoBackoff, Millisecond]),
    ((Next_bounds demoBackoff minInt64 (3 / 4) (by norm_num [demoBackoff]) (by norm_num)
      (by norm_num)).2 (by decide) (by norm_num [demoBackoff, Millisecond])).2 (by decide)⟩

/-! ## Lemmas about the backoff without jitter -/

theorem toDuration_intCast (oor : ℚ → Int) (z : Int) :
    toDuration oor (z : ℚ) =
      if -(2 : Int) ^ 63 ≤ z ∧ z < (2 : Int) ^ 63 then z else oor (z : ℚ) := by
  simp only [toDuration, truncate_intCast]

theorem Next_nojitter_le_one (c : BackoffConfig) (oor : ℚ → Int) (a : Int) (u : ℚ)
    (hj : c.Jitter ≤ 0) (ha : a ≤ 1) : c.Next oor a u = max c.Base 0 := by
  rw [Next_of_le_one c oor a u ha, jittered_of_jitter_nonpos oor _ _ u hj]

theorem Next_nojitter_ge_two (c : BackoffConfig) (oor : ℚ → Int) (a : Int) (u : ℚ)
    (hj : c.Jitter ≤ 0) (ha : 2 ≤ a) :
    c.Next oor a u =
      max (if c.Max > 0 ∧
            toDuration oor ((c.Base * 2 ^ (a - 1).toNat : Int) : ℚ) > c.Max then c.Max
          else toDuration oor ((c.Base * 2 ^ (a - 1).toNat : Int) : ℚ)) 0 := by
  rw [Next_of_ge_two c oor a u ha, jittered_of_jitter_nonpos oor _ _ u hj]
  push_cast
  rfl

theorem Next_nojitter_in_range (c : BackoffConfig) (oor : ℚ → Int) (a : Int) (u : ℚ)
    (hj : c.Jitter ≤ 0) (ha : 2 ≤ a) (hlo : -(2 : Int) ^ 63 ≤ c.Base * 2 ^ (a - 1).toNat)
    (hhi : c.Base * 2 ^ (a - 1).toNat < (2 : Int) ^ 63) :
    c.Next oor a u =
      max (if 0 < c.Max then min (c.Base * 2 ^ (a - 1).toNat) c.Max
          else c.Base * 2 ^ (a - 1).toNat) 0 := by
  have hd : toDuration oor ((c.Base * 2 ^ (a - 1).toNat : Int) : ℚ)
      = c.Base * 2 ^ (a - 1).toNat := by
    rw [toDuration_intCast]
    exact if_pos ⟨hlo, hhi⟩
  rw [Next_nojitter_ge_two c oor a u hj ha, hd]
  congr 1
  by_cases hM : 0 < c.Max
  · by_cases hgt : c.Base * 2 ^ (a - 1).toNat > c.Max
    · have h1 : c.Max > 0 ∧ c.Base * 2 ^ (a - 1).toNat > c.Max := ⟨hM, hgt⟩
      rw [if_pos h1, if_pos hM]
      exact (min_eq_right (le_of_lt hgt)).symm
    · have h1 : ¬ (c.Max > 0 ∧ c.Base * 2 ^ (a - 1).toNat > c.Max) := fun h => hgt h.2
      rw [if_neg h1, if_pos hM]
      exact (min_eq_left (not_lt.mp hgt)).symm
  · have h1 : ¬ (c.Max > 0 ∧ c.Base * 2 ^ (a - 1).toNat > c.Max) := fun h => hM h.1
    rw [if_neg h1, if_neg hM]

/-- The delay without jitter, for every attempt from 1 on, when the cap does not cut the
first attempt. -/
theorem Next_nojitter_uniform (c : BackoffConfig) (oor : ℚ → Int) (a : Int) (u : ℚ)
    (hj : c.Jitter ≤ 0) (ha : 1 ≤ a) (hlo : -(2 : Int) ^ 63 ≤ c.Base * 2 ^ (a - 1).toNat)
    (hhi : c.Base * 2 ^ (a - 1).toNat < (2 : Int) ^ 63) (hc : c.Max ≤ 0 ∨ c.Base ≤ c.Max) :
    c.Next oor a u =
      max (if 0 < c.Max then min (c.Base * 2 ^ (a - 1).toNat) c.Max
          else c.Base * 2 ^ (a - 1).toNat) 0 := by
  by_cases h2 : 2 ≤ a
  · exact Next_nojitter_in_range c oor a u hj h2 hlo hhi
  · have h1 : a = 1 := by omega
    subst h1
    rw [Next_nojitter_le_one c oor 1 u hj (le_refl _)]
    simp only [sub_self, Int.toNat_zero, pow_zero, mul_one]
    by_cases hM : 0 < c.Max
    · rcases hc with hc | hc
      · exact absurd hM (not_lt.mpr hc)
      · rw [if_pos hM, min_eq_left hc]
    · rw [if_neg hM]

theorem pow_toNat_le (a b : Int) (hab : a ≤ b) :
    (2 : Int) ^ (a - 1).toNat ≤ (2 : Int) ^ (b - 1).toNat := by
  apply pow_le_pow_right₀ (by norm_num)
  exact Int.toNat_le_toNat (by omega)

theorem Next_nojitter_mono (c : BackoffConfig) (oor : ℚ → Int) (a b : Int) (u : ℚ)
    (hj : c.Jitter ≤ 0) (ha : 1 ≤ a) (hab : a ≤ b)
    (hlo : -(2 : Int) ^ 63 ≤ c.Base * 2 ^ (b - 1).toNat)
    (hhi : c.Base * 2 ^ (b - 1).toNat < (2 : Int) ^ 63) (hc : c.Max ≤ 0 ∨ c.Base ≤ c.Max) :
    c.Next oor a u ≤ c.Next oor b u := by
  have hp := pow_toNat_le a b hab
  have hpa : (0 : Int) < 2 ^ (a - 1).toNat := by positivity
  have hpb : (0 : Int) < 2 ^ (b - 1).toNat := by positivity
  by_cases hb0 : 0 ≤ c.Base
  · have hE : c.Base * 2 ^ (a - 1).toNat ≤ c.Base * 2 ^ (b - 1).toNat :=
      mul_le_mul_of_nonneg_left hp hb0
    have hE0 : 0 ≤ c.Base * 2 ^ (a - 1).toNat := mul_nonneg hb0 hpa.le
    rw [Next_nojitter_uniform c oor a u hj ha (le_trans (by norm_num) hE0)
        (lt_of_le_of_lt hE hhi) hc,
      Next_nojitter_uniform c oor b u hj (le_trans ha hab) hlo hhi hc]
    apply max_le_max _ (le_refl _)
    by_cases hM : 0 < c.Max
    · rw [if_pos hM, if_pos hM]
      exact min_le_min hE (le_refl _)
    · rw [if_neg hM, if_neg hM]
      exact hE
  · have hb1 : c.Base < 0 := not_le.mp hb0
    have hE : c.Base * 2 ^ (b - 1).toNat ≤ c.Base * 2 ^ (a - 1).toNat :=
      mul_le_mul_of_nonpos_left hp hb1.le
    have hE0 : c.Base * 2 ^ (a - 1).toNat < 0 := mul_neg_of_neg_of_pos hb1 hpa
    rw [Next_nojitter_uniform c oor a u hj ha (le_trans hlo hE)
        (lt_trans hE0 (by norm_num)) hc,
      Next_nojitter_uniform c oor b u hj (le_trans ha hab) hlo hhi hc]
    have : max (if 0 < c.Max then min (c.Base * 2 ^ (a - 1).toNat) c.Max
        else c.Base * 2 ^ (a - 1).toNat) 0 = 0 := by
      apply max_eq_right
      split
      · exact le_trans (min_le_left _ _) hE0.le
      · exact hE0.le
    rw [this]
    exact le_max_right _ _

/-! ## C14: the backoff without jitter -/

/-- C14, as stated, fails in three ways, all with jitter 0.  With `base = 100` and `max = 10`,
`Next(1) = 100` but `Next(2) = 10`: the first attempt is not capped, so the delay decreases.
With `base = 5` and `max = 0`, `Next(2) = 10`, not `min(base·2, max) = 0`: a `Max` that is
not positive disables the cap.  With `base = 1`, `max = 10` and the out-of-range conversion
of amd64, `Next(64) = 0` below `Next(1) = 1`: `base·2^63` does not fit into a duration. -/
theorem Next_without_jitter_counterexample :
    ((BackoffConfig.mk 100 10 0).Next minInt64 1 0 = 100 ∧
        (BackoffConfig.mk 100 10 0).Next minInt64 2 0 = 10) ∧
      ((BackoffConfig.mk 5 0 0).Next minInt64 2 0 = 10 ∧
        max (min ((5 : Int) * 2 ^ 1) 0) 0 = 0) ∧
      ((BackoffConfig.mk 1 10 0).Next minInt64 1 0 = 1 ∧
        (BackoffConfig.mk 1 10 0).Next minInt64 64 0 = 0) := by
  refine ⟨⟨?_, ?_⟩, ⟨?_, by decide⟩, ⟨?_, ?_⟩⟩
  · rw [Next_nojitter_le_one _ minInt64 1 0 (le_refl _) (le_refl _)]
    decide
  · rw [Next_nojitter_ge_two _ minInt64 2 0 (le_refl _) (le_refl _), toDuration_intCast]
    decide
  · rw [Next_nojitter_ge_two _ minInt64 2 0 (le_refl _) (le_refl _), toDuration_intCast]
    decide
  · rw [Next_nojitter_le_one _ minInt64 1 0 (le_refl _) (le_refl _)]
    decide
  · rw [Next_nojitter_ge_two _ minInt64 64 0 (le_refl _) (by decide), toDuration_intCast]
    decide

/-- C14, amended: with jitter `<= 0` the delay does not depend on the draw.  `Next(a)` is
`base`, or 0 when `base <= 0`, for `a <= 1`.  Let `base` be of magnitude at most `2^53`, so
that `float64(base)` is `base`, and take attempts up to 1024, so that `2^(a-1)` is a finite
`float64`: the product `base·2^(a-1)` is then computed without rounding.  For such an
`a >= 2` with `base·2^(a-1)` an `int64`, `Next(a)` is the raw delay, or 0 when that is
`<= 0`, where the raw delay is `min(base·2^(a-1), max)` when `max > 0` and `base·2^(a-1)`,
uncapped, when `max <= 0`.  And `Next(a) <= Next(b)` for such `1 <= a <= b` when
`base·2^(b-1)` is an `int64` and the cap does not cut the first attempt (`max <= 0` or
`base <= max`). -/
theorem Next_without_jitter (c : BackoffConfig) (outOfRange : ℚ → Int) (hj : c.Jitter ≤ 0) :
    (∀ (a : Int) (u u' : ℚ), c.Next outOfRange a u = c.Next outOfRange a u') ∧
    (∀ (a : Int) (u : ℚ), a ≤ 1 → c.Next outOfRange a u = max c.Base 0) ∧
    (∀ (a : Int) (u : ℚ), 2 ≤ a → a ≤ 1024 →
      -(2 : Int) ^ 53 ≤ c.Base → c.Base ≤ (2 : Int) ^ 53 →
      -(2 : Int) ^ 63 ≤ c.Base * 2 ^ (a - 1).toNat →
      c.Base * 2 ^ (a - 1).toNat < (2 : Int) ^ 63 →
      c.Next outOfRange a u =
        max (if 0 < c.Max then min (c.Base * 2 ^ (a - 1).toNat) c.Max
            else c.Base * 2 ^ (a - 1).toNat) 0) ∧
    (∀ (a b : Int) (u : ℚ), 1 ≤ a → a ≤ b → b ≤ 1024 →
      -(2 : Int) ^ 53 ≤ c.Base → c.Base ≤ (2 : Int) ^ 53 →
      -(2 : Int) ^ 63 ≤ c.Base * 2 ^ (b - 1).toNat →
      c.Base * 2 ^ (b - 1).toNat < (2 : Int) ^ 63 → (c.Max ≤ 0 ∨ c.Base ≤ c.Max) →
      c.Next outOfRange a u ≤ c.Next outOfRange b u) := by
  refine ⟨?_, ?_, ?_, ?_⟩
  · intro a u u'
    by_cases ha : a ≤ 1
    · rw [Next_nojitter_le_one c outOfRange a u hj ha,
        Next_nojitter_le_one c outOfRange a u' hj ha]
    · rw [Next_nojitter_ge_two c outOfRange a u hj (by omega),
        Next_nojitter_ge_two c outOfRange a u' hj (by omega)]
  · intro a u ha
    exact Next_nojitter_le_one c outOfRange a u hj ha
  · intro a u ha _ _ _ hlo hhi
    exact Next_nojitter_in_range c outOfRange a u hj ha hlo hhi
  · intro a b u ha hab _ _ _ hlo hhi hc
    exact Next_nojitter_mono c outOfRange a b u hj ha hab hlo hhi hc

/-- Instance of C14: base 500 ms and cap 30 s without jitter, attempts 3 and 9. -/
theorem Next_without_jitter_witness :
    ((BackoffConfig.mk (500 * Millisecond) (30000 * Millisecond) 0).Jitter ≤ 0) ∧
    ((BackoffConfig.mk (500 * Millisecond) (30000 * Millisecond) 0).Next minInt64 3 (1 / 2)
        = 2000 * Millisecond ∧
      (BackoffConfig.mk (500 * Millisecond) (30000 * Millisecond) 0).Next minInt64 9 (1 / 2)
        = 30000 * Millisecond ∧
      (BackoffConfig.mk (500 * Millisecond) (30000 * Millisecond) 0).Next minInt64 3 (1 / 2)
        ≤ (BackoffConfig.mk (500 * Millisecond) (30000 * Millisecond) 0).Next minInt64 9
          (1 / 2)) :=
  ⟨le_refl _,
    ((Next_without_jitter (BackoffConfig.mk (500 * Millisecond) (30000 * Millisecond) 0)
        minInt64 (le_refl _)).2.2.1 3 (1 / 2) (by decide) (by decide) (by decide) (by decide)
        (by decide) (by decide)).trans
      (by decide),
    ((Next_without_jitter (BackoffConfig.mk (500 * Millisecond) (30000 * Millisecond) 0)
        minInt64 (le_refl _)).2.2.1 9 (1 / 2) (by decide) (by decide) (by decide) (by decide)
        (by decide) (by decide)).trans
      (by decide),
    (Next_without_jitter (BackoffConfig.mk (500 * Millisecond) (30000 * Millisecond) 0)
      minInt64 (le_refl _)).2.2.2 3 9 (1 / 2) (by decide) (by decide) (by decide) (by decide)
      (by decide) (by decide) (by decide) (Or.inr (by decide))⟩

/-! ## C15: `ClaimJobs` with `limit = 0` -/

/-- C15, as stated, fails: with `limit = 0` the claim of `A` on `createdStore` returns the
job and leases it. -/
theorem ClaimJobs_limit_zero_counterexample :
    ¬ ∀ (db : Store) (workerID : String) (lease : Duration) (now : Time),
        claimedJobs (ClaimJobs db workerID 0 lease now).1 = [] ∧
          (ClaimJobs db workerID 0 lease now).2 = db := by
  intro h
  exact absurd (h createdStore "A" 10 1) (by decide)

/-- C15, amended: `ClaimJobs` replaces a `limit` of 0 by 10, so with `limit = 0` it does what
it does with `limit = 10`: for a store with its primary key and a non-empty worker id it
returns, and leases, the first 10 eligible rows (all of them when there are fewer); it
returns an empty list, and then leaves the store unchanged, exactly when no row is
eligible. -/
theorem ClaimJobs_limit_zero (db : Store) (workerID : String) (lease : Duration) (now : Time)
    (hpk : PrimaryKey db) (hw : workerID ≠ "") :
    ClaimJobs db workerID 0 lease now = ClaimJobs db workerID 10 lease now ∧
    (claimedJobs (ClaimJobs db workerID 0 lease now).1).length
      = min 10 (db.jobs.filter (eligible now)).length ∧
    (claimedJobs (ClaimJobs db workerID 0 lease now).1 = [] ↔
      ∀ j ∈ db.jobs, eligible now j = false) ∧
    ((∀ j ∈ db.jobs, eligible now j = false) →
      (ClaimJobs db workerID 0 lease now).2 = db) := by
  have h0 : ClaimJobs db workerID 0 lease now = ClaimJobs db workerID 10 lease now := by
    simp [ClaimJobs]
  obtain ⟨hc, hj⟩ := ClaimJobs_claimed db workerID 10 lease now hpk hw
  simp only [show ¬ ((10 : Int) ≤ 0) by decide, if_false] at hc hj
  have hlen : (selectEligible db.jobs now 10).length
      = min 10 (db.jobs.filter (eligible now)).length := by
    simp [selectEligible, List.length_take, List.length_insertionSort]
  have hnil : selectEligible db.jobs now 10 = [] ↔ ∀ j ∈ db.jobs, eligible now j = false := by
    rw [← List.length_eq_zero, hlen]
    constructor
    · intro h j hj'
      have h' : (db.jobs.filter (eligible now)).length = 0 := by omega
      rw [List.length_eq_zero, List.filter_eq_nil_iff] at h'
      simpa using h' j hj'
    · intro h
      have : db.jobs.filter (eligible now) = [] := by
        rw [List.filter_eq_nil_iff]
        intro j hj'
        simp [h j hj']
      simp [this]
  refine ⟨h0, ?_, ?_, ?_⟩
  · rw [h0, hc, List.length_map, hlen]
  · rw [h0, hc, List.map_eq_nil_iff, hnil]
  · intro h
    have hs := hnil.mpr h
    rw [h0]
    have : (ClaimJobs db workerID 10 lease now).2.jobs = db.jobs := by
      rw [hj, hs]
      simp
    have h2 := ClaimJobs_steps db workerID 10 lease now
    generalize (ClaimJobs db workerID 10 lease now).2 = db' at this h2
    cases db'
    cases db
    simp_all

/-- Instance of C15: worker `A` claims from `createdStore` with `limit = 0`. -/
theorem ClaimJobs_limit_zero_witness :
    (PrimaryKey createdStore ∧ "A" ≠ "") ∧
    (ClaimJobs createdStore "A" 0 10 1 = ClaimJobs createdStore "A" 10 10 1 ∧
    (claimedJobs (ClaimJobs createdStore "A" 0 10 1).1).length
      = min 10 (createdStore.jobs.filter (eligible 1)).length ∧
    (claimedJobs (ClaimJobs createdStore "A" 0 10 1).1 = [] ↔
      ∀ j ∈ createdStore.jobs, eligible 1 j = false) ∧
    ((∀ j ∈ createdStore.jobs, eligible 1 j = false) →
      (ClaimJobs createdStore "A" 0 10 1).2 = createdStore)) :=
  ⟨⟨by decide, by decide⟩, ClaimJobs_limit_zero createdStore "A" 10 1 (by decide) (by decide)⟩

end TaskScheduler
